import Mathlib

/-!
Verification of the sampling-based motion-planning engine (tree planners
RRT / RRT* / RRT-Connect / Dynamic RRT / Informed RRT* and roadmap planners
PRM / PRM* / Lazy PRM) against its natural-language specification.

The Python source is shallowly embedded:

* `Point` is `ℤ × ℤ` (Python ints are unbounded), a grid is a list of rows of
  cell values (`0` free, `1` obstacle); `grid[y][x]` accesses are always
  guarded by bounds checks in the source, so out-of-range reads use a default.
* Euclidean distances appear in the source only through `sqrt`; wherever the
  source merely *compares* distances (nearest-node scans, radius and
  goal-tolerance thresholds, neighbor sorting) the embedding compares squared
  distances, which is equivalent because `sqrt` is strictly monotone.
  Where the source *stores and sums* distances (edge weights, costs-to-come)
  the embedding uses `Real.sqrt` on exact reals; IEEE-754 rounding of the
  Python floats is not modelled.
* The process-wide random source is modelled as an explicit stream of draws
  passed into each run, indexed by the order in which the source consumes them.
* Wall-clock elapsed time is not modelled; the source's variation in return
  arity (whether an iteration/sample count is part of the returned tuple) is
  modelled by an `Option ℕ` count component.
* The optional visualization hook is modelled by recording, when `animate` is
  true, the argument of each hook invocation (a snapshot of the current edge
  list) in a `frames` list; the source never reads anything back from the hook.
* Python `while` loops are bounded by explicit fuel equal to the exact
  iteration count where the source's loop provably performs that many
  iterations, and by a sufficient bound otherwise; reconstruction of paths by
  following parent links, which diverges in Python on a cyclic parent
  structure, returns `none` in that case (`Option` models nontermination).
-/

namespace PathPlanner

abbrev Point : Type := ℤ × ℤ

abbrev Grid : Type := List (List ℕ)

/-- Number of rows; the source uses `len(grid)` for both x and y bounds
(grids are square). -/
def gridSize (g : Grid) : ℕ := g.length

/-- Cell value `grid[y][x]`.  Every access in the source is guarded by a
bounds check on both coordinates, so the out-of-range default `1` is never
observable. -/
def cellAt (g : Grid) (x y : ℤ) : ℕ :=
  ((g.getD y.toNat []).getD x.toNat 1)

/-- `0 <= x < grid_size and 0 <= y < grid_size` (grid_utils.in_bounds and the
inline bound checks of the planners). -/
def inBoundsB (g : Grid) (x y : ℤ) : Bool :=
  decide (0 ≤ x) && decide (x < (gridSize g : ℤ)) &&
    (decide (0 ≤ y) && decide (y < (gridSize g : ℤ)))

/-- grid_utils.is_free: in bounds and `grid[y][x] == 0`. -/
def is_free (g : Grid) (x y : ℤ) : Bool :=
  inBoundsB g x y && decide (cellAt g x y = 0)

/-- Squared Euclidean distance; the source's `_distance` is
`sqrt (squaredDist ...)` and is only ever used through order comparisons or
as a stored real value. -/
def squaredDist (a b : Point) : ℕ :=
  (a.1 - b.1).natAbs ^ 2 + (a.2 - b.2).natAbs ^ 2

/-- The exact real value of the source's `_distance` (math.sqrt of the squared
distance). -/
noncomputable def distR (a b : Point) : ℝ :=
  Real.sqrt (squaredDist a b)

/-- The comparison `_distance ≤ threshold` for a rational threshold, in
integer arithmetic: `√sq ≤ t ↔ 0 ≤ t ∧ sq · t.den² ≤ t.num²`. -/
def distLeQ (sq : ℕ) (t : ℚ) : Bool :=
  decide (0 ≤ t.num) && decide ((sq : ℤ) * (t.den : ℤ) ^ 2 ≤ t.num ^ 2)

/-! ### grid_utils.line_is_clear

The x-major branch loops `while x != x1`, stepping `x` by `sx` once per
iteration, hence runs exactly `dx = |x1 - x0|` times; fuel is that count.
The float error term starts at `dx / 2.0` and changes by integer amounts; it
is carried exactly, scaled by 2 (`e2 = 2·err`), in integer arithmetic. -/

def lineClearAuxX (g : Grid) (sx sy : ℤ) (dx dy : ℕ) :
    ℕ → ℤ → ℤ → ℤ → Bool
  | 0, _, _, _ => true
  | fuel + 1, x, y, e2 =>
    if is_free g x y = false then false
    else
      let e2' := e2 - 2 * dy
      if e2' < 0 then lineClearAuxX g sx sy dx dy fuel (x + sx) (y + sy) (e2' + 2 * dx)
      else lineClearAuxX g sx sy dx dy fuel (x + sx) y e2'

def lineClearAuxY (g : Grid) (sx sy : ℤ) (dx dy : ℕ) :
    ℕ → ℤ → ℤ → ℤ → Bool
  | 0, _, _, _ => true
  | fuel + 1, x, y, e2 =>
    if is_free g x y = false then false
    else
      let e2' := e2 - 2 * dx
      if e2' < 0 then lineClearAuxY g sx sy dx dy fuel (x + sx) (y + sy) (e2' + 2 * dy)
      else lineClearAuxY g sx sy dx dy fuel x (y + sy) e2'

/-- grid_utils.line_is_clear: Bresenham collision-freedom check used by
rrt_star.py. -/
def line_is_clear (g : Grid) (a b : Point) : Bool :=
  let dx := (b.1 - a.1).natAbs
  let dy := (b.2 - a.2).natAbs
  let sx : ℤ := if b.1 > a.1 then 1 else -1
  let sy : ℤ := if b.2 > a.2 then 1 else -1
  if dy ≤ dx then
    lineClearAuxX g sx sy dx dy dx a.1 a.2 (dx : ℤ) && is_free g b.1 b.2
  else
    lineClearAuxY g sx sy dx dy dy a.1 a.2 (dy : ℤ) && is_free g b.1 b.2

/-! ### `_line_collision` (prm.py, prm_star.py, lazy_prm.py,
informed_rrt_start.py — identical bodies)

A `for` loop of exactly `n = 1 + dx + dy` iterations; returns `true` when a
traversed cell is out of bounds or occupied. -/

def lineCollisionAux (g : Grid) (xInc yInc dx2 dy2 : ℤ) :
    ℕ → ℤ → ℤ → ℤ → Bool
  | 0, _, _, _ => false
  | fuel + 1, x, y, error =>
    if !(decide (0 ≤ x) && decide (x < (gridSize g : ℤ)) &&
        (decide (0 ≤ y) && decide (y < (gridSize g : ℤ)))) then true
    else if cellAt g x y = 1 then true
    else if error > 0 then
      lineCollisionAux g xInc yInc dx2 dy2 fuel (x + xInc) y (error - dy2)
    else
      lineCollisionAux g xInc yInc dx2 dy2 fuel x (y + yInc) (error + dx2)

/-- `_line_collision(grid, p1, p2)`: true when the rasterized segment hits an
out-of-bounds or occupied cell. -/
def line_collision (g : Grid) (p1 p2 : Point) : Bool :=
  let dx := (p2.1 - p1.1).natAbs
  let dy := (p2.2 - p1.2).natAbs
  let n := 1 + dx + dy
  let xInc : ℤ := if p2.1 > p1.1 then 1 else -1
  let yInc : ℤ := if p2.2 > p1.2 then 1 else -1
  lineCollisionAux g xInc yInc (2 * dx) (2 * dy) n p1.1 p1.2 ((dx : ℤ) - (dy : ℤ))

/-- `_check_path_validity(grid, node, parent)` of dynamic_rrt.py: `True` for a
root (parent `None`); otherwise its body is exactly the negation of
`_line_collision` marched from `parent` to `node`. -/
def check_path_validity (g : Grid) (node : Point) (parent : Option Point) : Bool :=
  match parent with
  | none => true
  | some p => !line_collision g p node

/-! ### `_interpolate` (identical bodies in rrt_star.py, informed_rrt_start.py,
prm.py, prm_star.py, lazy_prm.py)

The x-major branch loops `while x != x1` stepping `x` by `sx` each iteration,
so it runs exactly `dx` times; `err = dx // 2` is integer arithmetic. -/

def interpAuxX (sx sy : ℤ) (dx dy : ℕ) : ℕ → ℤ → ℤ → ℤ → List Point
  | 0, _, _, _ => []
  | fuel + 1, x, y, err =>
    let x' := x + sx
    let err' := err - dy
    if err' < 0 then
      (x', y + sy) :: interpAuxX sx sy dx dy fuel x' (y + sy) (err' + dx)
    else
      (x', y) :: interpAuxX sx sy dx dy fuel x' y err'

def interpAuxY (sx sy : ℤ) (dx dy : ℕ) : ℕ → ℤ → ℤ → ℤ → List Point
  | 0, _, _, _ => []
  | fuel + 1, x, y, err =>
    let y' := y + sy
    let err' := err - dx
    if err' < 0 then
      (x + sx, y') :: interpAuxY sx sy dx dy fuel (x + sx) y' (err' + dy)
    else
      (x, y') :: interpAuxY sx sy dx dy fuel x y' err'

/-- `_interpolate(a, b)`: dense Bresenham point sequence including both
endpoints. -/
def interpolate (a b : Point) : List Point :=
  let dx := (b.1 - a.1).natAbs
  let dy := (b.2 - a.2).natAbs
  let sx : ℤ := if b.1 > a.1 then 1 else -1
  let sy : ℤ := if b.2 > a.2 then 1 else -1
  if dy < dx then
    (a.1, a.2) :: interpAuxX sx sy dx dy dx a.1 a.2 ((dx : ℤ) / 2)
  else
    (a.1, a.2) :: interpAuxY sx sy dx dy dy a.1 a.2 ((dy : ℤ) / 2)

/-- The densification step shared by rrt_star.py, informed_rrt_start.py and
the three PRM variants: concatenate per-edge interpolations, dropping the
duplicated shared endpoint of consecutive segments. -/
def densify : List Point → List Point
  | [] => []
  | [_] => []
  | a :: b :: rest => interpolate a b ++ densifyTail b rest
where
  densifyTail : Point → List Point → List Point
  | _, [] => []
  | b, c :: rest => (interpolate b c).tail ++ densifyTail c rest

/-! ### Python `round` and the steering computation

The source computes `int(round(nearest + step_size * dir / length))` with
`length = sqrt(dx² + dy²)`.  The embedding rounds the exact real value
`c + q / √D` (`q = step_size · dir`, `D = dx² + dy²`):
* when `D` is a perfect square the value is rational and Python's
  round-half-to-even is applied exactly;
* otherwise the value is irrational, no tie can occur, and
  `round v = ⌊v + 1/2⌋ = c + ⌊(⌊2q√D⌋ + D) / (2D)⌋`, computed with integer
  square roots. -/

/-- Round half to even (Python's `round`) of the exact rational `num / den`
with `den > 0`, in integer arithmetic (`Int.fdiv` is floor division). -/
def pyRoundRat (num den : ℤ) : ℤ :=
  let f := Int.fdiv num den
  let r := num - f * den
  if 2 * r < den then f
  else if den < 2 * r then f + 1
  else if f % 2 = 0 then f else f + 1

/-- `⌊√m⌋` by descending linear search: the largest `k ≤ m` with `k·k ≤ m`.
Structurally recursive (Lean's `Nat.sqrt` is well-founded recursion, which
the kernel cannot evaluate); `isqrt_eq_sqrt` below checks it agrees. -/
def isqrtGo (m : ℕ) : ℕ → ℕ
  | 0 => 0
  | k + 1 => if (k + 1) * (k + 1) ≤ m then k + 1 else isqrtGo m k

def isqrt (m : ℕ) : ℕ := isqrtGo m m

theorem isqrtGo_eq (m : ℕ) : ∀ k, Nat.sqrt m ≤ k → isqrtGo m k = Nat.sqrt m := by
  intro k
  induction k with
  | zero => intro h; rw [isqrtGo]; omega
  | succ n ih =>
    intro h
    rw [isqrtGo]
    by_cases hle : (n + 1) * (n + 1) ≤ m
    · rw [if_pos hle]
      have h1 : n + 1 ≤ Nat.sqrt m := Nat.le_sqrt.mpr (by nlinarith)
      omega
    · rw [if_neg hle]
      refine ih ?_
      have hlt : Nat.sqrt m < n + 1 := by
        by_contra hc
        push_neg at hc
        have h1 := Nat.sqrt_le' m
        nlinarith
      omega

theorem isqrt_eq_sqrt (m : ℕ) : isqrt m = Nat.sqrt m :=
  isqrtGo_eq m m (Nat.sqrt_le_self m)

/-- Ceiling of `√m` over the naturals. -/
def ceilSqrtNat (m : ℕ) : ℕ :=
  if isqrt m * isqrt m = m then isqrt m else isqrt m + 1

/-- `⌊t · √D⌋` computed with integer square roots. -/
def floorMulSqrt (t : ℤ) (D : ℕ) : ℤ :=
  if 0 ≤ t then ((isqrt (t.natAbs ^ 2 * D)) : ℤ)
  else -((ceilSqrtNat (t.natAbs ^ 2 * D)) : ℤ)

/-- One coordinate of the steered point: round of `c + q / √D`
(for a perfect square `D = e²` the value is the rational `(c·e + q) / e`). -/
def steerCoord (c q : ℤ) (D : ℕ) : ℤ :=
  if isqrt D * isqrt D = D then
    pyRoundRat (c * (isqrt D : ℤ) + q) (isqrt D : ℤ)
  else
    c + Int.fdiv (floorMulSqrt (2 * q) D + (D : ℤ)) (2 * (D : ℤ))

/-- The shared steering computation of the tree planners: `none` models the
`length == 0` `continue`. -/
def steer (nearest rand : Point) (stepSize : ℤ) : Option Point :=
  let dx := rand.1 - nearest.1
  let dy := rand.2 - nearest.2
  let D := (dx ^ 2 + dy ^ 2).toNat
  if D = 0 then none
  else some (steerCoord nearest.1 (stepSize * dx) D, steerCoord nearest.2 (stepSize * dy) D)

/-! ### The parent map

Python's `dict[Point, Optional[Point]]` is modelled as an association list:
assignment prepends (first-match lookup sees the newest binding), deletion
filters the key out.  The planners only observe the map through lookups,
membership and deletion, for which this model is exact. -/

abbrev Tree : Type := List (Point × Option Point)

abbrev Frames : Type := List (List (Point × Point))

/-- Lookup: `some v` when the key is bound to `v` (`v` itself optional, as a
root is bound to `None`), `none` when the key is absent. -/
def treeFind (t : Tree) (p : Point) : Option (Option Point) :=
  (t.find? (fun e => decide (e.1 = p))).map Prod.snd

/-- Dict assignment `tree[p] = v`. -/
def treeInsert (t : Tree) (p : Point) (v : Option Point) : Tree :=
  (p, v) :: t

/-- Dict deletion `del tree[p]`. -/
def treeErase (t : Tree) (p : Point) : Tree :=
  t.filter (fun e => !decide (e.1 = p))

/-- Path reconstruction `while current: path.append(current); current =
tree[current]`.  Fuel bounds the walk: a terminating chain never revisits a
key, so `t.length + 1` steps suffice; `none` models the source diverging on a
cyclic parent chain (or raising `KeyError` on a dangling one). -/
def walkParents (t : Tree) : ℕ → Point → Option (List Point)
  | 0, _ => none
  | fuel + 1, p =>
    match treeFind t p with
    | none => none
    | some none => some [p]
    | some (some q) => (walkParents t fuel q).map (fun l => p :: l)

/-- `min(nodes, key=lambda n: _distance(n, target))`: first node of minimal
distance (Python's `min` keeps the earliest minimum; comparing squared
distances is equivalent since `sqrt` is strictly monotone). -/
def argminNodes (target : Point) : List Point → Point
  | [] => (0, 0)
  | n :: ns =>
    ns.foldl (fun best m =>
      if squaredDist m target < squaredDist best target then m else best) n

/-- One per-iteration draw of the shared random source:
`goal if random() < goal_sample_rate else (randint(..), randint(..))`. -/
inductive Samp
  | goalPick
  | rand (p : Point)

/-- Record of one hook invocation (`visualize(rrt_lines)` receives the current
edge list) when animation is enabled. -/
def pushFrame (animate : Bool) (frames : Frames) (lines : List (Point × Point)) : Frames :=
  if animate then frames ++ [lines] else frames

/-- Common mutable state of the single-tree planners. -/
structure TreeState where
  tree : Tree
  nodes : List Point
  lines : List (Point × Point)
  frames : Frames
  deriving Repr, DecidableEq

/-- Planner return value: the path, the optional iteration/sample count
(mirroring whether the source's returned tuple has a third component; the
wall-clock duration component is not modelled), and the hook-invocation log. -/
structure PlanResult where
  path : List Point
  count : Option ℕ
  frames : Frames
  deriving Repr, DecidableEq

/-- The sampled target of one tree-planner iteration. -/
def sampPoint (goal : Point) : Samp → Point
  | .goalPick => goal
  | .rand p => p

/-! ### rrt.py -/

/-- One iteration of rrt.py's main loop.  Second component: `none` when the
iteration does not return, `some (some path)` on success, `some none` when the
success branch's reconstruction diverges. -/
def rrtStep (g : Grid) (goal : Point) (stepSize : ℤ) (goalTol : ℚ) (animate : Bool)
    (s : TreeState) (samp : Samp) : TreeState × Option (Option (List Point)) :=
  let randPoint := sampPoint goal samp
  let nearest := argminNodes randPoint s.nodes
  match steer nearest randPoint stepSize with
  | none => (s, none)
  | some step =>
    if !(inBoundsB g step.1 step.2) then (s, none)
    else if cellAt g step.1 step.2 = 0 then
      let tree' := treeInsert s.tree step (some nearest)
      let nodes' := s.nodes ++ [step]
      let lines' := s.lines ++ [(nearest, step)]
      let frames' := pushFrame animate s.frames lines'
      if distLeQ (squaredDist step goal) goalTol then
        let tree2 := treeInsert tree' goal (some step)
        (⟨tree2, nodes' ++ [goal], lines', frames'⟩,
          some ((walkParents tree2 (tree2.length + 1) goal).map List.reverse))
      else (⟨tree', nodes', lines', frames'⟩, none)
    else (s, none)

def rrtLoop (g : Grid) (goal : Point) (stepSize : ℤ) (goalTol : ℚ) (animate : Bool)
    (stream : ℕ → Samp) : ℕ → ℕ → TreeState → TreeState × Option (Option (List Point × ℕ))
  | 0, _, s => (s, none)
  | fuel + 1, i, s =>
    match rrtStep g goal stepSize goalTol animate s (stream i) with
    | (s', some none) => (s', some none)
    | (s', some (some path)) => (s', some (some (path, i)))
    | (s', none) => rrtLoop g goal stepSize goalTol animate stream fuel (i + 1) s'

/-- rrt.py `run`: `none` models divergence of the success-path reconstruction;
on iteration-cap exhaustion the source returns `[], duration, max_iter`. -/
def run_rrt (g : Grid) (start goal : Point) (maxIter : ℕ) (stepSize : ℤ) (goalTol : ℚ)
    (animate : Bool) (stream : ℕ → Samp) : Option PlanResult :=
  let s0 : TreeState := ⟨[(start, none)], [start], [], []⟩
  match rrtLoop g goal stepSize goalTol animate stream maxIter 1 s0 with
  | (s, some (some (path, i))) => some ⟨path, some i, s.frames⟩
  | (_, some none) => none
  | (s, none) => some ⟨[], some maxIter, s.frames⟩

/-! ### dynamic_rrt.py -/

/-- The per-node validity test of `_prune_invalid_nodes`: out of bounds,
occupied, or invalid parent connection. -/
def nodeInvalid (g : Grid) (t : Tree) (node : Point) : Bool :=
  !(inBoundsB g node.1 node.2) || decide (cellAt g node.1 node.2 = 1) ||
    !(check_path_validity g node ((treeFind t node).join))

/-- One pass of the fixed-point sweep: add every node whose parent is already
marked (additions are visible to later nodes of the same pass, as in the
source's in-place mutation). -/
def sweepPass (t : Tree) (nodes : List Point) (rem : List Point) : List Point :=
  nodes.foldl
    (fun acc node =>
      if node ∈ acc then acc
      else
        match (treeFind t node).join with
        | none => acc
        | some par => if par ∈ acc then acc ++ [node] else acc)
    rem

/-- The `while changed` sweep; a continuing pass strictly grows the removal
list, which is bounded by the node count, so `nodes.length + 1` passes reach
the fixed point. -/
def sweepRec (t : Tree) (nodes : List Point) : ℕ → List Point → List Point
  | 0, rem => rem
  | fuel + 1, rem =>
    let rem' := sweepPass t nodes rem
    if rem'.length = rem.length then rem else sweepRec t nodes fuel rem'

/-- The removal loop of `_prune_invalid_nodes`.  Python iterates the removal
set in unspecified order; the embedding iterates in discovery order (the
individual removals of distinct nodes commute, so the order is
unobservable on duplicate-free states). -/
def pruneRemove (remSet : List Point) (t : Tree) (nodes : List Point)
    (lines : List (Point × Point)) : Tree × List Point × List (Point × Point) :=
  remSet.foldl
    (fun st node =>
      let lines' :=
        match (treeFind st.1 node).join with
        | some par => st.2.2.erase (par, node)
        | none => st.2.2
      (treeErase st.1 node, st.2.1.erase node, lines'))
    (t, nodes, lines)

/-- `_prune_invalid_nodes`: returns the removal set together with the pruned
tree, node list and edge list. -/
def prune_invalid_nodes (g : Grid) (t : Tree) (nodes : List Point)
    (lines : List (Point × Point)) :
    List Point × Tree × List Point × List (Point × Point) :=
  let inv := (nodes.filter (fun node => nodeInvalid g t node)).dedup
  let remSet := sweepRec t nodes (nodes.length + 1) inv
  let pruned := pruneRemove remSet t nodes lines
  (remSet, pruned)

inductive DynOutcome
  | success (path : List Point) (iter : ℕ)
  | earlyFail
  | exhausted
  | diverged
  deriving Repr, DecidableEq

/-- One growth iteration of dynamic_rrt.py (after the prune check): as
rrt.py's, except that success additionally requires
`_check_path_validity(grid, goal, step)`. -/
def dynamicStep (g : Grid) (goal : Point) (stepSize : ℤ) (goalTol : ℚ) (animate : Bool)
    (s : TreeState) (samp : Samp) : TreeState × Option (Option (List Point)) :=
  let randPoint := sampPoint goal samp
  let nearest := argminNodes randPoint s.nodes
  match steer nearest randPoint stepSize with
  | none => (s, none)
  | some step =>
    if !(inBoundsB g step.1 step.2) then (s, none)
    else if cellAt g step.1 step.2 = 0 then
      let tree' := treeInsert s.tree step (some nearest)
      let nodes' := s.nodes ++ [step]
      let lines' := s.lines ++ [(nearest, step)]
      let frames' := pushFrame animate s.frames lines'
      if distLeQ (squaredDist step goal) goalTol then
        if check_path_validity g goal (some step) then
          let tree2 := treeInsert tree' goal (some step)
          (⟨tree2, nodes' ++ [goal], lines', frames'⟩,
            some ((walkParents tree2 (tree2.length + 1) goal).map List.reverse))
        else (⟨tree', nodes', lines', frames'⟩, none)
      else (⟨tree', nodes', lines', frames'⟩, none)
    else (s, none)

/-- The periodic revalidation at the top of each dynamic_rrt.py iteration
(`if iteration % replan_frequency == 0 and iteration > 0`). -/
def dynPrune (g : Grid) (rf i : ℕ) (s : TreeState) : List Point × TreeState :=
  if i % rf = 0 ∧ 0 < i then
    let r := prune_invalid_nodes g s.tree s.nodes s.lines
    (r.1, (⟨r.2.1, r.2.2.1, r.2.2.2, s.frames⟩ : TreeState))
  else ([], s)

def dynamicLoop (g : Grid) (start goal : Point) (stepSize : ℤ) (goalTol : ℚ)
    (replanFreq : ℕ) (animate : Bool) (stream : ℕ → Samp) :
    ℕ → ℕ → TreeState → TreeState × DynOutcome
  | 0, _, s => (s, .exhausted)
  | fuel + 1, i, s =>
    let pruned := dynPrune g replanFreq i s
    if start ∈ pruned.1 then (pruned.2, .earlyFail)
    else if pruned.2.nodes = [] then (pruned.2, .earlyFail)
    else
      match dynamicStep g goal stepSize goalTol animate pruned.2 (stream i) with
      | (s', some none) => (s', .diverged)
      | (s', some (some path)) => (s', .success path i)
      | (s', none) => dynamicLoop g start goal stepSize goalTol replanFreq animate stream fuel (i + 1) s'

/-- dynamic_rrt.py `run`: the start-pruned and empty-node failures return a
2-tuple (no iteration count, `count = none`); exhaustion returns `max_iter`. -/
def run_dynamic_rrt (g : Grid) (start goal : Point) (maxIter : ℕ) (stepSize : ℤ)
    (goalTol : ℚ) (replanFreq : ℕ) (animate : Bool) (stream : ℕ → Samp) :
    Option PlanResult :=
  let s0 : TreeState := ⟨[(start, none)], [start], [], []⟩
  match dynamicLoop g start goal stepSize goalTol replanFreq animate stream maxIter 1 s0 with
  | (s, .success path i) => some ⟨path, some i, s.frames⟩
  | (s, .earlyFail) => some ⟨[], none, s.frames⟩
  | (s, .exhausted) => some ⟨[], some maxIter, s.frames⟩
  | (_, .diverged) => none

/-! ### rrt_connetct.py -/

/-- `_extend_tree`: steer the tree toward `target`, inserting the new node on
success. -/
def extend_tree (g : Grid) (t : Tree) (nodes : List Point) (target : Point)
    (stepSize : ℤ) (lines : List (Point × Point)) :
    Option Point × Tree × List Point × List (Point × Point) :=
  let nearest := argminNodes target nodes
  match steer nearest target stepSize with
  | none => (none, t, nodes, lines)
  | some step =>
    if !(inBoundsB g step.1 step.2) then (none, t, nodes, lines)
    else if cellAt g step.1 step.2 = 0 then
      (some step, treeInsert t step (some nearest), nodes ++ [step], lines ++ [(nearest, step)])
    else (none, t, nodes, lines)

structure ConnectState where
  treeA : Tree
  nodesA : List Point
  treeB : Tree
  nodesB : List Point
  lines : List (Point × Point)
  frames : Frames
  deriving Repr, DecidableEq

/-- The bounded connect phase (`for _ in range(5)`): repeatedly extend the
second tree toward `newNode`; succeed when the extension lands within the
tolerance, stop when an extension fails. -/
def connectAttempts (g : Grid) (stepSize : ℤ) (goalTol : ℚ) (animate : Bool)
    (newNode : Point) :
    ℕ → Tree → List Point → List (Point × Point) → Frames →
      Option Point × Tree × List Point × List (Point × Point) × Frames
  | 0, t, nodes, lines, frames => (none, t, nodes, lines, frames)
  | fuel + 1, t, nodes, lines, frames =>
    match extend_tree g t nodes newNode stepSize lines with
    | (none, t', nodes', lines') => (none, t', nodes', lines', frames)
    | (some connectNode, t', nodes', lines') =>
      let frames' := pushFrame animate frames lines'
      if distLeQ (squaredDist connectNode newNode) goalTol then
        (some connectNode, t', nodes', lines', frames')
      else connectAttempts g stepSize goalTol animate newNode fuel t' nodes' lines' frames'

def connectLoop (g : Grid) (stepSize : ℤ) (goalTol : ℚ) (animate : Bool)
    (stream : ℕ → Point) : ℕ → ℕ → ConnectState → ConnectState × Option (Option (List Point))
  | 0, _, s => (s, none)
  | fuel + 1, i, s =>
    match extend_tree g s.treeA s.nodesA (stream i) stepSize s.lines with
    | (none, _, _, lines') =>
      connectLoop g stepSize goalTol animate stream fuel (i + 1)
        ⟨s.treeB, s.nodesB, s.treeA, s.nodesA, lines', s.frames⟩
    | (some newNode, tA, nA, linesA) =>
      let framesA := pushFrame animate s.frames linesA
      match connectAttempts g stepSize goalTol animate newNode 5 s.treeB s.nodesB linesA framesA with
      | (some connectNode, tB, nB, lines', frames') =>
        let pathStart := (walkParents tA (tA.length + 1) newNode).map List.reverse
        let pathGoal := walkParents tB (tB.length + 1) connectNode
        let joined :=
          match pathStart, pathGoal with
          | some ps, some pg => some (ps ++ pg)
          | _, _ => none
        (⟨tA, nA, tB, nB, lines', frames'⟩, some joined)
      | (none, tB, nB, lines', frames') =>
        connectLoop g stepSize goalTol animate stream fuel (i + 1)
          ⟨tB, nB, tA, nA, lines', frames'⟩

/-- rrt_connetct.py `run`: both the success and the exhaustion return are
2-tuples (`path, duration`), so `count = none` always. -/
def run_rrt_connect (g : Grid) (start goal : Point) (maxIter : ℕ) (stepSize : ℤ)
    (goalTol : ℚ) (animate : Bool) (stream : ℕ → Point) : Option PlanResult :=
  let s0 : ConnectState := ⟨[(start, none)], [start], [(goal, none)], [goal], [], []⟩
  match connectLoop g stepSize goalTol animate stream maxIter 0 s0 with
  | (s, some (some path)) => some ⟨path, none, s.frames⟩
  | (_, some none) => none
  | (s, none) => some ⟨[], none, s.frames⟩

/-! ### Roadmap construction: the sampling loop

Identical code in prm.py, prm_star.py and lazy_prm.py:
`while len(nodes) < num_samples + 2 and attempts < num_samples * 3`.
The fuel is the remaining attempt budget (`num_samples * 3` at the start), so
the guard `attempts < num_samples * 3` is the fuel running out; `attempts`
counts every consumed draw.  Draws are in-range by `randint`'s contract.
(The source also initializes `graph[sample] = []`; graph keys with empty
adjacency are unobservable through `graph.get(..., [])` and are not tracked.) -/
def sampleLoop (g : Grid) (target : ℕ) (stream : ℕ → Point) :
    ℕ → List Point → ℕ → List Point × ℕ
  | 0, nodes, attempts => (nodes, attempts)
  | fuel + 1, nodes, attempts =>
    if nodes.length < target + 2 then
      let sample := stream attempts
      if cellAt g sample.1 sample.2 = 1 then
        sampleLoop g target stream fuel nodes (attempts + 1)
      else if sample ∈ nodes then
        sampleLoop g target stream fuel nodes (attempts + 1)
      else sampleLoop g target stream fuel (nodes ++ [sample]) (attempts + 1)
    else (nodes, attempts)

/-! ### PRM neighbor selection (computable part)

Python sorts `(float_dist, point)` tuples; comparing `(squaredDist, point)`
lexicographically yields the same order (`sqrt` is strictly monotone and its
ties coincide with squared-distance ties).  The keys are pairwise distinct
(node lists hold distinct points), so any correct sort produces Python's
unique sorted order; insertion sort is used. -/

def pairLeB (a b : ℕ × Point) : Bool :=
  decide (a.1 < b.1) ||
    (decide (a.1 = b.1) &&
      (decide (a.2.1 < b.2.1) ||
        (decide (a.2.1 = b.2.1) && decide (a.2.2 ≤ b.2.2))))

def insertSorted (x : ℕ × Point) : List (ℕ × Point) → List (ℕ × Point)
  | [] => [x]
  | y :: ys => if pairLeB x y then x :: y :: ys else y :: insertSorted x ys

def sortPairs (l : List (ℕ × Point)) : List (ℕ × Point) :=
  l.foldr insertSorted []

/-- The in-radius filter of prm.py / lazy_prm.py (`i != j` is an index
comparison), keyed by squared distance.  `radius : ℚ` carries the source's
float `connection_radius` exactly; `dist ≤ radius ↔ dist² ≤ radius²`. -/
def prmNeighbors (nodes : List Point) (i : ℕ) (node : Point) (radius : ℚ) :
    List (ℕ × Point) :=
  (nodes.enum.filter
    (fun jp => decide (jp.1 ≠ i) && distLeQ (squaredDist node jp.2) radius)).map
    (fun jp => (squaredDist node jp.2, jp.2))

noncomputable section
open scoped Classical

/-! ### The weighted roadmap graph and Dijkstra

Edge weights are the stored float distances, modelled as exact reals, which
makes this part of the embedding noncomputable; concrete runs in the theorems
below are evaluated symbolically. -/

abbrev WGraph : Type := List (Point × List (Point × ℝ))

def graphGet (G : WGraph) (p : Point) : List (Point × ℝ) :=
  ((G.find? (fun e => decide (e.1 = p))).map Prod.snd).getD []

/-- Append an edge to a node's adjacency list, creating the entry when absent
(`graph[node].append` / `graph.setdefault(neighbor, []).append`). -/
def graphAdd (G : WGraph) (p : Point) (e : Point × ℝ) : WGraph :=
  if (G.find? (fun x => decide (x.1 = p))).isSome then
    G.map (fun x => if x.1 = p then (x.1, x.2 ++ [e]) else x)
  else G ++ [(p, [e])]

/-- prm.py's construction-time connection: sorted nearest neighbors, capped at
`max_neighbors`, edges added in both directions after a single directional
collision check. -/
def prmConnect (g : Grid) (animate : Bool) (nodes : List Point) (radius : ℚ)
    (maxNbrs : ℕ) : WGraph × List (Point × Point) × Frames :=
  nodes.enum.foldl
    (fun st ip =>
      let nbrs := (sortPairs (prmNeighbors nodes ip.1 ip.2 radius)).take maxNbrs
      nbrs.foldl
        (fun st2 dn =>
          if line_collision g ip.2 dn.2 then st2
          else
            let w := Real.sqrt dn.1
            let G3 := graphAdd (graphAdd st2.1 ip.2 (dn.2, w)) dn.2 (ip.2, w)
            let lines3 := st2.2.1 ++ [(ip.2, dn.2)]
            (G3, lines3, pushFrame animate st2.2.2 lines3))
        st)
    ([], [], [])

/-- lazy_prm.py's connection: as prm.py's but with no collision check. -/
def lazyConnect (animate : Bool) (nodes : List Point) (radius : ℚ)
    (maxNbrs : ℕ) : WGraph × List (Point × Point) × Frames :=
  nodes.enum.foldl
    (fun st ip =>
      let nbrs := (sortPairs (prmNeighbors nodes ip.1 ip.2 radius)).take maxNbrs
      nbrs.foldl
        (fun st2 dn =>
          let w := Real.sqrt dn.1
          let G3 := graphAdd (graphAdd st2.1 ip.2 (dn.2, w)) dn.2 (ip.2, w)
          let lines3 := st2.2.1 ++ [(ip.2, dn.2)]
          (G3, lines3, pushFrame animate st2.2.2 lines3))
        st)
    ([], [], [])

/-- prm_star.py's adaptive radius:
`gamma = 2 (1 + 1/2)^(1/2) (grid_size/π)^(1/2)`,
`r = gamma (log n / n)^(1/2)` for `n > 1` else `grid_size`, floored at `5.0`. -/
def prmStarRadius (gridSz n : ℕ) : ℝ :=
  let gamma := 2 * Real.sqrt (3 / 2) * Real.sqrt ((gridSz : ℝ) / Real.pi)
  let r := if 1 < n then gamma * Real.sqrt (Real.log n / n) else (gridSz : ℝ)
  max r 5

/-- prm_star.py's connection: every in-radius pair (no sort, no cap), with a
membership dedup on the `(neighbor, dist)` pairs; the edge list and hook get
the segment regardless of the dedup. -/
def prmStarConnect (g : Grid) (animate : Bool) (nodes : List Point) (radius : ℝ) :
    WGraph × List (Point × Point) × Frames :=
  nodes.enum.foldl
    (fun st ip =>
      let nbrs := nodes.enum.filter (fun jp => jp.1 ≠ ip.1 ∧ distR ip.2 jp.2 ≤ radius)
      nbrs.foldl
        (fun st2 jp =>
          if line_collision g ip.2 jp.2 then st2
          else
            let d := distR ip.2 jp.2
            let G3 :=
              if (jp.2, d) ∈ graphGet st2.1 ip.2 then st2.1
              else graphAdd st2.1 ip.2 (jp.2, d)
            let G4 :=
              if (ip.2, d) ∈ graphGet G3 jp.2 then G3
              else graphAdd G3 jp.2 (ip.2, d)
            let lines3 := st2.2.1 ++ [(ip.2, jp.2)]
            (G4, lines3, pushFrame animate st2.2.2 lines3))
        st)
    ([], [], [])

/-- Strict order on heap entries: Python's `(float, point)` tuple comparison. -/
def pairLtR (a b : ℝ × Point) : Prop :=
  a.1 < b.1 ∨ (a.1 = b.1 ∧ (a.2.1 < b.2.1 ∨ (a.2.1 = b.2.1 ∧ a.2.2 < b.2.2)))

/-- `heapq.heappop` pops the minimum tuple; the pending heap is modelled as a
plain list with minimum selection. -/
def pqMin : List (ℝ × Point) → Option (ℝ × Point)
  | [] => none
  | x :: xs => some (xs.foldl (fun best y => if pairLtR y best then y else best) x)

def dmapFind (d : List (Point × ℝ)) (p : Point) : Option ℝ :=
  (d.find? (fun e => decide (e.1 = p))).map Prod.snd

/-- Relax the out-edges of `current` (prm.py `_dijkstra`'s inner loop). -/
def relaxAll (G : WGraph) (current : Point) (currentDist : ℝ) (visited : List Point) :
    List (ℝ × Point) × List (Point × ℝ) × Tree →
      List (ℝ × Point) × List (Point × ℝ) × Tree :=
  fun st =>
    (graphGet G current).foldl
      (fun st2 e =>
        if e.1 ∈ visited then st2
        else
          let nd := currentDist + e.2
          let improves :=
            match dmapFind st2.2.1 e.1 with
            | none => True
            | some dOld => nd < dOld
          if improves then
            (st2.1 ++ [(nd, e.1)], (e.1, nd) :: st2.2.1, treeInsert st2.2.2 e.1 (some current))
          else st2)
      st

/-- prm.py `_dijkstra`.  Outer `none` models divergence (reconstruction cycle
or fuel exhaustion, the latter unreachable for the bound used); `some none`
is the source's `return None`. -/
def dijkstraLoop (G : WGraph) (goal : Point) :
    ℕ → List (ℝ × Point) → List (Point × ℝ) → Tree → List Point →
      Option (Option (List Point))
  | 0, _, _, _, _ => none
  | fuel + 1, pq, dist, prev, visited =>
    match pqMin pq with
    | none => some none
    | some m =>
      let pq' := pq.erase m
      if m.2 ∈ visited then dijkstraLoop G goal fuel pq' dist prev visited
      else
        let visited' := visited ++ [m.2]
        if m.2 = goal then
          some ((walkParents prev (prev.length + 1) m.2).map List.reverse)
        else
          let st := relaxAll G m.2 m.1 visited' (pq', dist, prev)
          dijkstraLoop G goal fuel st.1 st.2.1 st.2.2 visited'

def graphWeight (G : WGraph) : ℕ :=
  G.foldl (fun n e => n + e.2.length) 0

def dijkstra (G : WGraph) (start goal : Point) : Option (Option (List Point)) :=
  dijkstraLoop G goal (graphWeight G + G.length + 2) [(0, start)] [(start, 0)]
    [(start, none)] []

/-- prm.py `run`. -/
def run_prm (g : Grid) (start goal : Point) (numSamples : ℕ) (radius : ℚ)
    (maxNbrs : ℕ) (animate : Bool) (stream : ℕ → Point) : Option PlanResult :=
  let sampled := sampleLoop g numSamples stream (numSamples * 3) [start, goal] 0
  let nodes := sampled.1
  let built := prmConnect g animate nodes radius maxNbrs
  match dijkstra built.1 start goal with
  | none => none
  | some none => some ⟨[], some nodes.length, built.2.2⟩
  | some (some path) =>
    let dense := densify path
    some ⟨if dense = [] then path else dense, some nodes.length, built.2.2⟩

/-- prm_star.py `run` (no `connection_radius` / `max_neighbors` parameters;
the radius is computed from the node count). -/
def run_prm_star (g : Grid) (start goal : Point) (numSamples : ℕ)
    (animate : Bool) (stream : ℕ → Point) : Option PlanResult :=
  let sampled := sampleLoop g numSamples stream (numSamples * 3) [start, goal] 0
  let nodes := sampled.1
  let radius := prmStarRadius (gridSize g) nodes.length
  let built := prmStarConnect g animate nodes radius
  match dijkstra built.1 start goal with
  | none => none
  | some none => some ⟨[], some nodes.length, built.2.2⟩
  | some (some path) =>
    let dense := densify path
    some ⟨if dense = [] then path else dense, some nodes.length, built.2.2⟩

/-! ### lazy_prm.py query phase -/

/-- The path-validation loop run when `_lazy_dijkstra` pops the goal: check
each unvalidated edge in traversal order; on the first collision mark the edge
invalid in both directions and give up, otherwise record both directions as
validated. -/
def lazyValidate (g : Grid) :
    List Point → List (Point × Point) → List (Point × Point) →
      Bool × List (Point × Point) × List (Point × Point)
  | [], validated, invalid => (true, validated, invalid)
  | [_], validated, invalid => (true, validated, invalid)
  | a :: b :: rest, validated, invalid =>
    if (a, b) ∈ validated then lazyValidate g (b :: rest) validated invalid
    else if line_collision g a b then (false, validated, invalid ++ [(a, b), (b, a)])
    else lazyValidate g (b :: rest) (validated ++ [(a, b), (b, a)]) invalid

/-- `_lazy_dijkstra`'s relaxation also skips edges marked invalid. -/
def lazyRelaxAll (G : WGraph) (invalid : List (Point × Point)) (current : Point)
    (currentDist : ℝ) (visited : List Point) :
    List (ℝ × Point) × List (Point × ℝ) × Tree →
      List (ℝ × Point) × List (Point × ℝ) × Tree :=
  fun st =>
    (graphGet G current).foldl
      (fun st2 e =>
        if e.1 ∈ visited then st2
        else if (current, e.1) ∈ invalid then st2
        else
          let nd := currentDist + e.2
          let improves :=
            match dmapFind st2.2.1 e.1 with
            | none => True
            | some dOld => nd < dOld
          if improves then
            (st2.1 ++ [(nd, e.1)], (e.1, nd) :: st2.2.1, treeInsert st2.2.2 e.1 (some current))
          else st2)
      st

/-- `_lazy_dijkstra`: result is `(path?, validated', invalid')`; outer `none`
models divergence. -/
def lazyDijkstraLoop (g : Grid) (G : WGraph) (goal : Point)
    (validated invalid : List (Point × Point)) :
    ℕ → List (ℝ × Point) → List (Point × ℝ) → Tree → List Point →
      Option (Option (List Point) × List (Point × Point) × List (Point × Point))
  | 0, _, _, _, _ => none
  | fuel + 1, pq, dist, prev, visited =>
    match pqMin pq with
    | none => some (none, validated, invalid)
    | some m =>
      let pq' := pq.erase m
      if m.2 ∈ visited then
        lazyDijkstraLoop g G goal validated invalid fuel pq' dist prev visited
      else
        let visited' := visited ++ [m.2]
        if m.2 = goal then
          match walkParents prev (prev.length + 1) m.2 with
          | none => none
          | some pathRev =>
            let path := pathRev.reverse
            match lazyValidate g path validated invalid with
            | (true, v', inv') => some (some path, v', inv')
            | (false, v', inv') => some (none, v', inv')
        else
          let st := lazyRelaxAll G invalid m.2 m.1 visited' (pq', dist, prev)
          lazyDijkstraLoop g G goal validated invalid fuel st.1 st.2.1 st.2.2 visited'

def lazy_dijkstra (g : Grid) (G : WGraph) (start goal : Point)
    (validated invalid : List (Point × Point)) :
    Option (Option (List Point) × List (Point × Point) × List (Point × Point)) :=
  lazyDijkstraLoop g G goal validated invalid (graphWeight G + G.length + 2)
    [(0, start)] [(start, 0)] [(start, none)] []

/-- The retry loop `for attempt in range(max_retries)`.  `some none` is the
exhaustion outcome (empty path). -/
def lazyAttempts (g : Grid) (G : WGraph) (start goal : Point) :
    ℕ → List (Point × Point) → List (Point × Point) → Option (Option (List Point))
  | 0, _, _ => some none
  | fuel + 1, validated, invalid =>
    match lazy_dijkstra g G start goal validated invalid with
    | none => none
    | some (some path, _, _) => some (some path)
    | some (none, v', inv') => lazyAttempts g G start goal fuel v' inv'

/-- lazy_prm.py `run`. -/
def run_lazy_prm (g : Grid) (start goal : Point) (numSamples : ℕ) (radius : ℚ)
    (maxNbrs : ℕ) (maxRetries : ℕ) (animate : Bool) (stream : ℕ → Point) :
    Option PlanResult :=
  let sampled := sampleLoop g numSamples stream (numSamples * 3) [start, goal] 0
  let nodes := sampled.1
  let built := lazyConnect animate nodes radius maxNbrs
  match lazyAttempts g built.1 start goal maxRetries [] [] with
  | none => none
  | some none => some ⟨[], some nodes.length, built.2.2⟩
  | some (some path) =>
    let dense := densify path
    some ⟨if dense = [] then path else dense, some nodes.length, built.2.2⟩

/-! ### rrt_star.py -/

/-- Cost-to-come map of rrt_star.py (`costs : dict[Point, float]`).  Direct
`costs[x]` accesses are guarded in the source by `x` being a tree node; the
default is unobservable there. -/
def costGet (c : List (Point × ℝ)) (p : Point) : ℝ :=
  (dmapFind c p).getD 0

/-- `costs.get(n, float("inf"))`. -/
def costGetTop (c : List (Point × ℝ)) (p : Point) : WithTop ℝ :=
  match dmapFind c p with
  | some v => (v : WithTop ℝ)
  | none => ⊤

structure StarState where
  tree : Tree
  costs : List (Point × ℝ)
  nodes : List Point
  lines : List (Point × Point)
  frames : Frames

/-- The parent-choice scan of rrt_star.py (lines 99–108): best collision-free
neighbor within `rewire_radius`, seeded with `nearest`. -/
def starChooseParent (g : Grid) (costs : List (Point × ℝ)) (near : List Point)
    (nearest step : Point) : Point × ℝ :=
  near.foldl
    (fun pc n =>
      if !(line_is_clear g n step) then pc
      else
        let c := costGet costs n + distR n step
        if c < pc.2 then (n, c) else pc)
    (nearest, costGet costs nearest + distR nearest step)

/-- One rewire candidate of rrt_star.py (lines 115–130). -/
def starRewireOne (g : Grid) (step parent : Point)
    (st : Tree × List (Point × ℝ) × List (Point × Point)) (n : Point) :
    Tree × List (Point × ℝ) × List (Point × Point) :=
  if n = parent then st
  else if !(line_is_clear g step n) then st
  else
    let newCost := costGet st.2.1 step + distR step n
    if ((newCost + 1 / 1000000 : ℝ) : WithTop ℝ) < costGetTop st.2.1 n then
      let oldParent := (treeFind st.1 n).join
      let lines2 := st.2.2 ++ [(step, n)]
      let lines3 :=
        match oldParent with
        | some op => lines2.erase (op, n)
        | none => lines2
      (treeInsert st.1 n (some step), (n, newCost) :: st.2.1, lines3)
    else st

/-- One iteration of rrt_star.py's main loop. -/
def rrtStarStep (g : Grid) (goal : Point) (stepSize : ℤ) (goalTol : ℚ)
    (rewireRadius : ℝ) (animate : Bool) (s : StarState) (samp : Samp) :
    StarState × Option (Option (List Point)) :=
  let randPoint := sampPoint goal samp
  let nearest := argminNodes randPoint s.nodes
  match steer nearest randPoint stepSize with
  | none => (s, none)
  | some step =>
    if !(inBoundsB g step.1 step.2) then (s, none)
    else if !(decide (cellAt g step.1 step.2 = 0)) then (s, none)
    else if !(line_is_clear g nearest step) then (s, none)
    else
      let near := s.nodes.filter (fun n => distR n step ≤ rewireRadius)
      let chosen := starChooseParent g s.costs near nearest step
      let tree' := treeInsert s.tree step (some chosen.1)
      let costs' := (step, chosen.2) :: s.costs
      let nodes' := s.nodes ++ [step]
      let lines' := s.lines ++ [(chosen.1, step)]
      let rew := near.foldl (starRewireOne g step chosen.1) (tree', costs', lines')
      let frames' := pushFrame animate s.frames rew.2.2
      if distLeQ (squaredDist step goal) goalTol && line_is_clear g step goal then
        let tree2 := treeInsert rew.1 goal (some step)
        let costs2 := (goal, costGet rew.2.1 step + distR step goal) :: rew.2.1
        (⟨tree2, costs2, nodes' ++ [goal], rew.2.2, frames'⟩,
          some ((walkParents tree2 (tree2.length + 1) goal).map
            (fun l => densify l.reverse)))
      else (⟨rew.1, rew.2.1, nodes', rew.2.2, frames'⟩, none)

def rrtStarLoop (g : Grid) (goal : Point) (stepSize : ℤ) (goalTol : ℚ)
    (rewireRadius : ℝ) (animate : Bool) (stream : ℕ → Samp) :
    ℕ → ℕ → StarState → StarState × Option (Option (List Point × ℕ))
  | 0, _, s => (s, none)
  | fuel + 1, i, s =>
    match rrtStarStep g goal stepSize goalTol rewireRadius animate s (stream i) with
    | (s', some none) => (s', some none)
    | (s', some (some path)) => (s', some (some (path, i)))
    | (s', none) =>
      rrtStarLoop g goal stepSize goalTol rewireRadius animate stream fuel (i + 1) s'

/-- rrt_star.py `run` (the returned path is the densified one). -/
def run_rrt_star (g : Grid) (start goal : Point) (maxIter : ℕ) (stepSize : ℤ)
    (goalTol : ℚ) (rewireRadius : ℝ) (animate : Bool) (stream : ℕ → Samp) :
    Option PlanResult :=
  let s0 : StarState := ⟨[(start, none)], [(start, 0)], [start], [], []⟩
  match rrtStarLoop g goal stepSize goalTol rewireRadius animate stream maxIter 1 s0 with
  | (s, some (some (path, i))) => some ⟨path, some i, s.frames⟩
  | (_, some none) => none
  | (s, none) => some ⟨[], some maxIter, s.frames⟩

/-! ### informed_rrt_start.py -/

/-- Cost map of informed_rrt_start.py; values can be `float("inf")`
(a node inserted with no valid nearby connection), hence `WithTop ℝ`. -/
def wcostGet (c : List (Point × WithTop ℝ)) (p : Point) : WithTop ℝ :=
  ((c.find? (fun e => decide (e.1 = p))).map Prod.snd).getD ⊤

/-- Python `int(round(x))` on an exact real; round-half-to-even differs from
`⌊x + 1/2⌋` only at exact half-integers, which the ellipse sampler hits with
probability zero and which no concrete run below exercises. -/
def roundR (x : ℝ) : ℤ := ⌊x + 1 / 2⌋

/-- `_sample_ellipse`: `u` is the `random()` draw for the radius, `a` the
`uniform(0, 2 * 3.14159)` angle draw; `atan2(y, x)` is `Complex.arg (x + y i)`. -/
def sample_ellipse (start goal : Point) (cBest : WithTop ℝ) (cMin : ℝ)
    (gridSz : ℕ) (u a : ℝ) : Point :=
  match cBest with
  | ⊤ => (⌊u * gridSz⌋, ⌊a * gridSz⌋)
  | some c =>
    let cx := ((start.1 + goal.1 : ℤ) : ℝ) / 2
    let cy := ((start.2 + goal.2 : ℤ) : ℝ) / 2
    let θ := Complex.arg ⟨((goal.1 - start.1 : ℤ) : ℝ), ((goal.2 - start.2 : ℤ) : ℝ)⟩
    let aAxis := c / 2
    let bAxis := Real.sqrt (c ^ 2 - cMin ^ 2) / 2
    let r := Real.sqrt u
    let xe := aAxis * (r * Real.cos a)
    let ye := bAxis * (r * Real.sin a)
    (roundR (xe * Real.cos θ - ye * Real.sin θ + cx),
      roundR (xe * Real.sin θ + ye * Real.cos θ + cy))

/-- One iteration's draws: the goal-bias/uniform draw used before a solution
exists, and the two unit-disk draws used by the ellipse sampler after. -/
structure InfDraw where
  samp : Samp
  u : ℝ
  a : ℝ

structure InfState where
  tree : Tree
  costs : List (Point × WithTop ℝ)
  nodes : List Point
  lines : List (Point × Point)
  frames : Frames
  cBest : WithTop ℝ
  solutionFound : Bool

/-- Parent choice of informed_rrt_start.py (lines 160–166): note the seed cost
is `float("inf")`; when no nearby node has a collision-free connection the
point keeps `min_parent = nearest` and infinite cost. -/
def infChooseParent (g : Grid) (costs : List (Point × WithTop ℝ)) (nearby : List Point)
    (nearest step : Point) : Point × WithTop ℝ :=
  nearby.foldl
    (fun pc n =>
      let newCost := wcostGet costs n + (distR n step : ℝ)
      if newCost < pc.2 ∧ !(line_collision g n step) then (n, newCost) else pc)
    (nearest, ⊤)

/-- One rewire candidate of informed_rrt_start.py (lines 173–184); unlike
rrt_star.py there is no `n = parent` skip and the old line is removed before
the new one is appended. -/
def infRewireOne (g : Grid) (step : Point)
    (st : Tree × List (Point × WithTop ℝ) × List (Point × Point)) (n : Point) :
    Tree × List (Point × WithTop ℝ) × List (Point × Point) :=
  let newCost := wcostGet st.2.1 step + (distR step n : ℝ)
  if newCost < wcostGet st.2.1 n ∧ !(line_collision g step n) then
    let oldParent := (treeFind st.1 n).join
    let lines2 :=
      match oldParent with
      | some op => st.2.2.erase (op, n)
      | none => st.2.2
    (treeInsert st.1 n (some step), (n, newCost) :: st.2.1, lines2 ++ [(step, n)])
  else st

/-- One iteration of informed_rrt_start.py's main loop (which never returns
early; success is recorded in `cBest` / `solutionFound`). -/
def informedStep (g : Grid) (start goal : Point) (stepSize : ℤ) (goalTol : ℚ)
    (rewireRadius : ℝ) (cMin : ℝ) (animate : Bool) (s : InfState) (d : InfDraw) :
    InfState :=
  let randPoint :=
    if s.solutionFound then sample_ellipse start goal s.cBest cMin (gridSize g) d.u d.a
    else sampPoint goal d.samp
  if !(inBoundsB g randPoint.1 randPoint.2) then s
  else
    let nearest := argminNodes randPoint s.nodes
    match steer nearest randPoint stepSize with
    | none => s
    | some step =>
      if !(inBoundsB g step.1 step.2) then s
      else if !(decide (cellAt g step.1 step.2 = 0)) then s
      else
        let nearby := s.nodes.filter (fun n => distR n step ≤ rewireRadius)
        let chosen := infChooseParent g s.costs nearby nearest step
        let tree' := treeInsert s.tree step (some chosen.1)
        let costs' := (step, chosen.2) :: s.costs
        let nodes' := s.nodes ++ [step]
        let lines' := s.lines ++ [(chosen.1, step)]
        let rew := nearby.foldl (infRewireOne g step) (tree', costs', lines')
        let frames' := pushFrame animate s.frames rew.2.2
        if distLeQ (squaredDist step goal) goalTol then
          let goalCost := wcostGet rew.2.1 step + (distR step goal : ℝ)
          if goalCost < s.cBest then
            ⟨treeInsert rew.1 goal (some step), (goal, goalCost) :: rew.2.1,
              (if goal ∈ nodes' then nodes' else nodes' ++ [goal]),
              rew.2.2, frames', goalCost, true⟩
          else ⟨rew.1, rew.2.1, nodes', rew.2.2, frames', s.cBest, s.solutionFound⟩
        else ⟨rew.1, rew.2.1, nodes', rew.2.2, frames', s.cBest, s.solutionFound⟩

def informedLoop (g : Grid) (start goal : Point) (stepSize : ℤ) (goalTol : ℚ)
    (rewireRadius : ℝ) (cMin : ℝ) (animate : Bool) (stream : ℕ → InfDraw) :
    ℕ → ℕ → InfState → InfState
  | 0, _, s => s
  | fuel + 1, i, s =>
    informedLoop g start goal stepSize goalTol rewireRadius cMin animate stream fuel
      (i + 1) (informedStep g start goal stepSize goalTol rewireRadius cMin animate s (stream i))

/-- informed_rrt_start.py `run`: all `max_iter` iterations always run; the
count component is `max_iter` on success and failure alike. -/
def run_informed (g : Grid) (start goal : Point) (maxIter : ℕ) (stepSize : ℤ)
    (goalTol : ℚ) (rewireRadius : ℝ) (animate : Bool) (stream : ℕ → InfDraw) :
    Option PlanResult :=
  let s0 : InfState := ⟨[(start, none)], [(start, (0 : ℝ))], [start], [], [], ⊤, false⟩
  let s := informedLoop g start goal stepSize goalTol rewireRadius (distR start goal)
    animate stream maxIter 1 s0
  if s.solutionFound then
    match walkParents s.tree (s.tree.length + 1) goal with
    | none => none
    | some pathRev => some ⟨densify pathRev.reverse, some maxIter, s.frames⟩
  else some ⟨[], some maxIter, s.frames⟩

end

/-! ### Specification predicates -/

/-- Every consecutive pair of waypoints of `path` passes the line-of-sight
collision check (the claim's reading: in traversal direction). -/
def pairsPass (g : Grid) (path : List Point) : Prop :=
  ∀ pr ∈ path.zip path.tail, line_collision g pr.1 pr.2 = false

/-- A pair passes the collision check in at least one direction (roadmap
edges are inserted after a single directional check and mirrored). -/
def edgeOk (g : Grid) (a b : Point) : Prop :=
  line_collision g a b = false ∨ line_collision g b a = false

def chainOk (g : Grid) (path : List Point) : Prop :=
  ∀ pr ∈ path.zip path.tail, edgeOk g pr.1 pr.2

/-- Following parent links from `p` reaches the root in finitely many steps. -/
def ReachesRoot (t : Tree) (root p : Point) : Prop :=
  ∃ fuel l, walkParents t fuel p = some l ∧ l.getLast? = some root

/-- Decidable rooted-tree check with the canonical fuel (`t.length + 1`
suffices for every terminating chain). -/
def tracesToRootB (t : Tree) (root p : Point) : Bool :=
  match walkParents t (t.length + 1) p with
  | none => false
  | some l => decide (l.getLast? = some root)

def rootedTreeB (t : Tree) (root : Point) : Bool :=
  t.all (fun e => tracesToRootB t root e.1)

/-- The nodes a prune cycle must remove: invalid ones and, transitively,
every node whose parent is doomed. -/
inductive Doomed (g : Grid) (t : Tree) : Point → Prop
  | invalid (p : Point) : nodeInvalid g t p = true → Doomed g t p
  | child (p q : Point) : treeFind t p = some (some q) → Doomed g t q → Doomed g t p

/-- Every parent link's segment passes rrt_star.py's `line_is_clear`, in the
parent-to-child direction in which the source checks it. -/
def LinksClear (g : Grid) (t : Tree) : Prop :=
  ∀ p q, treeFind t p = some (some q) → line_is_clear g q p = true

/-- The invariant from which RRT*'s rooted-tree property follows: a unique
root of cost zero, parent links into the tree, every key costed, nonnegative
costs, and costs strictly decreasing toward the root. -/
structure StarInv (t : Tree) (costs : List (Point × ℝ)) (root : Point) : Prop where
  rootMem : treeFind t root = some none
  uniqueRoot : ∀ p, treeFind t p = some none → p = root
  parentKey : ∀ p q, treeFind t p = some (some q) → (treeFind t q).isSome
  costKey : ∀ p, (treeFind t p).isSome → (dmapFind costs p).isSome
  rootCost : costGet costs root = 0
  nonneg : ∀ p, 0 ≤ costGet costs p
  strict : ∀ p q, treeFind t p = some (some q) → costGet costs q < costGet costs p

/-- The hook-independent projection of a planner result (path and count). -/
def stripF : Option PlanResult → Option (List Point × Option ℕ) :=
  Option.map (fun r => (r.path, r.count))

/-! ### Concrete inputs used by the witnesses and counterexamples -/

def freeGrid (n : ℕ) : Grid := List.replicate n (List.replicate n 0)

/-- 6×6 grid with a single obstacle at (3, 2). -/
def c1grid : Grid :=
  [[0,0,0,0,0,0], [0,0,0,0,0,0], [0,0,0,1,0,0],
   [0,0,0,0,0,0], [0,0,0,0,0,0], [0,0,0,0,0,0]]

/-- 3×3 grid with an obstacle at (0, 1). -/
def c2grid : Grid := [[0,0,0], [1,0,0], [0,0,0]]

def c2draw : InfDraw := ⟨.rand (2, 2), 0, 0⟩

def c3stream : ℕ → Samp
  | 3 => .rand (0, 1)
  | _ => .rand (0, 0)

/-- The RRT state reached by three iterations of rrt.py on a free 7×7 grid
from start (0, 6) with step size 3 (stream `c3stream`): the third steer lands
exactly on the existing node (0, 3), whose parent is overwritten. -/
def c3state : TreeState :=
  (rrtLoop (freeGrid 7) (6, 6) 3 1 false c3stream 3 1
    ⟨[((0, 6), none)], [(0, 6)], [], []⟩).1

/-- Prune-cycle witness state: start (0,0) with children (1,0) and
grandchild (2,0) on a 3×3 grid whose cell (1,0) is an obstacle. -/
def c4grid : Grid := [[0,1,0], [0,0,0], [0,0,0]]

def c4tree : Tree := [((2, 0), some (1, 0)), ((1, 0), some (0, 0)), ((0, 0), none)]

def c4nodes : List Point := [(0, 0), (1, 0), (2, 0)]

/-- 3×3 grid with an obstacle at (1, 0), blocking the direct start–goal
segment used by the Lazy PRM retry scenario. -/
def c5grid : Grid := [[0,1,0], [0,0,0], [0,0,0]]

/-- Connect stream: the first draw repeats the start (a zero-length extension
that only swaps the trees), the second grows the goal tree toward the start;
the connection then happens with the trees swapped. -/
def c6stream : ℕ → Point := fun _ => (0, 0)

def c7stream : ℕ → Point
  | 1 => (2, 2)
  | _ => (0, 0)

def c8stream : ℕ → Samp
  | 1 => .rand (4, 0)
  | 2 => .rand (2, 4)
  | 3 => .rand (2, 6)
  | _ => .rand (1, 1)

/-- 3×3 grid with an obstacle at (1, 1). -/
def c9grid : Grid := [[0,0,0], [0,1,0], [0,0,0]]

def c9stream : ℕ → Point
  | 0 => (0, 1)
  | _ => (1, 1)

/-- A draw stream whose first element repeats the start point, so the first
steer has zero length and every tree planner's iteration is a no-op. -/
def idleSamp : ℕ → Samp := fun _ => .rand (0, 0)

def idleDraw : ℕ → InfDraw := fun _ => ⟨.rand (0, 0), 0, 0⟩

/-! ## Lemmas about the sampling loop -/

theorem sampleLoop_stop (g : Grid) (target : ℕ) (stream : ℕ → Point) :
    ∀ fuel nodes att, nodes.length ≤ target + 2 →
      (sampleLoop g target stream fuel nodes att).1.length = target + 2 ∨
        (sampleLoop g target stream fuel nodes att).2 = att + fuel := by
  intro fuel
  induction fuel with
  | zero => intro nodes att _; right; rfl
  | succ n ih =>
    intro nodes att hle
    by_cases hlt : nodes.length < target + 2
    · rw [sampleLoop, if_pos hlt]
      by_cases h1 : cellAt g (stream att).1 (stream att).2 = 1
      · rw [if_pos h1]
        rcases ih nodes (att + 1) hle with h | h
        · exact Or.inl h
        · right; omega
      · rw [if_neg h1]
        by_cases h2 : stream att ∈ nodes
        · rw [if_pos h2]
          rcases ih nodes (att + 1) hle with h | h
          · exact Or.inl h
          · right; omega
        · rw [if_neg h2]
          have : (nodes ++ [stream att]).length ≤ target + 2 := by
            simp only [List.length_append, List.length_singleton]; omega
          rcases ih (nodes ++ [stream att]) (att + 1) this with h | h
          · exact Or.inl h
          · right; omega
    · rw [sampleLoop, if_neg hlt]; left
      have : nodes.length = target + 2 := by omega
      simpa using this

theorem sampleLoop_att_le (g : Grid) (target : ℕ) (stream : ℕ → Point) :
    ∀ fuel nodes att,
      (sampleLoop g target stream fuel nodes att).2 ≤ att + fuel := by
  intro fuel
  induction fuel with
  | zero => intro nodes att; exact Nat.le_refl _
  | succ n ih =>
    intro nodes att
    rw [sampleLoop]
    by_cases hlt : nodes.length < target + 2
    · rw [if_pos hlt]
      by_cases h1 : cellAt g (stream att).1 (stream att).2 = 1
      · rw [if_pos h1]; have := ih nodes (att + 1); omega
      · rw [if_neg h1]
        by_cases h2 : stream att ∈ nodes
        · rw [if_pos h2]; have := ih nodes (att + 1); omega
        · rw [if_neg h2]
          have := ih (nodes ++ [stream att]) (att + 1); omega
    · rw [if_neg hlt]; omega

theorem sampleLoop_mem (g : Grid) (target : ℕ) (stream : ℕ → Point) :
    ∀ fuel nodes att p, p ∈ (sampleLoop g target stream fuel nodes att).1 →
      p ∈ nodes ∨ cellAt g p.1 p.2 ≠ 1 := by
  intro fuel
  induction fuel with
  | zero => intro nodes att p hp; exact Or.inl hp
  | succ n ih =>
    intro nodes att p hp
    rw [sampleLoop] at hp
    by_cases hlt : nodes.length < target + 2
    · rw [if_pos hlt] at hp
      by_cases h1 : cellAt g (stream att).1 (stream att).2 = 1
      · rw [if_pos h1] at hp; exact ih nodes (att + 1) p hp
      · rw [if_neg h1] at hp
        by_cases h2 : stream att ∈ nodes
        · rw [if_pos h2] at hp; exact ih nodes (att + 1) p hp
        · rw [if_neg h2] at hp
          rcases ih (nodes ++ [stream att]) (att + 1) p hp with h | h
          · rcases List.mem_append.mp h with h | h
            · exact Or.inl h
            · right
              have : p = stream att := by simpa using h
              rw [this]; exact h1
          · exact Or.inr h
    · rw [if_neg hlt] at hp; exact Or.inl hp

/-- C9: the source counts every sampling attempt, not only failed ones: with
`num_samples = 2`, a stream of one acceptable point followed by draws of the
occupied cell (1, 1) ends sampling after 6 total draws of which only 5 failed,
with only 1 of the 2 requested samples accepted — so the loop neither
accepted `num_samples` points nor saw `3 · num_samples` *failed* attempts. -/
theorem c9_counterexample :
    (sampleLoop c9grid 2 c9stream (2 * 3) [(0, 0), (2, 2)] 0).1 =
        [(0, 0), (2, 2), (0, 1)] ∧
      (sampleLoop c9grid 2 c9stream (2 * 3) [(0, 0), (2, 2)] 0).2 = 6 ∧
      ¬ (([(0, 0), (2, 2), (0, 1)] : List Point).length - 2 = 2 ∨
          6 - (([(0, 0), (2, 2), (0, 1)] : List Point).length - 2) = 2 * 3) := by
  refine ⟨by decide, by decide, ?_⟩
  decide

/-- C9 (amended): construction samples collision-free points until
`num_samples` have been accepted or `3 · num_samples` *total* sampling
attempts (successful or failed) have been consumed; every accepted sample is
a free cell; and a sampling shortfall is not a failure — the run proceeds and
reports the sample count it actually got. -/
theorem c9_sampling_budget :
    (∀ (g : Grid) (target : ℕ) (stream : ℕ → Point) (s t : Point),
        (sampleLoop g target stream (target * 3) [s, t] 0).1.length = target + 2 ∨
          (sampleLoop g target stream (target * 3) [s, t] 0).2 = target * 3) ∧
    (∀ (g : Grid) (target : ℕ) (stream : ℕ → Point) (s t : Point),
        (sampleLoop g target stream (target * 3) [s, t] 0).2 ≤ target * 3) ∧
    (∀ (g : Grid) (target : ℕ) (stream : ℕ → Point) (s t p : Point),
        p ∈ (sampleLoop g target stream (target * 3) [s, t] 0).1 →
          p = s ∨ p = t ∨ cellAt g p.1 p.2 ≠ 1) ∧
    (∀ (g : Grid) (s t : Point) (ns : ℕ) (rad : ℚ) (mn : ℕ) (an : Bool)
        (stream : ℕ → Point) (r : PlanResult), run_prm g s t ns rad mn an stream = some r →
          r.count = some ((sampleLoop g ns stream (ns * 3) [s, t] 0).1.length)) := by
  refine ⟨?_, ?_, ?_, ?_⟩
  · intro g target stream s t
    have := sampleLoop_stop g target stream (target * 3) [s, t] 0 (by simp)
    simpa using this
  · intro g target stream s t
    simpa using sampleLoop_att_le g target stream (target * 3) [s, t] 0
  · intro g target stream s t p hp
    rcases sampleLoop_mem g target stream (target * 3) [s, t] 0 p hp with h | h
    · rcases List.mem_pair.mp h with h | h
      · exact Or.inl h
      · exact Or.inr (Or.inl h)
    · exact Or.inr (Or.inr h)
  · intro g s t ns rad mn an stream r hr
    rw [run_prm] at hr
    rcases hdi : dijkstra (prmConnect g an
        (sampleLoop g ns stream (ns * 3) [s, t] 0).1 rad mn).1 s t with _ | p
    · rw [hdi] at hr; cases hr
    · rcases p with _ | path
      · rw [hdi] at hr
        simp only [Option.some.injEq] at hr
        rw [← hr]
      · rw [hdi] at hr
        simp only [Option.some.injEq] at hr
        rw [← hr]

/-! ## Reconstruction walks never yield empty paths -/

theorem walkParents_ne_nil :
    ∀ (fuel : ℕ) (t : Tree) (p : Point) (l : List Point),
      walkParents t fuel p = some l → l ≠ [] := by
  intro fuel
  induction fuel with
  | zero => intro t p l h; cases h
  | succ n ih =>
    intro t p l h
    rw [walkParents] at h
    rcases hf : treeFind t p with _ | op
    · rw [hf] at h; cases h
    · rcases op with _ | q
      · rw [hf] at h
        simp only [Option.some.injEq] at h
        rw [← h]; simp
      · rw [hf] at h
        rcases Option.map_eq_some'.mp h with ⟨l', _, hl⟩
        rw [← hl]; simp

theorem walkParents_two_le :
    ∀ (fuel : ℕ) (t : Tree) (p q : Point) (l : List Point),
      treeFind t p = some (some q) → walkParents t fuel p = some l → 2 ≤ l.length := by
  intro fuel
  cases fuel with
  | zero => intro t p q l _ h; cases h
  | succ n =>
    intro t p q l hf h
    rw [walkParents, hf] at h
    rcases Option.map_eq_some'.mp h with ⟨l', hw, hl⟩
    have := walkParents_ne_nil n t q l' hw
    rw [← hl]
    simp only [List.length_cons]
    have : 0 < l'.length := List.length_pos.mpr this
    omega

theorem densify_ne_nil (l : List Point) (h : 2 ≤ l.length) : densify l ≠ [] := by
  rcases l with _ | ⟨a, _ | ⟨b, rest⟩⟩
  · simp at h
  · simp at h
  · rw [densify]
    have : interpolate a b ≠ [] := by
      rw [interpolate]
      by_cases hc : ((b.1 - a.1).natAbs : ℕ) > (b.2 - a.2).natAbs
      · rw [if_pos (by omega)]; simp
      · rw [if_neg (by omega)]; simp
    intro hcon
    rcases List.append_eq_nil.mp hcon with ⟨h1, _⟩
    exact this h1

/-! ## C7: what the planners return on failure -/

theorem rrtStep_success_ne_nil (g : Grid) (goal : Point) (ss : ℤ) (tol : ℚ)
    (an : Bool) (s : TreeState) (samp : Samp) (s' : TreeState) (p : List Point)
    (h : rrtStep g goal ss tol an s samp = (s', some (some p))) : p ≠ [] := by
  rw [rrtStep.eq_def] at h
  dsimp only at h
  split at h
  · simp at h
  · split at h
    · simp at h
    · split at h
      · split at h
        · simp only [Prod.mk.injEq, Option.some.injEq] at h
          rcases Option.map_eq_some'.mp h.2 with ⟨l, hw, hl⟩
          have := walkParents_ne_nil _ _ _ _ hw
          rw [← hl]
          simpa using this
        · simp at h
      · simp at h

theorem rrtLoop_success_ne_nil (g : Grid) (goal : Point) (ss : ℤ) (tol : ℚ)
    (an : Bool) (stream : ℕ → Samp) :
    ∀ (fuel i : ℕ) (s s' : TreeState) (p : List Point) (j : ℕ),
      rrtLoop g goal ss tol an stream fuel i s = (s', some (some (p, j))) → p ≠ [] := by
  intro fuel
  induction fuel with
  | zero => intro i s s' p j h; cases h
  | succ n ih =>
    intro i s s' p j h
    rw [rrtLoop] at h
    rcases hst : rrtStep g goal ss tol an s (stream i) with ⟨s1, out⟩
    rcases out with _ | op
    · rw [hst] at h; exact ih (i + 1) s1 s' p j h
    · rcases op with _ | path
      · rw [hst] at h; cases h
      · rw [hst] at h
        simp only [Prod.mk.injEq, Option.some.injEq, Prod.mk.injEq] at h
        have : path = p := h.2.1
        rw [← this]
        exact rrtStep_success_ne_nil g goal ss tol an s (stream i) s1 path hst

theorem dynamicStep_success_ne_nil (g : Grid) (goal : Point) (ss : ℤ) (tol : ℚ)
    (an : Bool) (s : TreeState) (samp : Samp) (s' : TreeState) (p : List Point)
    (h : dynamicStep g goal ss tol an s samp = (s', some (some p))) : p ≠ [] := by
  rw [dynamicStep.eq_def] at h
  dsimp only at h
  split at h
  · simp at h
  · split at h
    · simp at h
    · split at h
      · split at h
        · split at h
          · simp only [Prod.mk.injEq, Option.some.injEq] at h
            rcases Option.map_eq_some'.mp h.2 with ⟨l, hw, hl⟩
            have := walkParents_ne_nil _ _ _ _ hw
            rw [← hl]
            simpa using this
          · simp at h
        · simp at h
      · simp at h

theorem dynamicLoop_success_ne_nil (g : Grid) (start goal : Point) (ss : ℤ) (tol : ℚ)
    (rf : ℕ) (an : Bool) (stream : ℕ → Samp) :
    ∀ (fuel i : ℕ) (s s' : TreeState) (p : List Point) (j : ℕ),
      dynamicLoop g start goal ss tol rf an stream fuel i s = (s', .success p j) → p ≠ [] := by
  intro fuel
  induction fuel with
  | zero => intro i s s' p j h; cases h
  | succ n ih =>
    intro i s s' p j h
    rw [dynamicLoop] at h
    split at h
    · simp at h
    · split at h
      · simp at h
      · split at h
        · simp at h
        · rename_i s1 path hst
          simp only [Prod.mk.injEq] at h
          have hpj : DynOutcome.success path i = DynOutcome.success p j := h.2
          have hpath : path = p := by cases hpj; rfl
          rw [← hpath]
          exact dynamicStep_success_ne_nil g goal ss tol an _ (stream i) s1 path hst
        · exact ih (i + 1) _ s' p j h

theorem rrtStarStep_success_ne_nil (g : Grid) (goal : Point) (ss : ℤ) (tol : ℚ)
    (rr : ℝ) (an : Bool) (s : StarState) (samp : Samp) (s' : StarState) (p : List Point)
    (h : rrtStarStep g goal ss tol rr an s samp = (s', some (some p))) : p ≠ [] := by
  rw [rrtStarStep.eq_def] at h
  dsimp only at h
  split at h
  · simp at h
  · split at h
    · simp at h
    · split at h
      · simp at h
      · split at h
        · simp at h
        · split at h
          · rename_i step hsteer hb hc hline hgoal
            simp only [Prod.mk.injEq, Option.some.injEq] at h
            rcases Option.map_eq_some'.mp h.2 with ⟨l, hw, hl⟩
            have h2 : 2 ≤ l.length := by
              refine walkParents_two_le _ _ goal step l ?_ hw
              rw [treeFind, treeInsert]
              simp
            have hrl : 2 ≤ l.reverse.length := by simpa using h2
            have := densify_ne_nil l.reverse hrl
            rw [← hl]
            exact this
          · simp at h

theorem rrtStarLoop_success_ne_nil (g : Grid) (goal : Point) (ss : ℤ) (tol : ℚ)
    (rr : ℝ) (an : Bool) (stream : ℕ → Samp) :
    ∀ (fuel i : ℕ) (s s' : StarState) (p : List Point) (j : ℕ),
      rrtStarLoop g goal ss tol rr an stream fuel i s = (s', some (some (p, j))) → p ≠ [] := by
  intro fuel
  induction fuel with
  | zero => intro i s s' p j h; cases h
  | succ n ih =>
    intro i s s' p j h
    rw [rrtStarLoop] at h
    rcases hst : rrtStarStep g goal ss tol rr an s (stream i) with ⟨s1, out⟩
    rcases out with _ | op
    · rw [hst] at h; exact ih (i + 1) s1 s' p j h
    · rcases op with _ | path
      · rw [hst] at h; cases h
      · rw [hst] at h
        simp only [Prod.mk.injEq, Option.some.injEq, Prod.mk.injEq] at h
        have : path = p := h.2.1
        rw [← this]
        exact rrtStarStep_success_ne_nil g goal ss tol rr an s (stream i) s1 path hst

theorem connect_exhaust_eval :
    run_rrt_connect (freeGrid 3) (0, 0) (2, 2) 2 1 1 false c7stream =
      some ⟨[], none, []⟩ := by decide

theorem rrt_idle_eval :
    run_rrt (freeGrid 2) (0, 0) (1, 1) 1 1 1 false idleSamp =
      some ⟨[], some 1, []⟩ := by decide

theorem dynamic_idle_eval :
    run_dynamic_rrt (freeGrid 2) (0, 0) (1, 1) 1 1 1 5 false idleSamp =
      some ⟨[], some 1, []⟩ := by decide

theorem star_idle_eval :
    run_rrt_star (freeGrid 2) (0, 0) (1, 1) 1 1 1 4 false idleSamp =
      some ⟨[], some 1, []⟩ := by
  simp [run_rrt_star, rrtStarLoop, rrtStarStep, idleSamp, sampPoint, argminNodes, steer]

theorem informed_idle_eval :
    run_informed (freeGrid 2) (0, 0) (1, 1) 1 1 1 4 false idleDraw =
      some ⟨[], some 1, []⟩ := by
  simp [run_informed, informedLoop, informedStep, idleDraw, sampPoint, argminNodes, steer,
    inBoundsB, gridSize, freeGrid]

/-- C7 counterexample: RRT-Connect exhausting `max_iter = 2` returns a
2-tuple — an empty path and *no* iteration count at all (rrt_connetct.py:119),
not `max_iter` as the claim states. -/
theorem c7_counterexample :
    run_rrt_connect (freeGrid 3) (0, 0) (2, 2) 2 1 1 false c7stream =
        some ⟨[], none, []⟩ ∧ (none : Option ℕ) ≠ some 2 :=
  ⟨connect_exhaust_eval, by decide⟩

/-- C7 (amended): RRT, RRT*, Informed RRT* and Dynamic RRT return the empty
path together with `max_iter` as the iteration count when they exhaust the
iteration budget; but RRT-Connect never returns an iteration count (its
returned tuple has no third component, on success or failure), and Dynamic
RRT's start-pruned / empty-tree failure also omits the count. -/
theorem c7_failure_returns :
    (∀ (g : Grid) (s t : Point) (mi : ℕ) (ss : ℤ) (tol : ℚ) (an : Bool)
        (str : ℕ → Samp) (r : PlanResult), run_rrt g s t mi ss tol an str = some r →
          r.path = [] → r.count = some mi) ∧
    (∀ (g : Grid) (s t : Point) (mi : ℕ) (ss : ℤ) (tol : ℚ) (rr : ℝ) (an : Bool)
        (str : ℕ → Samp) (r : PlanResult), run_rrt_star g s t mi ss tol rr an str = some r →
          r.path = [] → r.count = some mi) ∧
    (∀ (g : Grid) (s t : Point) (mi : ℕ) (ss : ℤ) (tol : ℚ) (rr : ℝ) (an : Bool)
        (str : ℕ → InfDraw) (r : PlanResult), run_informed g s t mi ss tol rr an str = some r →
          r.count = some mi) ∧
    (∀ (g : Grid) (s t : Point) (mi : ℕ) (ss : ℤ) (tol : ℚ) (rf : ℕ) (an : Bool)
        (str : ℕ → Samp) (r : PlanResult), run_dynamic_rrt g s t mi ss tol rf an str = some r →
          r.path = [] → r.count = some mi ∨ r.count = none) ∧
    (∀ (g : Grid) (s t : Point) (mi : ℕ) (ss : ℤ) (tol : ℚ) (an : Bool)
        (str : ℕ → Point) (r : PlanResult), run_rrt_connect g s t mi ss tol an str = some r →
          r.count = none) := by
  refine ⟨?_, ?_, ?_, ?_, ?_⟩
  · intro g s t mi ss tol an str r hr hp
    rw [run_rrt] at hr
    rcases hloop : rrtLoop g t ss tol an str mi 1 ⟨[(s, none)], [s], [], []⟩ with ⟨s1, out⟩
    rcases out with _ | op
    · rw [hloop] at hr
      simp only [Option.some.injEq] at hr
      rw [← hr]
    · rcases op with _ | pr
      · rw [hloop] at hr; cases hr
      · rw [hloop] at hr
        simp only [Option.some.injEq] at hr
        have := rrtLoop_success_ne_nil g t ss tol an str mi 1 _ s1 pr.1 pr.2 (by rw [hloop])
        rw [← hr] at hp
        simp only at hp
        exact absurd hp this
  · intro g s t mi ss tol rr an str r hr hp
    rw [run_rrt_star] at hr
    rcases hloop : rrtStarLoop g t ss tol rr an str mi 1 ⟨[(s, none)], [(s, 0)], [s], [], []⟩
      with ⟨s1, out⟩
    rcases out with _ | op
    · rw [hloop] at hr
      simp only [Option.some.injEq] at hr
      rw [← hr]
    · rcases op with _ | pr
      · rw [hloop] at hr; cases hr
      · rw [hloop] at hr
        simp only [Option.some.injEq] at hr
        have := rrtStarLoop_success_ne_nil g t ss tol rr an str mi 1 _ s1 pr.1 pr.2
          (by rw [hloop])
        rw [← hr] at hp
        simp only at hp
        exact absurd hp this
  · intro g s t mi ss tol rr an str r hr
    rw [run_informed] at hr
    split at hr
    · split at hr
      · cases hr
      · simp only [Option.some.injEq] at hr
        rw [← hr]
    · simp only [Option.some.injEq] at hr
      rw [← hr]
  · intro g s t mi ss tol rf an str r hr hp
    rw [run_dynamic_rrt] at hr
    rcases hloop : dynamicLoop g s t ss tol rf an str mi 1 ⟨[(s, none)], [s], [], []⟩
      with ⟨s1, out⟩
    rcases out with ⟨p, j⟩ | _ | _ | _
    · rw [hloop] at hr
      simp only [Option.some.injEq] at hr
      have := dynamicLoop_success_ne_nil g s t ss tol rf an str mi 1 _ s1 p j (by rw [hloop])
      rw [← hr] at hp
      simp only at hp
      exact absurd hp this
    · rw [hloop] at hr
      simp only [Option.some.injEq] at hr
      rw [← hr]; right; rfl
    · rw [hloop] at hr
      simp only [Option.some.injEq] at hr
      rw [← hr]; left; rfl
    · rw [hloop] at hr; cases hr
  · intro g s t mi ss tol an str r hr
    rw [run_rrt_connect] at hr
    rcases hloop : connectLoop g ss tol an str mi 0
        ⟨[(s, none)], [s], [(t, none)], [t], [], []⟩ with ⟨s1, out⟩
    rcases out with _ | op
    · rw [hloop] at hr
      simp only [Option.some.injEq] at hr
      rw [← hr]
    · rcases op with _ | path
      · rw [hloop] at hr; cases hr
      · rw [hloop] at hr
        simp only [Option.some.injEq] at hr
        rw [← hr]

/-- Witness for the C7 theorem: concrete failing runs of each planner. -/
theorem c7_failure_returns_witness :
    (run_rrt (freeGrid 2) (0, 0) (1, 1) 1 1 1 false idleSamp = some ⟨[], some 1, []⟩ ∧
      (⟨[], some 1, ([] : Frames)⟩ : PlanResult).count = some 1) ∧
    (run_rrt_star (freeGrid 2) (0, 0) (1, 1) 1 1 1 4 false idleSamp =
        some ⟨[], some 1, []⟩ ∧
      (⟨[], some 1, ([] : Frames)⟩ : PlanResult).count = some 1) ∧
    (run_informed (freeGrid 2) (0, 0) (1, 1) 1 1 1 4 false idleDraw =
        some ⟨[], some 1, []⟩ ∧
      (⟨[], some 1, ([] : Frames)⟩ : PlanResult).count = some 1) ∧
    (run_dynamic_rrt (freeGrid 2) (0, 0) (1, 1) 1 1 1 5 false idleSamp =
        some ⟨[], some 1, []⟩ ∧
      ((⟨[], some 1, ([] : Frames)⟩ : PlanResult).count = some 1 ∨
        (⟨[], some 1, ([] : Frames)⟩ : PlanResult).count = none)) ∧
    (run_rrt_connect (freeGrid 3) (0, 0) (2, 2) 2 1 1 false c7stream =
        some ⟨[], none, []⟩ ∧
      (⟨[], none, ([] : Frames)⟩ : PlanResult).count = none) :=
  ⟨⟨rrt_idle_eval, c7_failure_returns.1 _ _ _ _ _ _ _ _ _ rrt_idle_eval rfl⟩,
   ⟨star_idle_eval, c7_failure_returns.2.1 _ _ _ _ _ _ _ _ _ _ star_idle_eval rfl⟩,
   ⟨informed_idle_eval, c7_failure_returns.2.2.1 _ _ _ _ _ _ _ _ _ _ informed_idle_eval⟩,
   ⟨dynamic_idle_eval, c7_failure_returns.2.2.2.1 _ _ _ _ _ _ _ _ _ _ dynamic_idle_eval rfl⟩,
   ⟨connect_exhaust_eval, c7_failure_returns.2.2.2.2 _ _ _ _ _ _ _ _ _ connect_exhaust_eval⟩⟩

/-! ## Association-list and walk lemmas -/

theorem treeFind_insert_self (t : Tree) (p : Point) (v : Option Point) :
    treeFind (treeInsert t p v) p = some v := by
  simp [treeFind, treeInsert, List.find?]

theorem treeFind_insert_ne (t : Tree) (p : Point) (v : Option Point) (x : Point)
    (h : x ≠ p) : treeFind (treeInsert t p v) x = treeFind t x := by
  have : (decide (p = x)) = false := by
    simp only [decide_eq_false_iff_not]
    exact fun hc => h hc.symm
  simp [treeFind, treeInsert, List.find?, this]

theorem dmapFind_cons_self (c : List (Point × ℝ)) (p : Point) (v : ℝ) :
    dmapFind ((p, v) :: c) p = some v := by
  simp [dmapFind, List.find?]

theorem dmapFind_cons_ne (c : List (Point × ℝ)) (p : Point) (v : ℝ) (x : Point)
    (h : x ≠ p) : dmapFind ((p, v) :: c) x = dmapFind c x := by
  have : (decide (p = x)) = false := by
    simp only [decide_eq_false_iff_not]
    exact fun hc => h hc.symm
  simp [dmapFind, List.find?, this]

theorem costGet_cons_self (c : List (Point × ℝ)) (p : Point) (v : ℝ) :
    costGet ((p, v) :: c) p = v := by
  simp [costGet, dmapFind_cons_self]

theorem costGet_cons_ne (c : List (Point × ℝ)) (p : Point) (v : ℝ) (x : Point)
    (h : x ≠ p) : costGet ((p, v) :: c) x = costGet c x := by
  simp [costGet, dmapFind_cons_ne c p v x h]

theorem squaredDist_eq_zero (a b : Point) : squaredDist a b = 0 ↔ a = b := by
  rw [squaredDist]
  constructor
  · intro h
    have h1 : (a.1 - b.1).natAbs = 0 := by nlinarith [sq_nonneg (a.1 - b.1).natAbs]
    have h2 : (a.2 - b.2).natAbs = 0 := by nlinarith [sq_nonneg (a.2 - b.2).natAbs]
    have e1 : a.1 = b.1 := by omega
    have e2 : a.2 = b.2 := by omega
    exact Prod.ext e1 e2
  · intro h; rw [h]; simp

theorem distR_nonneg (a b : Point) : 0 ≤ distR a b := Real.sqrt_nonneg _

theorem distR_pos_of_ne (a b : Point) (h : a ≠ b) : 0 < distR a b := by
  rw [distR]
  apply Real.sqrt_pos.mpr
  have : squaredDist a b ≠ 0 := fun hc => h ((squaredDist_eq_zero a b).mp hc)
  exact_mod_cast Nat.pos_of_ne_zero this

theorem walkParents_insert_fresh (t : Tree) (p : Point) (v : Option Point)
    (hp : treeFind t p = none) :
    ∀ (fuel : ℕ) (x : Point) (l : List Point), walkParents t fuel x = some l →
      walkParents (treeInsert t p v) fuel x = some l := by
  intro fuel
  induction fuel with
  | zero => intro x l h; cases h
  | succ n ih =>
    intro x l h
    rw [walkParents] at h
    rcases hf : treeFind t x with _ | op
    · rw [hf] at h; cases h
    · have hxp : x ≠ p := fun hc => by rw [hc, hp] at hf; cases hf
      rcases op with _ | q
      · rw [hf] at h
        rw [walkParents, treeFind_insert_ne t p v x hxp, hf]
        exact h
      · rw [hf] at h
        dsimp only at h
        rcases Option.map_eq_some'.mp h with ⟨l', hw, hl⟩
        rw [walkParents, treeFind_insert_ne t p v x hxp, hf]
        dsimp only
        rw [ih q l' hw]
        rw [← hl]
        rfl

theorem getLast_cons_of_ne_nil (p : Point) (l : List Point) (h : l ≠ []) :
    (p :: l).getLast? = l.getLast? := by
  rcases l with _ | ⟨a, l⟩
  · exact absurd rfl h
  · simp [List.getLast?_cons_cons]

theorem ReachesRoot_insert_fresh (t : Tree) (root p : Point) (v : Option Point)
    (hp : treeFind t p = none) (x : Point) (hx : ReachesRoot t root x) :
    ReachesRoot (treeInsert t p v) root x := by
  rcases hx with ⟨fuel, l, hw, hl⟩
  exact ⟨fuel, l, walkParents_insert_fresh t p v hp fuel x l hw, hl⟩

/-- Inserting a point not already in the tree, with a parent that reaches the
root, preserves reachability of the root from every tree key. -/
theorem insert_fresh_preserves_rooted (t : Tree) (root p q : Point)
    (hall : ∀ x, (treeFind t x).isSome → ReachesRoot t root x)
    (hp : treeFind t p = none) (hq : (treeFind t q).isSome) :
    ∀ x, (treeFind (treeInsert t p (some q)) x).isSome →
      ReachesRoot (treeInsert t p (some q)) root x := by
  intro x hx
  by_cases hxp : x = p
  · subst hxp
    rcases hall q hq with ⟨fuel, l, hw, hl⟩
    have hw' := walkParents_insert_fresh t x (some q) hp fuel q l hw
    refine ⟨fuel + 1, x :: l, ?_, ?_⟩
    · rw [walkParents, treeFind_insert_self]
      dsimp only
      rw [hw']
      rfl
    · rw [getLast_cons_of_ne_nil x l (walkParents_ne_nil fuel t q l hw)]
      exact hl
  · rw [treeFind_insert_ne t p (some q) x hxp] at hx
    exact ReachesRoot_insert_fresh t root p (some q) hp x (hall x hx)

/-! ## The RRT* cost invariant implies rootedness, and rewires preserve it -/

theorem treeFind_isSome_mem (t : Tree) (x : Point) (hx : (treeFind t x).isSome) :
    x ∈ t.map Prod.fst := by
  rcases Option.isSome_iff_exists.mp hx with ⟨v, hv⟩
  rw [treeFind] at hv
  rcases Option.map_eq_some'.mp hv with ⟨e, he, _⟩
  have hfd := List.find?_some he
  have hex : e.1 = x := by simpa using hfd
  have hmem : e ∈ t := List.mem_of_find?_eq_some he
  rw [← hex]
  exact List.mem_map_of_mem Prod.fst hmem

theorem StarInv_reaches (t : Tree) (costs : List (Point × ℝ)) (root : Point)
    (inv : StarInv t costs root) :
    ∀ x, (treeFind t x).isSome → ReachesRoot t root x := by
  classical
  have main : ∀ (m : ℕ) (x : Point),
      ((t.map Prod.fst).toFinset.filter
        (fun y => costGet costs y < costGet costs x)).card = m →
      (treeFind t x).isSome → ReachesRoot t root x := by
    intro m
    induction m using Nat.strong_induction_on with
    | _ m ih =>
      intro x hm hx
      rcases Option.isSome_iff_exists.mp hx with ⟨op, hop⟩
      rcases op with _ | q
      · have hxr : x = root := inv.uniqueRoot x hop
        exact ⟨1, [x], by rw [walkParents, hop], by simp [hxr]⟩
      · have hq : (treeFind t q).isSome := inv.parentKey x q hop
        have hlt : costGet costs q < costGet costs x := inv.strict x q hop
        have hsub : (t.map Prod.fst).toFinset.filter
              (fun y => costGet costs y < costGet costs q) ⊂
            (t.map Prod.fst).toFinset.filter
              (fun y => costGet costs y < costGet costs x) := by
          rw [Finset.ssubset_def]
          constructor
          · intro y hy
            simp only [Finset.mem_filter] at hy ⊢
            exact ⟨hy.1, lt_trans hy.2 hlt⟩
          · intro hcon
            have hqin : q ∈ (t.map Prod.fst).toFinset.filter
                (fun y => costGet costs y < costGet costs x) := by
              simp only [Finset.mem_filter]
              exact ⟨List.mem_toFinset.mpr (treeFind_isSome_mem t q hq), hlt⟩
            have := hcon hqin
            simp only [Finset.mem_filter] at this
            exact absurd this.2 (lt_irrefl _)
        have hcard := Finset.card_lt_card hsub
        rcases ih _ (by rw [← hm]; exact hcard) q rfl hq with ⟨fuel, l, hw, hl⟩
        refine ⟨fuel + 1, x :: l, ?_, ?_⟩
        · rw [walkParents, hop]
          dsimp only
          rw [hw]
          rfl
        · rw [getLast_cons_of_ne_nil x l (walkParents_ne_nil fuel t q l hw)]
          exact hl
  intro x hx
  exact main _ x rfl hx

theorem costGetTop_eq_of_find (c : List (Point × ℝ)) (p : Point) (v : ℝ)
    (h : dmapFind c p = some v) : costGetTop c p = (v : WithTop ℝ) ∧ costGet c p = v := by
  constructor
  · rw [costGetTop, h]
  · rw [costGet, h]; rfl

/-- An RRT* rewire (rrt_star.py lines 115–130) preserves the cost invariant,
hence keeps the parent structure a rooted tree. -/
theorem starRewireOne_preserves (g : Grid) (t : Tree) (costs : List (Point × ℝ))
    (lines : List (Point × Point)) (root step parent n : Point)
    (inv : StarInv t costs root) (hstep : (treeFind t step).isSome) (hns : n ≠ step) :
    StarInv (starRewireOne g step parent (t, costs, lines) n).1
      (starRewireOne g step parent (t, costs, lines) n).2.1 root := by
  rw [starRewireOne]
  by_cases h1 : n = parent
  · rw [if_pos h1]; exact inv
  · rw [if_neg h1]
    by_cases h2 : (!line_is_clear g step n) = true
    · rw [if_pos h2]; exact inv
    · rw [if_neg h2]
      dsimp only
      by_cases h3 : ((costGet costs step + distR step n + 1 / 1000000 : ℝ) : WithTop ℝ) <
          costGetTop costs n
      · rw [if_pos h3]
        dsimp only
        have hnewnn : 0 ≤ costGet costs step + distR step n :=
          add_nonneg (inv.nonneg step) (distR_nonneg step n)
        have hstepd : 0 < distR step n := distR_pos_of_ne step n (fun hc => hns hc.symm)
        -- the root is never rewired: its cost is 0 and the new cost is nonnegative
        have hnroot : n ≠ root := by
          intro hc
          subst hc
          have hkey : (dmapFind costs n).isSome := inv.costKey n (by rw [inv.rootMem]; rfl)
          rcases Option.isSome_iff_exists.mp hkey with ⟨v, hv⟩
          rcases costGetTop_eq_of_find costs n v hv with ⟨htop, hget⟩
          rw [htop] at h3
          have h3' : costGet costs step + distR step n + 1 / 1000000 < v :=
            WithTop.coe_lt_coe.mp h3
          have hv0 : v = 0 := by rw [← hget]; exact inv.rootCost
          rw [hv0] at h3'
          nlinarith
        refine ⟨?_, ?_, ?_, ?_, ?_, ?_, ?_⟩
        · rw [treeFind_insert_ne t n _ root (fun hc => hnroot hc.symm)]
          exact inv.rootMem
        · intro p hp
          by_cases hpn : p = n
          · subst hpn
            rw [treeFind_insert_self] at hp
            cases hp
          · rw [treeFind_insert_ne t n _ p hpn] at hp
            exact inv.uniqueRoot p hp
        · intro p q hpq
          by_cases hqn : q = n
          · subst hqn
            rw [treeFind_insert_self]
            rfl
          · rw [treeFind_insert_ne t n _ q hqn]
            by_cases hpn : p = n
            · subst hpn
              rw [treeFind_insert_self] at hpq
              have hqs : step = q := by simpa using hpq
              cases hqs
              exact hstep
            · rw [treeFind_insert_ne t n _ p hpn] at hpq
              exact inv.parentKey p q hpq
        · intro p hp
          by_cases hpn : p = n
          · subst hpn
            rw [dmapFind_cons_self]
            rfl
          · rw [treeFind_insert_ne t n _ p hpn] at hp
            rw [dmapFind_cons_ne costs n _ p hpn]
            exact inv.costKey p hp
        · rw [costGet_cons_ne costs n _ root (fun hc => hnroot hc.symm)]
          exact inv.rootCost
        · intro p
          by_cases hpn : p = n
          · subst hpn
            rw [costGet_cons_self]
            exact hnewnn
          · rw [costGet_cons_ne costs n _ p hpn]
            exact inv.nonneg p
        · intro p q hpq
          by_cases hpn : p = n
          · subst hpn
            rw [treeFind_insert_self] at hpq
            have hqs : step = q := by simpa using hpq
            cases hqs
            rw [costGet_cons_self, costGet_cons_ne costs p _ step (fun hc => hns hc.symm)]
            linarith
          · rw [treeFind_insert_ne t n _ p hpn] at hpq
            rw [costGet_cons_ne costs n _ p hpn]
            by_cases hqn : q = n
            · rw [hqn] at hpq
              rw [hqn, costGet_cons_self]
              have hkey : (dmapFind costs n).isSome := inv.costKey n (inv.parentKey p n hpq)
              rcases Option.isSome_iff_exists.mp hkey with ⟨v, hv⟩
              rcases costGetTop_eq_of_find costs n v hv with ⟨htop, hget⟩
              rw [htop] at h3
              have h3' : costGet costs step + distR step n + 1 / 1000000 < v :=
                WithTop.coe_lt_coe.mp h3
              have hold : costGet costs n < costGet costs p := inv.strict p n hpq
              nlinarith
            · rw [costGet_cons_ne costs n _ q hqn]
              exact inv.strict p q hpq
      · rw [if_neg h3]
        exact inv

/-! ## C3: the parent structure as a rooted tree -/

theorem treeFind_cons (e : Point × Option Point) (t : Tree) (x : Point) :
    treeFind (e :: t) x = if e.1 = x then some e.2 else treeFind t x := by
  by_cases h : e.1 = x
  · simp [treeFind, List.find?, h]
  · simp [treeFind, List.find?, h]

theorem dmapFind_cons (e : Point × ℝ) (c : List (Point × ℝ)) (x : Point) :
    dmapFind (e :: c) x = if e.1 = x then some e.2 else dmapFind c x := by
  by_cases h : e.1 = x
  · simp [dmapFind, List.find?, h]
  · simp [dmapFind, List.find?, h]

theorem c3_no_walk :
    ∀ f, walkParents c3state.tree f (0, 3) = none ∧
      walkParents c3state.tree f (0, 0) = none := by
  intro f
  induction f with
  | zero => exact ⟨rfl, rfl⟩
  | succ n ih =>
    constructor
    · rw [walkParents]
      have h : treeFind c3state.tree (0, 3) = some (some (0, 0)) := by decide
      rw [h]
      dsimp only
      rw [ih.2]
      rfl
    · rw [walkParents]
      have h : treeFind c3state.tree (0, 0) = some (some (0, 3)) := by decide
      rw [h]
      dsimp only
      rw [ih.1]
      rfl

/-- C3 counterexample: after three rrt.py iterations on a free 7×7 grid
(start (0,6), step size 3, draws (0,0), (0,0), (0,1)), the third steered point
lands exactly on the existing node (0,3) and overwrites its parent: the tree
then contains the cycle (0,3) ↦ (0,0) ↦ (0,3) among two non-root nodes, and
following parent links from (0,3) never reaches the root — the parent
structure is not a rooted tree, and reconstruction through it would not
terminate. -/
theorem c3_counterexample :
    treeFind c3state.tree (0, 3) = some (some (0, 0)) ∧
      treeFind c3state.tree (0, 0) = some (some (0, 3)) ∧
      ((0, 3) : Point) ≠ (0, 6) ∧ ((0, 0) : Point) ≠ (0, 6) ∧
      tracesToRootB c3state.tree (0, 6) (0, 3) = false ∧
      ¬ ReachesRoot c3state.tree (0, 6) (0, 3) := by
  refine ⟨by decide, by decide, by decide, by decide, by decide, ?_⟩
  rintro ⟨f, l, hw, _⟩
  rw [(c3_no_walk f).1] at hw
  cases hw

/-- C3 (amended): insertions of points *not already in the tree* (with a
parent already in the tree) preserve reachability of the root from every
node, and RRT*'s rewires preserve the cost invariant from which the
rooted-tree property follows; but a steered point that coincides with an
existing node overwrites that node's parent and can create a cycle (see the
counterexample), so the invariant as originally stated does not hold after
*every* insertion. -/
theorem c3_tree_preservation :
    (∀ (t : Tree) (root p q : Point),
        (∀ x, (treeFind t x).isSome → ReachesRoot t root x) →
        treeFind t p = none → (treeFind t q).isSome →
        ∀ x, (treeFind (treeInsert t p (some q)) x).isSome →
          ReachesRoot (treeInsert t p (some q)) root x) ∧
    (∀ (g : Grid) (t : Tree) (costs : List (Point × ℝ)) (lines : List (Point × Point))
        (root step parent n : Point), StarInv t costs root → (treeFind t step).isSome →
        n ≠ step →
        StarInv (starRewireOne g step parent (t, costs, lines) n).1
          (starRewireOne g step parent (t, costs, lines) n).2.1 root) ∧
    (∀ (t : Tree) (costs : List (Point × ℝ)) (root : Point), StarInv t costs root →
        ∀ x, (treeFind t x).isSome → ReachesRoot t root x) :=
  ⟨insert_fresh_preserves_rooted, starRewireOne_preserves, StarInv_reaches⟩

/-- A concrete two-node RRT* state satisfying the cost invariant. -/
theorem starInvExample :
    StarInv [((1, 0), some (0, 0)), ((0, 0), none)]
      [((1, 0), (1 : ℝ)), ((0, 0), 0)] (0, 0) := by
  refine ⟨by decide, ?_, ?_, ?_, ?_, ?_, ?_⟩
  · intro p hp
    rw [treeFind_cons, treeFind_cons] at hp
    split_ifs at hp with h1 h2
    · cases hp
    · exact h2.symm
    · cases hp
  · intro p q hpq
    rw [treeFind_cons, treeFind_cons] at hpq
    split_ifs at hpq with h1 h2
    · have hq : q = (0, 0) := by simpa using hpq.symm
      subst hq
      decide
    · cases hpq
    · cases hpq
  · intro p hp
    rw [treeFind_cons, treeFind_cons] at hp
    rw [dmapFind_cons, dmapFind_cons]
    split_ifs at hp with h1 h2
    · rw [if_pos h1]; rfl
    · rw [if_neg h1, if_pos h2]; rfl
    · cases hp
  · simp [costGet, dmapFind, List.find?]
  · intro p
    rw [costGet, dmapFind_cons, dmapFind_cons]
    split_ifs
    · norm_num
    · norm_num
    · simp [dmapFind]
  · intro p q hpq
    rw [treeFind_cons, treeFind_cons] at hpq
    split_ifs at hpq with h1 h2
    · have hq : q = (0, 0) := by simpa using hpq.symm
      subst hq
      rw [← h1]
      simp only [costGet, dmapFind, List.find?]
      norm_num
    · cases hpq
    · cases hpq

/-- Witness for the C3 theorem: a fresh insertion into a one-node tree, and a
rewire of a fresh neighbor in a two-node RRT* state. -/
theorem c3_tree_preservation_witness :
    (treeFind ([((0, 0), none)] : Tree) (1, 0) = none ∧
      (treeFind ([((0, 0), none)] : Tree) (0, 0)).isSome ∧
      ReachesRoot (treeInsert [((0, 0), none)] (1, 0) (some (0, 0))) (0, 0) (1, 0)) ∧
    (StarInv (starRewireOne (freeGrid 2) (1, 0) (0, 0)
        ([((1, 0), some (0, 0)), ((0, 0), none)],
          [((1, 0), (1 : ℝ)), ((0, 0), 0)], []) (0, 1)).1
      (starRewireOne (freeGrid 2) (1, 0) (0, 0)
        ([((1, 0), some (0, 0)), ((0, 0), none)],
          [((1, 0), (1 : ℝ)), ((0, 0), 0)], []) (0, 1)).2.1 (0, 0)) ∧
    ReachesRoot [((1, 0), some (0, 0)), ((0, 0), none)] (0, 0) (1, 0) := by
  refine ⟨⟨by decide, by decide, ?_⟩, ?_, ?_⟩
  · refine c3_tree_preservation.1 [((0, 0), none)] (0, 0) (1, 0) (0, 0) ?_ (by decide)
      (by decide) (1, 0) (by decide)
    intro x hx
    rw [treeFind_cons] at hx
    split_ifs at hx with h1
    · exact ⟨1, [x], by rw [walkParents, treeFind_cons, if_pos h1], by simp [← h1]⟩
    · cases hx
  · exact c3_tree_preservation.2.1 (freeGrid 2) _ _ [] (0, 0) (1, 0) (0, 0) (0, 1)
      starInvExample (by decide) (by decide)
  · exact c3_tree_preservation.2.2 _ _ (0, 0) starInvExample (1, 0) (by decide)

/-! ## C4: the prune cycle of dynamic_rrt.py -/

theorem join_eq_some (o : Option (Option Point)) (q : Point) :
    o.join = some q ↔ o = some (some q) := by
  rcases o with _ | op
  · simp
  · rcases op with _ | x
    · simp
    · simp

theorem sweepPass_append (t : Tree) :
    ∀ (nodes : List Point) (rem : List Point),
      ∃ ex, sweepPass t nodes rem = rem ++ ex := by
  intro nodes
  induction nodes with
  | nil => intro rem; exact ⟨[], by simp [sweepPass]⟩
  | cons node rest ih =>
    intro rem
    rw [sweepPass, List.foldl_cons]
    by_cases h1 : node ∈ rem
    · rw [if_pos h1]
      exact ih rem
    · rw [if_neg h1]
      rcases hj : (treeFind t node).join with _ | par
      · exact ih rem
      · dsimp only
        by_cases h2 : par ∈ rem
        · rw [if_pos h2]
          rcases ih (rem ++ [node]) with ⟨ex, hex⟩
          exact ⟨[node] ++ ex, by rw [← List.append_assoc]; exact hex⟩
        · rw [if_neg h2]
          exact ih rem

theorem sweepPass_mono (t : Tree) (nodes rem : List Point) (x : Point)
    (hx : x ∈ rem) : x ∈ sweepPass t nodes rem := by
  rcases sweepPass_append t nodes rem with ⟨ex, hex⟩
  rw [hex]
  exact List.mem_append_left ex hx

theorem sweepPass_sub (t : Tree) :
    ∀ (nodes rem : List Point) (x : Point), x ∈ sweepPass t nodes rem →
      x ∈ rem ∨ x ∈ nodes := by
  intro nodes
  induction nodes with
  | nil => intro rem x hx; exact Or.inl hx
  | cons node rest ih =>
    intro rem x hx
    rw [sweepPass, List.foldl_cons] at hx
    have step : ∀ acc', (acc' = rem ∨ acc' = rem ++ [node]) →
        x ∈ List.foldl (fun acc node =>
          if node ∈ acc then acc
          else match (treeFind t node).join with
            | none => acc
            | some par => if par ∈ acc then acc ++ [node] else acc) acc' rest →
        x ∈ rem ∨ x = node ∨ x ∈ rest := by
      intro acc' hacc hmem
      have := ih acc' x (by rw [sweepPass]; exact hmem)
      rcases this with h | h
      · rcases hacc with rfl | rfl
        · exact Or.inl h
        · rcases List.mem_append.mp h with h | h
          · exact Or.inl h
          · exact Or.inr (Or.inl (by simpa using h))
      · exact Or.inr (Or.inr h)
    by_cases h1 : node ∈ rem
    · rw [if_pos h1] at hx
      rcases step rem (Or.inl rfl) hx with h | h | h
      · exact Or.inl h
      · exact Or.inr (by rw [h]; exact List.mem_cons_self node rest)
      · exact Or.inr (List.mem_cons_of_mem node h)
    · rw [if_neg h1] at hx
      rcases hj : (treeFind t node).join with _ | par
      · rw [hj] at hx
        rcases step rem (Or.inl rfl) hx with h | h | h
        · exact Or.inl h
        · exact Or.inr (by rw [h]; exact List.mem_cons_self node rest)
        · exact Or.inr (List.mem_cons_of_mem node h)
      · rw [hj] at hx
        dsimp only at hx
        by_cases h2 : par ∈ rem
        · rw [if_pos h2] at hx
          rcases step (rem ++ [node]) (Or.inr rfl) hx with h | h | h
          · exact Or.inl h
          · exact Or.inr (by rw [h]; exact List.mem_cons_self node rest)
          · exact Or.inr (List.mem_cons_of_mem node h)
        · rw [if_neg h2] at hx
          rcases step rem (Or.inl rfl) hx with h | h | h
          · exact Or.inl h
          · exact Or.inr (by rw [h]; exact List.mem_cons_self node rest)
          · exact Or.inr (List.mem_cons_of_mem node h)

theorem sweepPass_doomed (g : Grid) (t : Tree) :
    ∀ (nodes rem : List Point), (∀ y ∈ rem, Doomed g t y) →
      ∀ x ∈ sweepPass t nodes rem, Doomed g t x := by
  intro nodes
  induction nodes with
  | nil => intro rem hrem x hx; exact hrem x hx
  | cons node rest ih =>
    intro rem hrem x hx
    rw [sweepPass, List.foldl_cons] at hx
    by_cases h1 : node ∈ rem
    · rw [if_pos h1] at hx
      exact ih rem hrem x (by rw [sweepPass]; exact hx)
    · rw [if_neg h1] at hx
      rcases hj : (treeFind t node).join with _ | par
      · rw [hj] at hx
        exact ih rem hrem x (by rw [sweepPass]; exact hx)
      · rw [hj] at hx
        dsimp only at hx
        by_cases h2 : par ∈ rem
        · rw [if_pos h2] at hx
          refine ih (rem ++ [node]) ?_ x (by rw [sweepPass]; exact hx)
          intro y hy
          rcases List.mem_append.mp hy with h | h
          · exact hrem y h
          · have : y = node := by simpa using h
            rw [this]
            exact Doomed.child node par ((join_eq_some _ par).mp hj) (hrem par h2)
        · rw [if_neg h2] at hx
          exact ih rem hrem x (by rw [sweepPass]; exact hx)

theorem sweepPass_nodup (t : Tree) :
    ∀ (nodes rem : List Point), rem.Nodup → (sweepPass t nodes rem).Nodup := by
  intro nodes
  induction nodes with
  | nil => intro rem h; simpa [sweepPass] using h
  | cons node rest ih =>
    intro rem h
    rw [sweepPass, List.foldl_cons]
    by_cases h1 : node ∈ rem
    · rw [if_pos h1]; exact ih rem h
    · rw [if_neg h1]
      rcases hj : (treeFind t node).join with _ | par
      · exact ih rem h
      · dsimp only
        by_cases h2 : par ∈ rem
        · rw [if_pos h2]
          refine ih (rem ++ [node]) ?_
          simp only [List.nodup_append, List.nodup_cons, List.nodup_nil]
          refine ⟨h, by simp, ?_⟩
          intro a ha hb
          have : a = node := by simpa using hb
          rw [this] at ha
          exact h1 ha
        · rw [if_neg h2]; exact ih rem h

theorem sweepPass_closed (t : Tree) :
    ∀ (nodes rem : List Point) (node par : Point), node ∈ nodes →
      (treeFind t node).join = some par → par ∈ rem →
      node ∈ sweepPass t nodes rem := by
  intro nodes
  induction nodes with
  | nil => intro rem node par h; cases h
  | cons hd rest ih =>
    intro rem node par hmem hj hpar
    rw [sweepPass, List.foldl_cons]
    rcases List.mem_cons.mp hmem with rfl | hmem'
    · by_cases h1 : node ∈ rem
      · rw [if_pos h1]
        exact sweepPass_mono t rest rem node h1
      · rw [if_neg h1, hj]
        dsimp only
        rw [if_pos hpar]
        exact sweepPass_mono t rest (rem ++ [node]) node (by simp)
    · by_cases h1 : hd ∈ rem
      · rw [if_pos h1]
        exact ih rem node par hmem' hj hpar
      · rw [if_neg h1]
        rcases hj2 : (treeFind t hd).join with _ | par2
        · exact ih rem node par hmem' hj hpar
        · dsimp only
          by_cases h2 : par2 ∈ rem
          · rw [if_pos h2]
            exact ih (rem ++ [hd]) node par hmem' hj (List.mem_append_left _ hpar)
          · rw [if_neg h2]
            exact ih rem node par hmem' hj hpar

theorem sweepRec_mono (t : Tree) (nodes : List Point) :
    ∀ (fuel : ℕ) (rem : List Point) (x : Point), x ∈ rem →
      x ∈ sweepRec t nodes fuel rem := by
  intro fuel
  induction fuel with
  | zero => intro rem x hx; exact hx
  | succ n ih =>
    intro rem x hx
    rw [sweepRec]
    split
    · exact hx
    · exact ih _ x (sweepPass_mono t nodes rem x hx)

theorem sweepRec_sub (t : Tree) (nodes : List Point) :
    ∀ (fuel : ℕ) (rem : List Point) (x : Point), x ∈ sweepRec t nodes fuel rem →
      x ∈ rem ∨ x ∈ nodes := by
  intro fuel
  induction fuel with
  | zero => intro rem x hx; exact Or.inl hx
  | succ n ih =>
    intro rem x hx
    rw [sweepRec] at hx
    split at hx
    · exact Or.inl hx
    · rcases ih _ x hx with h | h
      · exact sweepPass_sub t nodes rem x h
      · exact Or.inr h

theorem sweepRec_doomed (g : Grid) (t : Tree) (nodes : List Point) :
    ∀ (fuel : ℕ) (rem : List Point), (∀ y ∈ rem, Doomed g t y) →
      ∀ x ∈ sweepRec t nodes fuel rem, Doomed g t x := by
  intro fuel
  induction fuel with
  | zero => intro rem hrem x hx; exact hrem x hx
  | succ n ih =>
    intro rem hrem x hx
    rw [sweepRec] at hx
    split at hx
    · exact hrem x hx
    · exact ih _ (fun y hy => sweepPass_doomed g t nodes rem hrem y hy) x hx

theorem sweepRec_nodup (t : Tree) (nodes : List Point) :
    ∀ (fuel : ℕ) (rem : List Point), rem.Nodup → (sweepRec t nodes fuel rem).Nodup := by
  intro fuel
  induction fuel with
  | zero => intro rem h; exact h
  | succ n ih =>
    intro rem h
    rw [sweepRec]
    split
    · exact h
    · exact ih _ (sweepPass_nodup t nodes rem h)

theorem nodup_length_le (l l' : List Point) (hn : l.Nodup) (hsub : ∀ x ∈ l, x ∈ l') :
    l.length ≤ l'.length := by
  have h1 : l.toFinset.card = l.length := List.toFinset_card_of_nodup hn
  have h2 : l.toFinset ⊆ l'.toFinset := by
    intro x hx
    rw [List.mem_toFinset] at hx ⊢
    exact hsub x hx
  have h3 := Finset.card_le_card h2
  have h4 : l'.toFinset.card ≤ l'.length := l'.toFinset_card_le
  omega

theorem sweepRec_fix (t : Tree) (nodes : List Point) :
    ∀ (fuel : ℕ) (rem : List Point), rem.Nodup → (∀ x ∈ rem, x ∈ nodes) →
      nodes.length + 1 ≤ rem.length + fuel →
      sweepPass t nodes (sweepRec t nodes fuel rem) = sweepRec t nodes fuel rem := by
  intro fuel
  induction fuel with
  | zero =>
    intro rem hrn hsub hlen
    have := nodup_length_le rem nodes hrn hsub
    omega
  | succ n ih =>
    intro rem hrn hsub hlen
    rw [sweepRec]
    by_cases hl : (sweepPass t nodes rem).length = rem.length
    · rw [if_pos hl]
      rcases sweepPass_append t nodes rem with ⟨ex, hex⟩
      have : ex = [] := by
        have := congrArg List.length hex
        simp only [List.length_append] at this
        have hex0 : ex.length = 0 := by omega
        exact List.length_eq_zero.mp hex0
      rw [this] at hex
      simpa using hex
    · rw [if_neg hl]
      refine ih (sweepPass t nodes rem) (sweepPass_nodup t nodes rem hrn) ?_ ?_
      · intro x hx
        rcases sweepPass_sub t nodes rem x hx with h | h
        · exact hsub x h
        · exact h
      · rcases sweepPass_append t nodes rem with ⟨ex, hex⟩
        have hlen2 := congrArg List.length hex
        simp only [List.length_append] at hlen2
        have : ex.length ≠ 0 := by
          intro hc
          exact hl (by omega)
        omega

/-! Effects of the removal loop. -/

theorem pruneRemove_nodes (rs : List Point) :
    ∀ (t : Tree) (nodes : List Point) (lines : List (Point × Point)),
      (pruneRemove rs t nodes lines).2.1 =
        rs.foldl (fun ns x => ns.erase x) nodes := by
  induction rs with
  | nil => intro t nodes lines; rfl
  | cons r rest ih =>
    intro t nodes lines
    rw [pruneRemove, List.foldl_cons, List.foldl_cons]
    exact ih _ _ _

theorem pruneRemove_tree (rs : List Point) :
    ∀ (t : Tree) (nodes : List Point) (lines : List (Point × Point)),
      (pruneRemove rs t nodes lines).1 = rs.foldl treeErase t := by
  induction rs with
  | nil => intro t nodes lines; rfl
  | cons r rest ih =>
    intro t nodes lines
    rw [pruneRemove, List.foldl_cons, List.foldl_cons]
    exact ih _ _ _

theorem treeFind_erase_ne (t : Tree) (p x : Point) (h : x ≠ p) :
    treeFind (treeErase t p) x = treeFind t x := by
  induction t with
  | nil => rfl
  | cons e t ih =>
    rw [treeErase, List.filter]
    by_cases he : e.1 = p
    · have : (!decide (e.1 = p)) = false := by simp [he]
      rw [this]
      rw [treeFind_cons, if_neg (by rw [he]; exact fun hc => h hc.symm)]
      rw [← treeErase]
      exact ih
    · have : (!decide (e.1 = p)) = true := by simp [he]
      rw [this]
      rw [treeFind_cons, treeFind_cons]
      by_cases hex : e.1 = x
      · rw [if_pos hex, if_pos hex]
      · rw [if_neg hex, if_neg hex]
        rw [← treeErase]
        exact ih

theorem treeFind_erase_self (t : Tree) (p : Point) :
    treeFind (treeErase t p) p = none := by
  induction t with
  | nil => rfl
  | cons e t ih =>
    rw [treeErase, List.filter]
    by_cases he : e.1 = p
    · have : (!decide (e.1 = p)) = false := by simp [he]
      rw [this]
      rw [← treeErase]
      exact ih
    · have : (!decide (e.1 = p)) = true := by simp [he]
      rw [this]
      rw [treeFind_cons, if_neg he]
      rw [← treeErase]
      exact ih

theorem treeFind_foldl_erase (rs : List Point) :
    ∀ (t : Tree) (x : Point), x ∉ rs →
      treeFind (rs.foldl treeErase t) x = treeFind t x := by
  induction rs with
  | nil => intro t x _; rfl
  | cons r rest ih =>
    intro t x hx
    rw [List.foldl_cons]
    rw [ih (treeErase t r) x (fun hc => hx (List.mem_cons_of_mem r hc))]
    exact treeFind_erase_ne t r x (fun hc => hx (by rw [hc]; exact List.mem_cons_self r rest))

theorem walk_transfer (t : Tree) (rs : List Point) :
    ∀ (fuel : ℕ) (x : Point) (l : List Point), walkParents t fuel x = some l →
      (∀ y ∈ l, y ∉ rs) → walkParents (rs.foldl treeErase t) fuel x = some l := by
  intro fuel
  induction fuel with
  | zero => intro x l h; cases h
  | succ n ih =>
    intro x l h hl
    rw [walkParents] at h
    rcases hf : treeFind t x with _ | op
    · rw [hf] at h; cases h
    · have hxl : x ∈ l := by
        rcases op with _ | q
        · rw [hf] at h
          simp only [Option.some.injEq] at h
          rw [← h]; exact List.mem_singleton_self x
        · rw [hf] at h
          rcases Option.map_eq_some'.mp h with ⟨l', _, hl'⟩
          rw [← hl']; exact List.mem_cons_self x l'
      have hfind : treeFind (rs.foldl treeErase t) x = treeFind t x :=
        treeFind_foldl_erase rs t x (hl x hxl)
      rcases op with _ | q
      · rw [hf] at h
        rw [walkParents, hfind, hf]
        exact h
      · rw [hf] at h
        rcases Option.map_eq_some'.mp h with ⟨l', hw, hl'⟩
        rw [walkParents, hfind, hf]
        dsimp only
        rw [ih q l' hw ?_]
        · rw [← hl']; rfl
        · intro y hy
          refine hl y ?_
          rw [← hl']
          exact List.mem_cons_of_mem x hy

theorem walk_avoids (t : Tree) (nodes rem : List Point)
    (hkeys : ∀ p, (treeFind t p).isSome ↔ p ∈ nodes)
    (hclosed : ∀ node ∈ nodes, ∀ par, (treeFind t node).join = some par →
      par ∈ rem → node ∈ rem) :
    ∀ (fuel : ℕ) (x : Point) (l : List Point), walkParents t fuel x = some l →
      x ∉ rem → ∀ y ∈ l, y ∉ rem := by
  intro fuel
  induction fuel with
  | zero => intro x l h; cases h
  | succ n ih =>
    intro x l h hx y hy
    rw [walkParents] at h
    rcases hf : treeFind t x with _ | op
    · rw [hf] at h; cases h
    · rcases op with _ | q
      · rw [hf] at h
        simp only [Option.some.injEq] at h
        rw [← h] at hy
        have : y = x := by simpa using hy
        rw [this]; exact hx
      · rw [hf] at h
        rcases Option.map_eq_some'.mp h with ⟨l', hw, hl'⟩
        have hxn : x ∈ nodes := (hkeys x).mp (by rw [hf]; rfl)
        have hq : q ∉ rem := by
          intro hc
          exact hx (hclosed x hxn q ((join_eq_some _ q).mpr hf) hc)
        rw [← hl'] at hy
        rcases List.mem_cons.mp hy with rfl | hy'
        · exact hx
        · exact ih q l' hw hq y hy'

theorem tracesToRootB_reaches (t : Tree) (root p : Point)
    (h : tracesToRootB t root p = true) : ReachesRoot t root p := by
  rw [tracesToRootB] at h
  rcases hw : walkParents t (t.length + 1) p with _ | l
  · rw [hw] at h; cases h
  · rw [hw] at h
    exact ⟨t.length + 1, l, hw, of_decide_eq_true h⟩

theorem rootedTreeB_traces (t : Tree) (root : Point) (h : rootedTreeB t root = true)
    (p : Point) (hp : (treeFind t p).isSome) : ReachesRoot t root p := by
  have hmem : p ∈ t.map Prod.fst := treeFind_isSome_mem t p hp
  rcases List.mem_map.mp hmem with ⟨e, he, hep⟩
  rw [rootedTreeB, List.all_eq_true] at h
  have := h e he
  rw [hep] at this
  exact tracesToRootB_reaches t root p (by simpa using this)

/-- C4: a prune cycle of dynamic_rrt.py, run on a well-formed planner state
(keys match the node list, no duplicates, rooted at `start`), removes every
out-of-bounds / occupied / invalid-parent-edge node, removes with them every
node transitively descending from a removed node (fixed-point sweep), removes
nothing else, and leaves every retained node tracing to the root through
parent links still present in the pruned tree. -/
theorem c4_prune_removes_descendants (g : Grid) (t : Tree) (nodes : List Point)
    (lines : List (Point × Point)) (start : Point)
    (hkeys : ∀ p, (treeFind t p).isSome ↔ p ∈ nodes)
    (hnodup : nodes.Nodup)
    (hroot : rootedTreeB t start = true) :
    (∀ p ∈ nodes, nodeInvalid g t p = true →
        p ∈ (prune_invalid_nodes g t nodes lines).1) ∧
    (∀ p ∈ nodes, ∀ q, treeFind t p = some (some q) →
        q ∈ (prune_invalid_nodes g t nodes lines).1 →
        p ∈ (prune_invalid_nodes g t nodes lines).1) ∧
    (∀ p ∈ (prune_invalid_nodes g t nodes lines).1, p ∈ nodes ∧ Doomed g t p) ∧
    (∀ p ∈ (prune_invalid_nodes g t nodes lines).2.2.1,
        ReachesRoot (prune_invalid_nodes g t nodes lines).2.1 start p) := by
  have hinv_nodup : ((nodes.filter (fun node => nodeInvalid g t node)).dedup).Nodup :=
    List.nodup_dedup _
  have hinv_sub : ∀ x ∈ (nodes.filter (fun node => nodeInvalid g t node)).dedup,
      x ∈ nodes := by
    intro x hx
    exact List.mem_of_mem_filter (List.mem_dedup.mp hx)
  have hinv_doomed : ∀ x ∈ (nodes.filter (fun node => nodeInvalid g t node)).dedup,
      Doomed g t x := by
    intro x hx
    exact Doomed.invalid x (List.of_mem_filter (List.mem_dedup.mp hx))
  have hrem : (prune_invalid_nodes g t nodes lines).1 =
      sweepRec t nodes (nodes.length + 1)
        ((nodes.filter (fun node => nodeInvalid g t node)).dedup) := rfl
  have hfix : sweepPass t nodes (prune_invalid_nodes g t nodes lines).1 =
      (prune_invalid_nodes g t nodes lines).1 := by
    rw [hrem]
    exact sweepRec_fix t nodes (nodes.length + 1) _ hinv_nodup hinv_sub (by omega)
  have hclosed : ∀ node ∈ nodes, ∀ par, (treeFind t node).join = some par →
      par ∈ (prune_invalid_nodes g t nodes lines).1 →
      node ∈ (prune_invalid_nodes g t nodes lines).1 := by
    intro node hn par hj hp
    have := sweepPass_closed t nodes (prune_invalid_nodes g t nodes lines).1 node par hn hj hp
    rw [hfix] at this
    exact this
  refine ⟨?_, ?_, ?_, ?_⟩
  · intro p hp hinv
    rw [hrem]
    refine sweepRec_mono t nodes _ _ p ?_
    exact List.mem_dedup.mpr (List.mem_filter.mpr ⟨hp, hinv⟩)
  · intro p hp q hq hqrem
    exact hclosed p hp q ((join_eq_some _ q).mpr hq) hqrem
  · intro p hp
    rw [hrem] at hp
    constructor
    · rcases sweepRec_sub t nodes _ _ p hp with h | h
      · exact hinv_sub p h
      · exact h
    · exact sweepRec_doomed g t nodes _ _ hinv_doomed p hp
  · intro p hp
    have hnodes2 : (prune_invalid_nodes g t nodes lines).2.2.1 =
        (prune_invalid_nodes g t nodes lines).1.foldl (fun ns x => ns.erase x) nodes := by
      rw [prune_invalid_nodes]
      exact pruneRemove_nodes _ _ _ _
    have htree2 : (prune_invalid_nodes g t nodes lines).2.1 =
        (prune_invalid_nodes g t nodes lines).1.foldl treeErase t := by
      rw [prune_invalid_nodes]
      exact pruneRemove_tree _ _ _ _
    rw [hnodes2] at hp
    have hpmem : p ∈ nodes := by
      have : ∀ (rs : List Point) (ns : List Point) (x : Point),
          x ∈ rs.foldl (fun l a => l.erase a) ns → x ∈ ns := by
        intro rs
        induction rs with
        | nil => intro ns x hx; exact hx
        | cons r rest ih =>
          intro ns x hx
          rw [List.foldl_cons] at hx
          exact (ns.erase_sublist r).mem (ih _ x hx)
      exact this _ nodes p hp
    have hpnot : p ∉ (prune_invalid_nodes g t nodes lines).1 := by
      intro hc
      have : ∀ (rs : List Point) (ns : List Point) (x : Point), ns.Nodup → x ∈ rs →
          x ∉ rs.foldl (fun l a => l.erase a) ns := by
        intro rs
        induction rs with
        | nil => intro ns x _ hx; cases hx
        | cons r rest ih =>
          intro ns x hns hx hmem
          rw [List.foldl_cons] at hmem
          rcases List.mem_cons.mp hx with rfl | hx'
          · -- x = r was erased first; erasure is permanent under Nodup
            have hner : x ∉ ns.erase x := fun hc2 => by
              have := List.Nodup.not_mem_erase hns (a := x)
              exact this hc2
            have : ∀ (rs2 : List Point) (ns2 : List Point) (y : Point), y ∉ ns2 →
                y ∉ rs2.foldl (fun l a => l.erase a) ns2 := by
              intro rs2
              induction rs2 with
              | nil => intro ns2 y hy; exact hy
              | cons r2 rest2 ih2 =>
                intro ns2 y hy
                rw [List.foldl_cons]
                exact ih2 _ y (fun hc3 => hy ((ns2.erase_sublist r2).mem hc3))
            exact this rest (ns.erase x) x hner hmem
          · exact ih (ns.erase r) x (hns.erase r) hx' hmem
      exact this _ nodes p hnodup hc hp
    have hreach : ReachesRoot t start p :=
      rootedTreeB_traces t start hroot p ((hkeys p).mpr hpmem)
    rcases hreach with ⟨fuel, l, hw, hl⟩
    have havoid : ∀ y ∈ l, y ∉ (prune_invalid_nodes g t nodes lines).1 :=
      walk_avoids t nodes _ hkeys hclosed fuel p l hw hpnot
    rw [htree2]
    exact ⟨fuel, l, walk_transfer t _ fuel p l hw havoid, hl⟩

theorem c4_prune_removes_descendants_witness :
    (∀ p, (treeFind c4tree p).isSome ↔ p ∈ c4nodes) ∧ c4nodes.Nodup ∧
    rootedTreeB c4tree (0, 0) = true ∧
    ((1, 0) ∈ (prune_invalid_nodes c4grid c4tree c4nodes []).1 ∧
      ∀ p ∈ (prune_invalid_nodes c4grid c4tree c4nodes []).2.2.1,
        ReachesRoot (prune_invalid_nodes c4grid c4tree c4nodes []).2.1 (0, 0) p) := by
  have hkeys : ∀ p, (treeFind c4tree p).isSome ↔ p ∈ c4nodes := by
    intro p
    constructor
    · intro h
      have hm := treeFind_isSome_mem c4tree p h
      simp only [c4tree, List.map_cons, List.map_nil] at hm
      rcases List.mem_cons.mp hm with rfl | hm
      · decide
      rcases List.mem_cons.mp hm with rfl | hm
      · decide
      rcases List.mem_cons.mp hm with rfl | hm
      · decide
      · cases hm
    · intro h
      simp only [c4nodes] at h
      rcases List.mem_cons.mp h with rfl | h
      · decide
      rcases List.mem_cons.mp h with rfl | h
      · decide
      rcases List.mem_cons.mp h with rfl | h
      · decide
      · cases h
  have hmain := c4_prune_removes_descendants c4grid c4tree c4nodes [] (0, 0)
    hkeys (by decide) (by decide)
  refine ⟨hkeys, by decide, by decide, ?_, hmain.2.2.2⟩
  exact hmain.1 (1, 0) (by decide) (by decide)

/-! ### C10: the animation flag and hook are a pure side channel -/

theorem rrtStep_noframes (g : Grid) (goal : Point) (ss : ℤ) (tol : ℚ) (a₁ a₂ : Bool)
    (t : Tree) (n : List Point) (l : List (Point × Point)) (f₁ f₂ : Frames) (samp : Samp) :
    (rrtStep g goal ss tol a₁ ⟨t, n, l, f₁⟩ samp).1.tree =
      (rrtStep g goal ss tol a₂ ⟨t, n, l, f₂⟩ samp).1.tree ∧
    (rrtStep g goal ss tol a₁ ⟨t, n, l, f₁⟩ samp).1.nodes =
      (rrtStep g goal ss tol a₂ ⟨t, n, l, f₂⟩ samp).1.nodes ∧
    (rrtStep g goal ss tol a₁ ⟨t, n, l, f₁⟩ samp).1.lines =
      (rrtStep g goal ss tol a₂ ⟨t, n, l, f₂⟩ samp).1.lines ∧
    (rrtStep g goal ss tol a₁ ⟨t, n, l, f₁⟩ samp).2 =
      (rrtStep g goal ss tol a₂ ⟨t, n, l, f₂⟩ samp).2 := by
  rw [rrtStep.eq_def, rrtStep.eq_def]
  dsimp only
  cases hs : steer (argminNodes (sampPoint goal samp) n) (sampPoint goal samp) ss with
  | none => exact ⟨rfl, rfl, rfl, rfl⟩
  | some step =>
    dsimp only
    split_ifs <;> exact ⟨rfl, rfl, rfl, rfl⟩

theorem rrtLoop_noframes (g : Grid) (goal : Point) (ss : ℤ) (tol : ℚ) (a₁ a₂ : Bool)
    (stream : ℕ → Samp) : ∀ (fuel i : ℕ) (t : Tree) (n : List Point)
    (l : List (Point × Point)) (f₁ f₂ : Frames),
    (rrtLoop g goal ss tol a₁ stream fuel i ⟨t, n, l, f₁⟩).2 =
      (rrtLoop g goal ss tol a₂ stream fuel i ⟨t, n, l, f₂⟩).2 := by
  intro fuel
  induction fuel with
  | zero => intro i t n l f₁ f₂; rfl
  | succ m ih =>
    intro i t n l f₁ f₂
    rw [rrtLoop, rrtLoop]
    obtain ⟨h1, h2, h3, h4⟩ := rrtStep_noframes g goal ss tol a₁ a₂ t n l f₁ f₂ (stream i)
    rcases e₁ : rrtStep g goal ss tol a₁ ⟨t, n, l, f₁⟩ (stream i) with ⟨s₁, r₁⟩
    rcases e₂ : rrtStep g goal ss tol a₂ ⟨t, n, l, f₂⟩ (stream i) with ⟨s₂, r₂⟩
    rw [e₁, e₂] at h1 h2 h3 h4
    dsimp only at h1 h2 h3 h4
    obtain ⟨t₁, n₁, l₁, g₁⟩ := s₁
    obtain ⟨t₂, n₂, l₂, g₂⟩ := s₂
    dsimp only at h1 h2 h3
    subst h1; subst h2; subst h3; subst h4
    rcases r₁ with _ | (_ | path)
    · dsimp only
      exact ih (i + 1) t₁ n₁ l₁ g₁ g₂
    · rfl
    · rfl

theorem run_rrt_noframes (g : Grid) (start goal : Point) (maxIter : ℕ) (ss : ℤ)
    (tol : ℚ) (a₁ a₂ : Bool) (stream : ℕ → Samp) :
    stripF (run_rrt g start goal maxIter ss tol a₁ stream) =
      stripF (run_rrt g start goal maxIter ss tol a₂ stream) := by
  rw [run_rrt, run_rrt]
  have h := rrtLoop_noframes g goal ss tol a₁ a₂ stream maxIter 1 [(start, none)] [start] [] [] []
  rcases e₁ : rrtLoop g goal ss tol a₁ stream maxIter 1 ⟨[(start, none)], [start], [], []⟩
    with ⟨s₁, r₁⟩
  rcases e₂ : rrtLoop g goal ss tol a₂ stream maxIter 1 ⟨[(start, none)], [start], [], []⟩
    with ⟨s₂, r₂⟩
  rw [e₁, e₂] at h
  dsimp only at h
  subst h
  rcases r₁ with _ | (_ | ⟨path, i⟩) <;> rfl

theorem dynPrune_noframes (g : Grid) (rf i : ℕ) (t : Tree) (n : List Point)
    (l : List (Point × Point)) (f₁ f₂ : Frames) :
    (dynPrune g rf i ⟨t, n, l, f₁⟩).1 = (dynPrune g rf i ⟨t, n, l, f₂⟩).1 ∧
    (dynPrune g rf i ⟨t, n, l, f₁⟩).2.tree = (dynPrune g rf i ⟨t, n, l, f₂⟩).2.tree ∧
    (dynPrune g rf i ⟨t, n, l, f₁⟩).2.nodes = (dynPrune g rf i ⟨t, n, l, f₂⟩).2.nodes ∧
    (dynPrune g rf i ⟨t, n, l, f₁⟩).2.lines = (dynPrune g rf i ⟨t, n, l, f₂⟩).2.lines ∧
    (dynPrune g rf i ⟨t, n, l, f₁⟩).2.frames = f₁ ∧
    (dynPrune g rf i ⟨t, n, l, f₂⟩).2.frames = f₂ := by
  rw [dynPrune, dynPrune]
  split_ifs <;> exact ⟨rfl, rfl, rfl, rfl, rfl, rfl⟩

theorem dynamicStep_noframes (g : Grid) (goal : Point) (ss : ℤ) (tol : ℚ) (a₁ a₂ : Bool)
    (t : Tree) (n : List Point) (l : List (Point × Point)) (f₁ f₂ : Frames) (samp : Samp) :
    (dynamicStep g goal ss tol a₁ ⟨t, n, l, f₁⟩ samp).1.tree =
      (dynamicStep g goal ss tol a₂ ⟨t, n, l, f₂⟩ samp).1.tree ∧
    (dynamicStep g goal ss tol a₁ ⟨t, n, l, f₁⟩ samp).1.nodes =
      (dynamicStep g goal ss tol a₂ ⟨t, n, l, f₂⟩ samp).1.nodes ∧
    (dynamicStep g goal ss tol a₁ ⟨t, n, l, f₁⟩ samp).1.lines =
      (dynamicStep g goal ss tol a₂ ⟨t, n, l, f₂⟩ samp).1.lines ∧
    (dynamicStep g goal ss tol a₁ ⟨t, n, l, f₁⟩ samp).2 =
      (dynamicStep g goal ss tol a₂ ⟨t, n, l, f₂⟩ samp).2 := by
  rw [dynamicStep.eq_def, dynamicStep.eq_def]
  dsimp only
  cases hs : steer (argminNodes (sampPoint goal samp) n) (sampPoint goal samp) ss with
  | none => exact ⟨rfl, rfl, rfl, rfl⟩
  | some step =>
    dsimp only
    split_ifs <;> exact ⟨rfl, rfl, rfl, rfl⟩

theorem dynamicLoop_noframes (g : Grid) (start goal : Point) (ss : ℤ) (tol : ℚ)
    (rf : ℕ) (a₁ a₂ : Bool) (stream : ℕ → Samp) : ∀ (fuel i : ℕ) (t : Tree)
    (n : List Point) (l : List (Point × Point)) (f₁ f₂ : Frames),
    (dynamicLoop g start goal ss tol rf a₁ stream fuel i ⟨t, n, l, f₁⟩).2 =
      (dynamicLoop g start goal ss tol rf a₂ stream fuel i ⟨t, n, l, f₂⟩).2 := by
  intro fuel
  induction fuel with
  | zero => intro i t n l f₁ f₂; rfl
  | succ m ih =>
    intro i t n l f₁ f₂
    rw [dynamicLoop, dynamicLoop]
    rcases ep₁ : dynPrune g rf i ⟨t, n, l, f₁⟩ with ⟨rem₁, q₁⟩
    rcases ep₂ : dynPrune g rf i ⟨t, n, l, f₂⟩ with ⟨rem₂, q₂⟩
    obtain ⟨hp1, hp2, hp3, hp4, hp5, hp6⟩ := dynPrune_noframes g rf i t n l f₁ f₂
    rw [ep₁] at hp1 hp2 hp3 hp4 hp5
    rw [ep₂] at hp1 hp2 hp3 hp4 hp6
    dsimp only at hp1 hp2 hp3 hp4 hp5 hp6
    obtain ⟨tq₁, nq₁, lq₁, fq₁⟩ := q₁
    obtain ⟨tq₂, nq₂, lq₂, fq₂⟩ := q₂
    dsimp only at hp2 hp3 hp4 hp5 hp6
    subst hp1; subst hp2; subst hp3; subst hp4; subst hp5; subst hp6
    dsimp only
    by_cases hs : start ∈ rem₁
    · rw [if_pos hs, if_pos hs]
    · rw [if_neg hs, if_neg hs]
      by_cases hn : nq₁ = []
      · rw [if_pos hn, if_pos hn]
      · rw [if_neg hn, if_neg hn]
        rcases e₁ : dynamicStep g goal ss tol a₁ ⟨tq₁, nq₁, lq₁, fq₁⟩ (stream i) with ⟨s₁, r₁⟩
        rcases e₂ : dynamicStep g goal ss tol a₂ ⟨tq₁, nq₁, lq₁, fq₂⟩ (stream i) with ⟨s₂, r₂⟩
        obtain ⟨h1, h2, h3, h4⟩ :=
          dynamicStep_noframes g goal ss tol a₁ a₂ tq₁ nq₁ lq₁ fq₁ fq₂ (stream i)
        rw [e₁] at h1 h2 h3 h4
        rw [e₂] at h1 h2 h3 h4
        dsimp only at h1 h2 h3 h4
        obtain ⟨t₁, n₁, l₁, g₁⟩ := s₁
        obtain ⟨t₂, n₂, l₂, g₂⟩ := s₂
        dsimp only at h1 h2 h3
        subst h1; subst h2; subst h3; subst h4
        rcases r₁ with _ | (_ | path)
        · dsimp only
          exact ih (i + 1) t₁ n₁ l₁ g₁ g₂
        · rfl
        · rfl

theorem run_dynamic_rrt_noframes (g : Grid) (start goal : Point) (maxIter : ℕ) (ss : ℤ)
    (tol : ℚ) (rf : ℕ) (a₁ a₂ : Bool) (stream : ℕ → Samp) :
    stripF (run_dynamic_rrt g start goal maxIter ss tol rf a₁ stream) =
      stripF (run_dynamic_rrt g start goal maxIter ss tol rf a₂ stream) := by
  rw [run_dynamic_rrt, run_dynamic_rrt]
  have h := dynamicLoop_noframes g start goal ss tol rf a₁ a₂ stream maxIter 1
    [(start, none)] [start] [] [] []
  rcases e₁ : dynamicLoop g start goal ss tol rf a₁ stream maxIter 1
    ⟨[(start, none)], [start], [], []⟩ with ⟨s₁, r₁⟩
  rcases e₂ : dynamicLoop g start goal ss tol rf a₂ stream maxIter 1
    ⟨[(start, none)], [start], [], []⟩ with ⟨s₂, r₂⟩
  rw [e₁, e₂] at h
  dsimp only at h
  subst h
  rcases r₁ with ⟨path, i⟩ | _ | _ | _ <;> rfl

theorem connectAttempts_noframes (g : Grid) (ss : ℤ) (tol : ℚ) (a₁ a₂ : Bool)
    (newNode : Point) : ∀ (fuel : ℕ) (t : Tree) (nodes : List Point)
    (lines : List (Point × Point)) (f₁ f₂ : Frames),
    (connectAttempts g ss tol a₁ newNode fuel t nodes lines f₁).1 =
      (connectAttempts g ss tol a₂ newNode fuel t nodes lines f₂).1 ∧
    (connectAttempts g ss tol a₁ newNode fuel t nodes lines f₁).2.1 =
      (connectAttempts g ss tol a₂ newNode fuel t nodes lines f₂).2.1 ∧
    (connectAttempts g ss tol a₁ newNode fuel t nodes lines f₁).2.2.1 =
      (connectAttempts g ss tol a₂ newNode fuel t nodes lines f₂).2.2.1 ∧
    (connectAttempts g ss tol a₁ newNode fuel t nodes lines f₁).2.2.2.1 =
      (connectAttempts g ss tol a₂ newNode fuel t nodes lines f₂).2.2.2.1 := by
  intro fuel
  induction fuel with
  | zero => intro t nodes lines f₁ f₂; exact ⟨rfl, rfl, rfl, rfl⟩
  | succ m ih =>
    intro t nodes lines f₁ f₂
    rw [connectAttempts, connectAttempts]
    rcases he : extend_tree g t nodes newNode ss lines with ⟨o, t', n', l'⟩
    rcases o with _ | c
    · exact ⟨rfl, rfl, rfl, rfl⟩
    · dsimp only
      by_cases hd : distLeQ (squaredDist c newNode) tol = true
      · rw [if_pos hd, if_pos hd]
        exact ⟨rfl, rfl, rfl, rfl⟩
      · rw [if_neg hd, if_neg hd]
        exact ih t' n' l' _ _

theorem connectLoop_noframes (g : Grid) (ss : ℤ) (tol : ℚ) (a₁ a₂ : Bool)
    (stream : ℕ → Point) : ∀ (fuel i : ℕ) (tA : Tree) (nA : List Point) (tB : Tree)
    (nB : List Point) (lines : List (Point × Point)) (f₁ f₂ : Frames),
    (connectLoop g ss tol a₁ stream fuel i ⟨tA, nA, tB, nB, lines, f₁⟩).2 =
      (connectLoop g ss tol a₂ stream fuel i ⟨tA, nA, tB, nB, lines, f₂⟩).2 := by
  intro fuel
  induction fuel with
  | zero => intro i tA nA tB nB lines f₁ f₂; rfl
  | succ m ih =>
    intro i tA nA tB nB lines f₁ f₂
    rw [connectLoop, connectLoop]
    dsimp only
    rcases he : extend_tree g tA nA (stream i) ss lines with ⟨o, tA', nA', lA'⟩
    rcases o with _ | newNode
    · dsimp only
      exact ih (i + 1) tB nB tA nA lA' f₁ f₂
    · dsimp only
      rcases e₁ : connectAttempts g ss tol a₁ newNode 5 tB nB lA'
        (pushFrame a₁ f₁ lA') with ⟨o₁, tB₁, nB₁, lines₁, fr₁⟩
      rcases e₂ : connectAttempts g ss tol a₂ newNode 5 tB nB lA'
        (pushFrame a₂ f₂ lA') with ⟨o₂, tB₂, nB₂, lines₂, fr₂⟩
      obtain ⟨h1, h2, h3, h4⟩ := connectAttempts_noframes g ss tol a₁ a₂ newNode 5 tB nB lA'
        (pushFrame a₁ f₁ lA') (pushFrame a₂ f₂ lA')
      rw [e₁] at h1 h2 h3 h4
      rw [e₂] at h1 h2 h3 h4
      dsimp only at h1 h2 h3 h4
      subst h1; subst h2; subst h3; subst h4
      rcases o₁ with _ | c
      · dsimp only
        exact ih (i + 1) tB₁ nB₁ tA' nA' lines₁ fr₁ fr₂
      · rfl

theorem run_rrt_connect_noframes (g : Grid) (start goal : Point) (maxIter : ℕ) (ss : ℤ)
    (tol : ℚ) (a₁ a₂ : Bool) (stream : ℕ → Point) :
    stripF (run_rrt_connect g start goal maxIter ss tol a₁ stream) =
      stripF (run_rrt_connect g start goal maxIter ss tol a₂ stream) := by
  rw [run_rrt_connect, run_rrt_connect]
  rcases e₁ : connectLoop g ss tol a₁ stream maxIter 0
    ⟨[(start, none)], [start], [(goal, none)], [goal], [], []⟩ with ⟨s₁, r₁⟩
  rcases e₂ : connectLoop g ss tol a₂ stream maxIter 0
    ⟨[(start, none)], [start], [(goal, none)], [goal], [], []⟩ with ⟨s₂, r₂⟩
  have h := connectLoop_noframes g ss tol a₁ a₂ stream maxIter 0
    [(start, none)] [start] [(goal, none)] [goal] [] [] []
  rw [e₁] at h
  rw [e₂] at h
  dsimp only at h
  subst h
  rcases r₁ with _ | (_ | path) <;> rfl

theorem rrtStarStep_noframes (g : Grid) (goal : Point) (ss : ℤ) (tol : ℚ) (rr : ℝ)
    (a₁ a₂ : Bool) (t : Tree) (c : List (Point × ℝ)) (n : List Point)
    (l : List (Point × Point)) (f₁ f₂ : Frames) (samp : Samp) :
    (rrtStarStep g goal ss tol rr a₁ ⟨t, c, n, l, f₁⟩ samp).1.tree =
      (rrtStarStep g goal ss tol rr a₂ ⟨t, c, n, l, f₂⟩ samp).1.tree ∧
    (rrtStarStep g goal ss tol rr a₁ ⟨t, c, n, l, f₁⟩ samp).1.costs =
      (rrtStarStep g goal ss tol rr a₂ ⟨t, c, n, l, f₂⟩ samp).1.costs ∧
    (rrtStarStep g goal ss tol rr a₁ ⟨t, c, n, l, f₁⟩ samp).1.nodes =
      (rrtStarStep g goal ss tol rr a₂ ⟨t, c, n, l, f₂⟩ samp).1.nodes ∧
    (rrtStarStep g goal ss tol rr a₁ ⟨t, c, n, l, f₁⟩ samp).1.lines =
      (rrtStarStep g goal ss tol rr a₂ ⟨t, c, n, l, f₂⟩ samp).1.lines ∧
    (rrtStarStep g goal ss tol rr a₁ ⟨t, c, n, l, f₁⟩ samp).2 =
      (rrtStarStep g goal ss tol rr a₂ ⟨t, c, n, l, f₂⟩ samp).2 := by
  rw [rrtStarStep.eq_def, rrtStarStep.eq_def]
  dsimp only
  cases hs : steer (argminNodes (sampPoint goal samp) n) (sampPoint goal samp) ss with
  | none => exact ⟨rfl, rfl, rfl, rfl, rfl⟩
  | some step =>
    dsimp only
    split_ifs <;> exact ⟨rfl, rfl, rfl, rfl, rfl⟩

theorem rrtStarLoop_noframes (g : Grid) (goal : Point) (ss : ℤ) (tol : ℚ) (rr : ℝ)
    (a₁ a₂ : Bool) (stream : ℕ → Samp) : ∀ (fuel i : ℕ) (t : Tree)
    (c : List (Point × ℝ)) (n : List Point) (l : List (Point × Point)) (f₁ f₂ : Frames),
    (rrtStarLoop g goal ss tol rr a₁ stream fuel i ⟨t, c, n, l, f₁⟩).2 =
      (rrtStarLoop g goal ss tol rr a₂ stream fuel i ⟨t, c, n, l, f₂⟩).2 := by
  intro fuel
  induction fuel with
  | zero => intro i t c n l f₁ f₂; rfl
  | succ m ih =>
    intro i t c n l f₁ f₂
    rw [rrtStarLoop, rrtStarLoop]
    rcases e₁ : rrtStarStep g goal ss tol rr a₁ ⟨t, c, n, l, f₁⟩ (stream i) with ⟨s₁, r₁⟩
    rcases e₂ : rrtStarStep g goal ss tol rr a₂ ⟨t, c, n, l, f₂⟩ (stream i) with ⟨s₂, r₂⟩
    obtain ⟨h1, h2, h3, h4, h5⟩ := rrtStarStep_noframes g goal ss tol rr a₁ a₂ t c n l f₁ f₂
      (stream i)
    rw [e₁] at h1 h2 h3 h4 h5
    rw [e₂] at h1 h2 h3 h4 h5
    dsimp only at h1 h2 h3 h4 h5
    obtain ⟨t₁, c₁, n₁, l₁, g₁⟩ := s₁
    obtain ⟨t₂, c₂, n₂, l₂, g₂⟩ := s₂
    dsimp only at h1 h2 h3 h4
    subst h1; subst h2; subst h3; subst h4; subst h5
    rcases r₁ with _ | (_ | path)
    · dsimp only
      exact ih (i + 1) t₁ c₁ n₁ l₁ g₁ g₂
    · rfl
    · rfl

theorem run_rrt_star_noframes (g : Grid) (start goal : Point) (maxIter : ℕ) (ss : ℤ)
    (tol : ℚ) (rr : ℝ) (a₁ a₂ : Bool) (stream : ℕ → Samp) :
    stripF (run_rrt_star g start goal maxIter ss tol rr a₁ stream) =
      stripF (run_rrt_star g start goal maxIter ss tol rr a₂ stream) := by
  rw [run_rrt_star, run_rrt_star]
  rcases e₁ : rrtStarLoop g goal ss tol rr a₁ stream maxIter 1
    ⟨[(start, none)], [(start, 0)], [start], [], []⟩ with ⟨s₁, r₁⟩
  rcases e₂ : rrtStarLoop g goal ss tol rr a₂ stream maxIter 1
    ⟨[(start, none)], [(start, 0)], [start], [], []⟩ with ⟨s₂, r₂⟩
  have h := rrtStarLoop_noframes g goal ss tol rr a₁ a₂ stream maxIter 1
    [(start, none)] [(start, 0)] [start] [] [] []
  rw [e₁] at h
  rw [e₂] at h
  dsimp only at h
  subst h
  rcases r₁ with _ | (_ | ⟨path, i⟩) <;> rfl

theorem informedStep_noframes (g : Grid) (start goal : Point) (ss : ℤ) (tol : ℚ)
    (rr cMin : ℝ) (a₁ a₂ : Bool) (t : Tree) (c : List (Point × WithTop ℝ))
    (n : List Point) (l : List (Point × Point)) (f₁ f₂ : Frames) (cb : WithTop ℝ)
    (sf : Bool) (d : InfDraw) :
    (informedStep g start goal ss tol rr cMin a₁ ⟨t, c, n, l, f₁, cb, sf⟩ d).tree =
      (informedStep g start goal ss tol rr cMin a₂ ⟨t, c, n, l, f₂, cb, sf⟩ d).tree ∧
    (informedStep g start goal ss tol rr cMin a₁ ⟨t, c, n, l, f₁, cb, sf⟩ d).costs =
      (informedStep g start goal ss tol rr cMin a₂ ⟨t, c, n, l, f₂, cb, sf⟩ d).costs ∧
    (informedStep g start goal ss tol rr cMin a₁ ⟨t, c, n, l, f₁, cb, sf⟩ d).nodes =
      (informedStep g start goal ss tol rr cMin a₂ ⟨t, c, n, l, f₂, cb, sf⟩ d).nodes ∧
    (informedStep g start goal ss tol rr cMin a₁ ⟨t, c, n, l, f₁, cb, sf⟩ d).lines =
      (informedStep g start goal ss tol rr cMin a₂ ⟨t, c, n, l, f₂, cb, sf⟩ d).lines ∧
    (informedStep g start goal ss tol rr cMin a₁ ⟨t, c, n, l, f₁, cb, sf⟩ d).cBest =
      (informedStep g start goal ss tol rr cMin a₂ ⟨t, c, n, l, f₂, cb, sf⟩ d).cBest ∧
    (informedStep g start goal ss tol rr cMin a₁ ⟨t, c, n, l, f₁, cb, sf⟩ d).solutionFound =
      (informedStep g start goal ss tol rr cMin a₂ ⟨t, c, n, l, f₂, cb, sf⟩ d).solutionFound := by
  rw [informedStep.eq_def, informedStep.eq_def]
  dsimp only
  set rp := if sf = true then sample_ellipse start goal cb cMin (gridSize g) d.u d.a
    else sampPoint goal d.samp with hrp
  split_ifs with hb
  · exact ⟨rfl, rfl, rfl, rfl, rfl, rfl⟩
  · cases hs : steer (argminNodes rp n) rp ss with
    | none => exact ⟨rfl, rfl, rfl, rfl, rfl, rfl⟩
    | some step =>
      dsimp only
      split_ifs <;> exact ⟨rfl, rfl, rfl, rfl, rfl, rfl⟩

theorem informedLoop_noframes (g : Grid) (start goal : Point) (ss : ℤ) (tol : ℚ)
    (rr cMin : ℝ) (a₁ a₂ : Bool) (stream : ℕ → InfDraw) : ∀ (fuel i : ℕ) (t : Tree)
    (c : List (Point × WithTop ℝ)) (n : List Point) (l : List (Point × Point))
    (f₁ f₂ : Frames) (cb : WithTop ℝ) (sf : Bool),
    (informedLoop g start goal ss tol rr cMin a₁ stream fuel i ⟨t, c, n, l, f₁, cb, sf⟩).tree =
      (informedLoop g start goal ss tol rr cMin a₂ stream fuel i ⟨t, c, n, l, f₂, cb, sf⟩).tree ∧
    (informedLoop g start goal ss tol rr cMin a₁ stream fuel i ⟨t, c, n, l, f₁, cb, sf⟩).solutionFound =
      (informedLoop g start goal ss tol rr cMin a₂ stream fuel i ⟨t, c, n, l, f₂, cb, sf⟩).solutionFound := by
  intro fuel
  induction fuel with
  | zero => intro i t c n l f₁ f₂ cb sf; exact ⟨rfl, rfl⟩
  | succ m ih =>
    intro i t c n l f₁ f₂ cb sf
    rw [informedLoop, informedLoop]
    rcases e₁ : informedStep g start goal ss tol rr cMin a₁ ⟨t, c, n, l, f₁, cb, sf⟩ (stream i)
      with ⟨t₁, c₁, n₁, l₁, g₁, cb₁, sf₁⟩
    rcases e₂ : informedStep g start goal ss tol rr cMin a₂ ⟨t, c, n, l, f₂, cb, sf⟩ (stream i)
      with ⟨t₂, c₂, n₂, l₂, g₂, cb₂, sf₂⟩
    obtain ⟨h1, h2, h3, h4, h5, h6⟩ := informedStep_noframes g start goal ss tol rr cMin a₁ a₂
      t c n l f₁ f₂ cb sf (stream i)
    rw [e₁] at h1 h2 h3 h4 h5 h6
    rw [e₂] at h1 h2 h3 h4 h5 h6
    dsimp only at h1 h2 h3 h4 h5 h6
    subst h1; subst h2; subst h3; subst h4; subst h5; subst h6
    exact ih (i + 1) t₁ c₁ n₁ l₁ g₁ g₂ cb₁ sf₁

theorem run_informed_noframes (g : Grid) (start goal : Point) (maxIter : ℕ) (ss : ℤ)
    (tol : ℚ) (rr : ℝ) (a₁ a₂ : Bool) (stream : ℕ → InfDraw) :
    stripF (run_informed g start goal maxIter ss tol rr a₁ stream) =
      stripF (run_informed g start goal maxIter ss tol rr a₂ stream) := by
  rw [run_informed, run_informed]
  obtain ⟨h1, h2⟩ := informedLoop_noframes g start goal ss tol rr (distR start goal) a₁ a₂
    stream maxIter 1 [(start, none)] [(start, ((0 : ℝ) : WithTop ℝ))] [start] [] [] [] ⊤ false
  rw [h1, h2]
  split_ifs with hsf
  · rcases hw : walkParents
      (informedLoop g start goal ss tol rr (distR start goal) a₂ stream maxIter 1
        ⟨[(start, none)], [(start, ((0 : ℝ) : WithTop ℝ))], [start], [], [], ⊤, false⟩).tree
      ((informedLoop g start goal ss tol rr (distR start goal) a₂ stream maxIter 1
        ⟨[(start, none)], [(start, ((0 : ℝ) : WithTop ℝ))], [start], [], [], ⊤, false⟩).tree.length + 1)
      goal with _ | pathRev <;> rfl
  · rfl

theorem foldl_gl_indep {α β γ δ : Type} (f₁ f₂ : α × β × γ → δ → α × β × γ)
    (hstep : ∀ st₁ st₂ x, st₁.1 = st₂.1 → st₁.2.1 = st₂.2.1 →
      (f₁ st₁ x).1 = (f₂ st₂ x).1 ∧ (f₁ st₁ x).2.1 = (f₂ st₂ x).2.1) :
    ∀ (l : List δ) (st₁ st₂ : α × β × γ), st₁.1 = st₂.1 → st₁.2.1 = st₂.2.1 →
      (l.foldl f₁ st₁).1 = (l.foldl f₂ st₂).1 ∧
      (l.foldl f₁ st₁).2.1 = (l.foldl f₂ st₂).2.1 := by
  intro l
  induction l with
  | nil => intro st₁ st₂ h1 h2; exact ⟨h1, h2⟩
  | cons x xs ih =>
    intro st₁ st₂ h1 h2
    rw [List.foldl_cons, List.foldl_cons]
    obtain ⟨g1, g2⟩ := hstep st₁ st₂ x h1 h2
    exact ih _ _ g1 g2

theorem prmConnect_noframes (g : Grid) (a₁ a₂ : Bool) (nodes : List Point) (radius : ℚ)
    (maxNbrs : ℕ) :
    (prmConnect g a₁ nodes radius maxNbrs).1 = (prmConnect g a₂ nodes radius maxNbrs).1 ∧
    (prmConnect g a₁ nodes radius maxNbrs).2.1 = (prmConnect g a₂ nodes radius maxNbrs).2.1 := by
  rw [prmConnect, prmConnect]
  refine foldl_gl_indep _ _ ?_ nodes.enum ([], [], []) ([], [], []) rfl rfl
  intro st₁ st₂ ip h1 h2
  dsimp only
  refine foldl_gl_indep _ _ ?_ _ st₁ st₂ h1 h2
  intro st₁' st₂' dn h1' h2'
  dsimp only
  split_ifs
  · exact ⟨h1', h2'⟩
  · rw [h1', h2']
    exact ⟨rfl, rfl⟩

theorem lazyConnect_noframes (a₁ a₂ : Bool) (nodes : List Point) (radius : ℚ)
    (maxNbrs : ℕ) :
    (lazyConnect a₁ nodes radius maxNbrs).1 = (lazyConnect a₂ nodes radius maxNbrs).1 ∧
    (lazyConnect a₁ nodes radius maxNbrs).2.1 = (lazyConnect a₂ nodes radius maxNbrs).2.1 := by
  rw [lazyConnect, lazyConnect]
  refine foldl_gl_indep _ _ ?_ nodes.enum ([], [], []) ([], [], []) rfl rfl
  intro st₁ st₂ ip h1 h2
  dsimp only
  refine foldl_gl_indep _ _ ?_ _ st₁ st₂ h1 h2
  intro st₁' st₂' dn h1' h2'
  dsimp only
  rw [h1', h2']
  exact ⟨rfl, rfl⟩

theorem prmStarConnect_noframes (g : Grid) (a₁ a₂ : Bool) (nodes : List Point)
    (radius : ℝ) :
    (prmStarConnect g a₁ nodes radius).1 = (prmStarConnect g a₂ nodes radius).1 ∧
    (prmStarConnect g a₁ nodes radius).2.1 = (prmStarConnect g a₂ nodes radius).2.1 := by
  rw [prmStarConnect, prmStarConnect]
  refine foldl_gl_indep _ _ ?_ nodes.enum ([], [], []) ([], [], []) rfl rfl
  intro st₁ st₂ ip h1 h2
  dsimp only
  refine foldl_gl_indep _ _ ?_ _ st₁ st₂ h1 h2
  intro st₁' st₂' jp h1' h2'
  obtain ⟨G₁, L₁, F₁⟩ := st₁'
  obtain ⟨G₂, L₂, F₂⟩ := st₂'
  dsimp only at h1' h2' ⊢
  subst h1'; subst h2'
  split_ifs <;> exact ⟨rfl, rfl⟩

theorem run_prm_noframes (g : Grid) (start goal : Point) (numSamples : ℕ) (radius : ℚ)
    (maxNbrs : ℕ) (a₁ a₂ : Bool) (stream : ℕ → Point) :
    stripF (run_prm g start goal numSamples radius maxNbrs a₁ stream) =
      stripF (run_prm g start goal numSamples radius maxNbrs a₂ stream) := by
  rw [run_prm, run_prm]
  obtain ⟨h1, _⟩ := prmConnect_noframes g a₁ a₂
    (sampleLoop g numSamples stream (numSamples * 3) [start, goal] 0).1 radius maxNbrs
  rw [h1]
  rcases hd : dijkstra
    (prmConnect g a₂ (sampleLoop g numSamples stream (numSamples * 3) [start, goal] 0).1
      radius maxNbrs).1 start goal with _ | (_ | path) <;> rfl

theorem run_prm_star_noframes (g : Grid) (start goal : Point) (numSamples : ℕ)
    (a₁ a₂ : Bool) (stream : ℕ → Point) :
    stripF (run_prm_star g start goal numSamples a₁ stream) =
      stripF (run_prm_star g start goal numSamples a₂ stream) := by
  rw [run_prm_star, run_prm_star]
  obtain ⟨h1, _⟩ := prmStarConnect_noframes g a₁ a₂
    (sampleLoop g numSamples stream (numSamples * 3) [start, goal] 0).1
    (prmStarRadius (gridSize g)
      (sampleLoop g numSamples stream (numSamples * 3) [start, goal] 0).1.length)
  rw [h1]
  rcases hd : dijkstra
    (prmStarConnect g a₂ (sampleLoop g numSamples stream (numSamples * 3) [start, goal] 0).1
      (prmStarRadius (gridSize g)
        (sampleLoop g numSamples stream (numSamples * 3) [start, goal] 0).1.length)).1
    start goal with _ | (_ | path) <;> rfl

theorem run_lazy_prm_noframes (g : Grid) (start goal : Point) (numSamples : ℕ) (radius : ℚ)
    (maxNbrs maxRetries : ℕ) (a₁ a₂ : Bool) (stream : ℕ → Point) :
    stripF (run_lazy_prm g start goal numSamples radius maxNbrs maxRetries a₁ stream) =
      stripF (run_lazy_prm g start goal numSamples radius maxNbrs maxRetries a₂ stream) := by
  rw [run_lazy_prm, run_lazy_prm]
  obtain ⟨h1, _⟩ := lazyConnect_noframes a₁ a₂
    (sampleLoop g numSamples stream (numSamples * 3) [start, goal] 0).1 radius maxNbrs
  rw [h1]
  rcases hd : lazyAttempts g
    (lazyConnect a₂ (sampleLoop g numSamples stream (numSamples * 3) [start, goal] 0).1
      radius maxNbrs).1 start goal maxRetries [] [] with _ | (_ | path) <;> rfl

/-- C10: for every planner, with the grid, start, goal, configuration and the
random stream fixed, the returned path and iteration/sample count are the same
whatever the animation flag (and hence whether the visualization hook fires):
the hook-invocation log is a pure side channel that the planner state never
reads back. -/
theorem c10_animation_pure_side_channel :
    (∀ g start goal maxIter ss tol a₁ a₂ stream,
      stripF (run_rrt g start goal maxIter ss tol a₁ stream) =
        stripF (run_rrt g start goal maxIter ss tol a₂ stream)) ∧
    (∀ g start goal maxIter ss tol rf a₁ a₂ stream,
      stripF (run_dynamic_rrt g start goal maxIter ss tol rf a₁ stream) =
        stripF (run_dynamic_rrt g start goal maxIter ss tol rf a₂ stream)) ∧
    (∀ g start goal maxIter ss tol a₁ a₂ stream,
      stripF (run_rrt_connect g start goal maxIter ss tol a₁ stream) =
        stripF (run_rrt_connect g start goal maxIter ss tol a₂ stream)) ∧
    (∀ g start goal maxIter ss tol rr a₁ a₂ stream,
      stripF (run_rrt_star g start goal maxIter ss tol rr a₁ stream) =
        stripF (run_rrt_star g start goal maxIter ss tol rr a₂ stream)) ∧
    (∀ g start goal maxIter ss tol rr a₁ a₂ stream,
      stripF (run_informed g start goal maxIter ss tol rr a₁ stream) =
        stripF (run_informed g start goal maxIter ss tol rr a₂ stream)) ∧
    (∀ g start goal numSamples radius maxNbrs a₁ a₂ stream,
      stripF (run_prm g start goal numSamples radius maxNbrs a₁ stream) =
        stripF (run_prm g start goal numSamples radius maxNbrs a₂ stream)) ∧
    (∀ g start goal numSamples a₁ a₂ stream,
      stripF (run_prm_star g start goal numSamples a₁ stream) =
        stripF (run_prm_star g start goal numSamples a₂ stream)) ∧
    (∀ g start goal numSamples radius maxNbrs maxRetries a₁ a₂ stream,
      stripF (run_lazy_prm g start goal numSamples radius maxNbrs maxRetries a₁ stream) =
        stripF (run_lazy_prm g start goal numSamples radius maxNbrs maxRetries a₂ stream)) :=
  ⟨fun g s t mi ss tol a₁ a₂ st => run_rrt_noframes g s t mi ss tol a₁ a₂ st,
    fun g s t mi ss tol rf a₁ a₂ st => run_dynamic_rrt_noframes g s t mi ss tol rf a₁ a₂ st,
    fun g s t mi ss tol a₁ a₂ st => run_rrt_connect_noframes g s t mi ss tol a₁ a₂ st,
    fun g s t mi ss tol rr a₁ a₂ st => run_rrt_star_noframes g s t mi ss tol rr a₁ a₂ st,
    fun g s t mi ss tol rr a₁ a₂ st => run_informed_noframes g s t mi ss tol rr a₁ a₂ st,
    fun g s t ns radius mn a₁ a₂ st => run_prm_noframes g s t ns radius mn a₁ a₂ st,
    fun g s t ns a₁ a₂ st => run_prm_star_noframes g s t ns a₁ a₂ st,
    fun g s t ns radius mn mr a₁ a₂ st => run_lazy_prm_noframes g s t ns radius mn mr a₁ a₂ st⟩

/-- C6: a successful RRT-Connect run whose returned path runs from the goal
to the start: the failing first extension swaps the trees, so the connection
is found with the goal tree playing the start role, and the source
concatenates the two halves in the swapped orientation. -/
theorem c6_counterexample :
    run_rrt_connect (freeGrid 4) (0, 0) (3, 0) 2 1 1 false c6stream =
      some ⟨[(3, 0), (2, 0), (1, 0), (0, 0)], none, []⟩ ∧
    ¬ (([(3, 0), (2, 0), (1, 0), (0, 0)] : List Point).head? = some ((0, 0) : Point) ∧
        ([(3, 0), (2, 0), (1, 0), (0, 0)] : List Point).getLast? = some ((3, 0) : Point)) := by
  exact ⟨by decide, by decide⟩

/-- A successful parent walk ends at a root binding (a key bound to `None`). -/
theorem walkParents_last_root (t : Tree) :
    ∀ (fuel : ℕ) (p : Point) (l : List Point), walkParents t fuel p = some l →
      ∃ q, l.getLast? = some q ∧ treeFind t q = some none := by
  intro fuel
  induction fuel with
  | zero => intro p l h; cases h
  | succ n ih =>
    intro p l h
    rw [walkParents] at h
    rcases hf : treeFind t p with _ | op
    · rw [hf] at h; cases h
    · rcases op with _ | q
      · rw [hf] at h
        simp only [Option.some.injEq] at h
        exact ⟨p, by rw [← h]; rfl, hf⟩
      · rw [hf] at h
        rcases Option.map_eq_some'.mp h with ⟨l', hw, hl'⟩
        rcases ih q l' hw with ⟨r, hr, hfr⟩
        refine ⟨r, ?_, hfr⟩
        rw [← hl']
        rcases l' with _ | ⟨x, xs⟩
        · exact absurd rfl (walkParents_ne_nil n t q [] hw)
        · simpa using hr

/-- `_extend_tree` never creates a root binding. -/
theorem extend_tree_roots (g : Grid) (t : Tree) (nodes : List Point) (target : Point)
    (ss : ℤ) (lines : List (Point × Point)) (p : Point)
    (h : treeFind (extend_tree g t nodes target ss lines).2.1 p = some none) :
    treeFind t p = some none := by
  rw [extend_tree.eq_def] at h
  dsimp only at h
  rcases hs : steer (argminNodes target nodes) target ss with _ | step
  · rw [hs] at h; exact h
  · rw [hs] at h
    dsimp only at h
    split_ifs at h
    · exact h
    · rw [treeInsert, treeFind_cons] at h
      split_ifs at h with he
      · cases h
      · exact h
    · exact h

/-- The bounded connect phase never creates a root binding either. -/
theorem connectAttempts_roots (g : Grid) (ss : ℤ) (tol : ℚ) (an : Bool) (nn : Point) :
    ∀ (fuel : ℕ) (t : Tree) (nodes : List Point) (lines : List (Point × Point))
      (frames : Frames) (p : Point),
      treeFind (connectAttempts g ss tol an nn fuel t nodes lines frames).2.1 p =
        some none → treeFind t p = some none := by
  intro fuel
  induction fuel with
  | zero => intro t nodes lines frames p h; exact h
  | succ m ih =>
    intro t nodes lines frames p h
    rw [connectAttempts] at h
    rcases he : extend_tree g t nodes nn ss lines with ⟨o, t', n', l'⟩
    rw [he] at h
    have hsub : treeFind t' p = some none → treeFind t p = some none := by
      intro hx
      have := extend_tree_roots g t nodes nn ss lines p
      rw [he] at this
      exact this hx
    rcases o with _ | c
    · exact hsub h
    · dsimp only at h
      split_ifs at h
      · exact hsub h
      · exact hsub (ih t' n' l' _ p h)

theorem connectLoop_endpoints (g : Grid) (start goal : Point) (ss : ℤ) (tol : ℚ)
    (an : Bool) (stream : ℕ → Point) :
    ∀ (fuel i : ℕ) (s : ConnectState) (rA rB : Point) (path : List Point),
      (∀ p, treeFind s.treeA p = some none → p = rA) →
      (∀ p, treeFind s.treeB p = some none → p = rB) →
      ((rA = start ∧ rB = goal) ∨ (rA = goal ∧ rB = start)) →
      (connectLoop g ss tol an stream fuel i s).2 = some (some path) →
      ∃ a b, path.head? = some a ∧ path.getLast? = some b ∧
        ((a = start ∧ b = goal) ∨ (a = goal ∧ b = start)) := by
  intro fuel
  induction fuel with
  | zero => intro i s rA rB path _ _ _ h; cases h
  | succ m ih =>
    intro i s rA rB path hA hB hpair h
    rw [connectLoop] at h
    rcases he : extend_tree g s.treeA s.nodesA (stream i) ss s.lines with ⟨o, tA, nA, lA⟩
    rw [he] at h
    rcases o with _ | newNode
    · dsimp only at h
      refine ih (i + 1) _ rB rA path hB hA ?_ h
      rcases hpair with ⟨h1, h2⟩ | ⟨h1, h2⟩
      · exact Or.inr ⟨h2, h1⟩
      · exact Or.inl ⟨h2, h1⟩
    · dsimp only at h
      have htA : ∀ p, treeFind tA p = some none → p = rA := by
        intro p hp
        have := extend_tree_roots g s.treeA s.nodesA (stream i) ss s.lines p
        rw [he] at this
        exact hA p (this hp)
      rcases hc : connectAttempts g ss tol an newNode 5 s.treeB s.nodesB lA
        (pushFrame an s.frames lA) with ⟨oc, tB, nB, lines', frames'⟩
      rw [hc] at h
      rcases oc with _ | connectNode
      · dsimp only at h
        have htB : ∀ p, treeFind tB p = some none → p = rB := by
          intro p hp
          have := connectAttempts_roots g ss tol an newNode 5 s.treeB s.nodesB lA
            (pushFrame an s.frames lA) p
          rw [hc] at this
          exact hB p (this hp)
        refine ih (i + 1) _ rB rA path htB htA ?_ h
        rcases hpair with ⟨h1, h2⟩ | ⟨h1, h2⟩
        · exact Or.inr ⟨h2, h1⟩
        · exact Or.inl ⟨h2, h1⟩
      · dsimp only at h
        have htB : ∀ p, treeFind tB p = some none → p = rB := by
          intro p hp
          have := connectAttempts_roots g ss tol an newNode 5 s.treeB s.nodesB lA
            (pushFrame an s.frames lA) p
          rw [hc] at this
          exact hB p (this hp)
        rcases hws : walkParents tA (tA.length + 1) newNode with _ | ps
        · rw [hws] at h
          simp at h
        · rcases hwg : walkParents tB (tB.length + 1) connectNode with _ | pg
          · rw [hws, hwg] at h
            simp at h
          · rw [hws, hwg] at h
            simp only [Option.map_some', Option.some.injEq] at h
            have hpath : path = ps.reverse ++ pg := h.symm
            rcases walkParents_last_root tA _ newNode ps hws with ⟨qA, hqA, hfA⟩
            rcases walkParents_last_root tB _ connectNode pg hwg with ⟨qB, hqB, hfB⟩
            have hpsne : ps ≠ [] := walkParents_ne_nil _ tA newNode ps hws
            have hpgne : pg ≠ [] := walkParents_ne_nil _ tB connectNode pg hwg
            refine ⟨qA, qB, ?_, ?_, ?_⟩
            · rw [hpath]
              rcases hrev : ps.reverse with _ | ⟨x, xs⟩
              · exact absurd (List.reverse_eq_nil_iff.mp hrev) hpsne
              · have : (ps.reverse).head? = some qA := by
                  rw [List.head?_reverse]
                  exact hqA
                rw [hrev] at this
                simpa using this
            · rw [hpath, List.getLast?_append_of_ne_nil _ hpgne]
              exact hqB
            · have haA : qA = rA := htA qA hfA
              have haB : qB = rB := htB qB hfB
              rw [haA, haB]
              exact hpair

/-- C6 (amended): RRT-Connect's returned nonempty path starts and ends at the
given start and goal, but in either order: the trees are swapped every
iteration, so when the connection is found on a swapped iteration the path
runs from the goal to the start (as `c6_counterexample` exhibits). -/
theorem c6_connect_endpoints (g : Grid) (start goal : Point) (maxIter : ℕ) (ss : ℤ)
    (tol : ℚ) (an : Bool) (stream : ℕ → Point) (r : PlanResult)
    (h : run_rrt_connect g start goal maxIter ss tol an stream = some r)
    (hne : r.path ≠ []) :
    ∃ a b, r.path.head? = some a ∧ r.path.getLast? = some b ∧
      ((a = start ∧ b = goal) ∨ (a = goal ∧ b = start)) := by
  rw [run_rrt_connect] at h
  rcases hl : connectLoop g ss tol an stream maxIter 0
    ⟨[(start, none)], [start], [(goal, none)], [goal], [], []⟩ with ⟨s', o⟩
  rw [hl] at h
  rcases o with _ | (_ | path)
  · simp only [Option.some.injEq] at h
    rw [← h] at hne
    exact absurd rfl hne
  · cases h
  · simp only [Option.some.injEq] at h
    have hA : ∀ p, treeFind ([(start, none)] : Tree) p = some none → p = start := by
      intro p hp
      rw [treeFind] at hp
      rcases hps : decide (start = p) with _ | _
      · simp only [List.find?_cons, hps] at hp
        simp at hp
      · exact (of_decide_eq_true hps).symm
    have hB : ∀ p, treeFind ([(goal, none)] : Tree) p = some none → p = goal := by
      intro p hp
      rw [treeFind] at hp
      rcases hps : decide (goal = p) with _ | _
      · simp only [List.find?_cons, hps] at hp
        simp at hp
      · exact (of_decide_eq_true hps).symm
    have := connectLoop_endpoints g start goal ss tol an stream maxIter 0
      ⟨[(start, none)], [start], [(goal, none)], [goal], [], []⟩ start goal path
      hA hB (Or.inl ⟨rfl, rfl⟩) (by rw [hl])
    rw [← h]
    exact this

theorem c6_connect_endpoints_witness :
    run_rrt_connect (freeGrid 4) (0, 0) (3, 0) 2 1 1 false c6stream =
      some ⟨[(3, 0), (2, 0), (1, 0), (0, 0)], none, []⟩ ∧
    (⟨[(3, 0), (2, 0), (1, 0), (0, 0)], none, []⟩ : PlanResult).path ≠ [] ∧
    ∃ a b, (⟨[(3, 0), (2, 0), (1, 0), (0, 0)], none, []⟩ : PlanResult).path.head? = some a ∧
      (⟨[(3, 0), (2, 0), (1, 0), (0, 0)], none, []⟩ : PlanResult).path.getLast? = some b ∧
      ((a = (0, 0) ∧ b = (3, 0)) ∨ (a = (3, 0) ∧ b = (0, 0))) :=
  ⟨by decide, by decide,
    c6_connect_endpoints (freeGrid 4) (0, 0) (3, 0) 2 1 1 false c6stream
      ⟨[(3, 0), (2, 0), (1, 0), (0, 0)], none, []⟩ (by decide) (by decide)⟩

/-! ### C1: edges of roadmap paths -/

theorem chain'_iff_zipPairs {α : Type} (R : α → α → Prop) :
    ∀ l : List α, List.Chain' R l ↔ ∀ pr ∈ l.zip l.tail, R pr.1 pr.2 := by
  intro l
  induction l with
  | nil => simp
  | cons x t ih =>
    rcases t with _ | ⟨y, t'⟩
    · simp
    · rw [List.chain'_cons]
      constructor
      · rintro ⟨hxy, hch⟩ pr hpr
        rcases List.mem_cons.mp hpr with rfl | hpr'
        · exact hxy
        · exact (ih.mp hch) pr hpr'
      · intro h
        refine ⟨h (x, y) (List.mem_cons_self _ _), ih.mpr ?_⟩
        intro pr hpr
        exact h pr (List.mem_cons_of_mem _ hpr)

/-- A successful parent walk starts at the queried point. -/
theorem walkParents_head (t : Tree) :
    ∀ (fuel : ℕ) (p : Point) (l : List Point), walkParents t fuel p = some l →
      l.head? = some p := by
  intro fuel
  induction fuel with
  | zero => intro p l h; cases h
  | succ n _ =>
    intro p l h
    rw [walkParents] at h
    rcases hf : treeFind t p with _ | op
    · rw [hf] at h; cases h
    · rcases op with _ | q
      · rw [hf] at h
        simp only [Option.some.injEq] at h
        rw [← h]; rfl
      · rw [hf] at h
        rcases Option.map_eq_some'.mp h with ⟨l', _, hl'⟩
        rw [← hl']; rfl

theorem graphGet_cons (y : Point × List (Point × ℝ)) (G : WGraph) (a : Point) :
    graphGet (y :: G) a = if y.1 = a then y.2 else graphGet G a := by
  rw [graphGet, graphGet]
  by_cases h : y.1 = a
  · rw [List.find?_cons_of_pos _ (by simpa using h), if_pos h]
    rfl
  · rw [List.find?_cons_of_neg _ (by simpa using h), if_neg h]

theorem findKey_cons (y : Point × List (Point × ℝ)) (G : WGraph) (p : Point) :
    ((y :: G).find? (fun x => decide (x.1 = p))).isSome =
      if y.1 = p then true else (G.find? (fun x => decide (x.1 = p))).isSome := by
  by_cases h : y.1 = p
  · rw [List.find?_cons_of_pos _ (by simpa using h), if_pos h]
    rfl
  · rw [List.find?_cons_of_neg _ (by simpa using h), if_neg h]

/-- The list produced by a parent walk is a chain of parent links. -/
theorem walkParents_chain (t : Tree) :
    ∀ (fuel : ℕ) (p : Point) (l : List Point), walkParents t fuel p = some l →
      List.Chain' (fun a b => treeFind t a = some (some b)) l := by
  intro fuel
  induction fuel with
  | zero => intro p l h; cases h
  | succ n ih =>
    intro p l h
    rw [walkParents] at h
    rcases hf : treeFind t p with _ | op
    · rw [hf] at h; cases h
    · rcases op with _ | q
      · rw [hf] at h
        simp only [Option.some.injEq] at h
        rw [← h]
        exact List.chain'_singleton p
      · rw [hf] at h
        rcases Option.map_eq_some'.mp h with ⟨l', hw, hl'⟩
        rw [← hl']
        rcases l' with _ | ⟨x, xs⟩
        · exact absurd rfl (walkParents_ne_nil n t q [] hw)
        · rw [List.chain'_cons]
          have hx : x = q := by
            have := walkParents_head t n q (x :: xs) hw
            simpa using this
          exact ⟨by rw [hx]; exact hf, ih q (x :: xs) hw⟩

theorem graphGet_map_add (p : Point) (e : Point × ℝ) (a : Point) :
    ∀ G : WGraph,
      graphGet (G.map (fun x => if x.1 = p then (x.1, x.2 ++ [e]) else x)) a =
        if a = p ∧ (G.find? (fun x => decide (x.1 = p))).isSome then graphGet G a ++ [e]
        else graphGet G a := by
  intro G
  induction G with
  | nil => simp [graphGet]
  | cons y G ih =>
    rw [List.map_cons]
    by_cases hy : y.1 = p
    · rw [if_pos hy]
      rw [graphGet_cons, graphGet_cons, findKey_cons, if_pos hy]
      by_cases hya : y.1 = a
      · rw [if_pos hya, if_pos hya]
        rw [if_pos ⟨hya ▸ hy.symm ▸ rfl, rfl⟩]
      · rw [if_neg hya, if_neg hya, ih]
        have ha : ¬ a = p := fun hc => hya (hy.trans hc.symm)
        rw [if_neg (fun hc => ha hc.1), if_neg (fun hc => ha hc.1)]
    · rw [if_neg hy]
      rw [graphGet_cons, graphGet_cons, findKey_cons, if_neg hy]
      by_cases hya : y.1 = a
      · rw [if_pos hya, if_pos hya]
        rw [if_neg ?_]
        rintro ⟨hap, _⟩
        exact hy (hya.trans hap)
      · rw [if_neg hya, if_neg hya, ih]

theorem graphGet_eq_nil_of_absent (a : Point) :
    ∀ G : WGraph, (G.find? (fun x => decide (x.1 = a))).isSome = false →
      graphGet G a = [] := by
  intro G h
  rw [graphGet]
  rcases hf : G.find? (fun e => decide (e.1 = a)) with _ | v
  · rw [hf]; rfl
  · rw [hf] at h; cases h

theorem graphGet_append_single (p : Point) (e : Point × ℝ) (a : Point) :
    ∀ G : WGraph,
      graphGet (G ++ [(p, [e])]) a =
        if (G.find? (fun x => decide (x.1 = a))).isSome then graphGet G a
        else if a = p then [e] else [] := by
  intro G
  induction G with
  | nil =>
    rw [List.nil_append, graphGet_cons]
    simp only [List.find?_nil, Option.isSome_none, Bool.false_eq_true, if_false]
    by_cases ha : p = a
    · rw [if_pos ha, if_pos ha.symm]
    · rw [if_neg ha, if_neg (fun hc => ha hc.symm)]
      simp [graphGet]
  | cons y G ih =>
    rw [List.cons_append, graphGet_cons, graphGet_cons, findKey_cons]
    by_cases hya : y.1 = a
    · simp [hya]
    · simp only [if_neg hya]
      exact ih

theorem graphGet_graphAdd (G : WGraph) (p : Point) (e : Point × ℝ) (a : Point) :
    graphGet (graphAdd G p e) a =
      if a = p then graphGet G a ++ [e] else graphGet G a := by
  rw [graphAdd]
  by_cases hs : (G.find? (fun x => decide (x.1 = p))).isSome
  · rw [if_pos hs, graphGet_map_add]
    by_cases ha : a = p
    · rw [if_pos ⟨ha, hs⟩, if_pos ha]
    · rw [if_neg (fun hc => ha hc.1), if_neg ha]
  · rw [if_neg hs, graphGet_append_single]
    by_cases hfa : (G.find? (fun x => decide (x.1 = a))).isSome
    · rw [if_pos hfa]
      by_cases ha : a = p
      · rw [ha] at hfa
        exact absurd hfa hs
      · rw [if_neg ha]
    · rw [if_neg hfa]
      have hnil : graphGet G a = [] :=
        graphGet_eq_nil_of_absent a G (Bool.eq_false_iff.mpr hfa)
      by_cases ha : a = p
      · rw [if_pos ha, if_pos ha, hnil]
        rfl
      · rw [if_neg ha, if_neg ha, hnil]

theorem graphAdd_mem (G : WGraph) (p : Point) (e : Point × ℝ) (a : Point)
    (bw : Point × ℝ) (h : bw ∈ graphGet (graphAdd G p e) a) :
    bw ∈ graphGet G a ∨ (a = p ∧ bw = e) := by
  rw [graphGet_graphAdd] at h
  by_cases ha : a = p
  · rw [if_pos ha] at h
    rcases List.mem_append.mp h with h | h
    · exact Or.inl h
    · exact Or.inr ⟨ha, by simpa using h⟩
  · rw [if_neg ha] at h
    exact Or.inl h

theorem foldl_graph_inv {δ : Type} (P : WGraph → Prop)
    (f : WGraph × List (Point × Point) × Frames → δ → WGraph × List (Point × Point) × Frames)
    (hf : ∀ st x, P st.1 → P (f st x).1) :
    ∀ (l : List δ) (st : WGraph × List (Point × Point) × Frames),
      P st.1 → P (l.foldl f st).1 := by
  intro l
  induction l with
  | nil => intro st h; exact h
  | cons x xs ih =>
    intro st h
    rw [List.foldl_cons]
    exact ih _ (hf st x h)

/-- Every edge of the prm.py roadmap passes the directional collision check in
the direction in which it was inserted (both directions are inserted after the
single check, so every stored edge is `edgeOk`). -/
theorem prmConnect_edgeOk (g : Grid) (an : Bool) (nodes : List Point) (radius : ℚ)
    (mn : ℕ) (a b : Point) (w : ℝ)
    (h : (b, w) ∈ graphGet (prmConnect g an nodes radius mn).1 a) : edgeOk g a b := by
  rw [prmConnect] at h
  revert h
  refine foldl_graph_inv
    (fun G => (b, w) ∈ graphGet G a → edgeOk g a b) _ ?_ nodes.enum ([], [], [])
    (by simp [graphGet])
  intro st ip hst
  dsimp only
  refine foldl_graph_inv (fun G => (b, w) ∈ graphGet G a → edgeOk g a b) _ ?_ _ st hst
  intro st2 dn hst2
  dsimp only
  split_ifs with hcol
  · exact hst2
  · intro hmem
    rcases graphAdd_mem _ _ _ _ _ hmem with hmem | ⟨ha, hbw⟩
    · rcases graphAdd_mem _ _ _ _ _ hmem with hmem | ⟨ha, hbw⟩
      · exact hst2 hmem
      · have hb : b = dn.2 := by
          have := congrArg Prod.fst hbw
          simpa using this
        rw [ha, hb]
        exact Or.inl (by simpa using hcol)
    · have hb : b = ip.2 := by
        have := congrArg Prod.fst hbw
        simpa using this
      rw [ha, hb]
      exact Or.inr (by simpa using hcol)

/-- Same for prm_star.py (the dedup of duplicate `(neighbor, dist)` pairs does
not affect the property). -/
theorem prmStarConnect_edgeOk (g : Grid) (an : Bool) (nodes : List Point) (radius : ℝ)
    (a b : Point) (w : ℝ)
    (h : (b, w) ∈ graphGet (prmStarConnect g an nodes radius).1 a) : edgeOk g a b := by
  rw [prmStarConnect] at h
  revert h
  refine foldl_graph_inv
    (fun G => (b, w) ∈ graphGet G a → edgeOk g a b) _ ?_ nodes.enum ([], [], [])
    (by simp [graphGet])
  intro st ip hst
  dsimp only
  refine foldl_graph_inv (fun G => (b, w) ∈ graphGet G a → edgeOk g a b) _ ?_ _ st hst
  intro st2 jp hst2
  dsimp only
  split_ifs with hcol h1 h2 h2
  · exact hst2
  · exact hst2
  · intro hmem
    rcases graphAdd_mem _ _ _ _ _ hmem with hmem | ⟨ha, hbw⟩
    · exact hst2 hmem
    · have hb : b = ip.2 := by
        have := congrArg Prod.fst hbw
        simpa using this
      rw [ha, hb]
      exact Or.inr (by simpa using hcol)
  · intro hmem
    rcases graphAdd_mem _ _ _ _ _ hmem with hmem | ⟨ha, hbw⟩
    · exact hst2 hmem
    · have hb : b = jp.2 := by
        have := congrArg Prod.fst hbw
        simpa using this
      rw [ha, hb]
      exact Or.inl (by simpa using hcol)
  · intro hmem
    rcases graphAdd_mem _ _ _ _ _ hmem with hmem | ⟨ha, hbw⟩
    · rcases graphAdd_mem _ _ _ _ _ hmem with hmem | ⟨ha, hbw⟩
      · exact hst2 hmem
      · have hb : b = jp.2 := by
          have := congrArg Prod.fst hbw
          simpa using this
        rw [ha, hb]
        exact Or.inl (by simpa using hcol)
    · have hb : b = ip.2 := by
        have := congrArg Prod.fst hbw
        simpa using this
      rw [ha, hb]
      exact Or.inr (by simpa using hcol)

open scoped Classical in
theorem relaxFold_prev (G : WGraph) (cur : Point) (cd : ℝ) (vis : List Point) :
    ∀ (l : List (Point × ℝ)), (∀ e ∈ l, e ∈ graphGet G cur) →
    ∀ (st : List (ℝ × Point) × List (Point × ℝ) × Tree),
      (∀ p q, treeFind st.2.2 p = some (some q) → ∃ w, (p, w) ∈ graphGet G q) →
      ∀ p q, treeFind
        (l.foldl
          (fun st2 e =>
            if e.1 ∈ vis then st2
            else
              let nd := cd + e.2
              let improves :=
                match dmapFind st2.2.1 e.1 with
                | none => True
                | some dOld => nd < dOld
              if improves then
                (st2.1 ++ [(nd, e.1)], (e.1, nd) :: st2.2.1,
                  treeInsert st2.2.2 e.1 (some cur))
              else st2)
          st).2.2 p = some (some q) → ∃ w, (p, w) ∈ graphGet G q := by
  intro l
  induction l with
  | nil => intro _ st hst; exact hst
  | cons e l ih =>
    intro hmem st hst
    rw [List.foldl_cons]
    refine ih (fun x hx => hmem x (List.mem_cons_of_mem e hx)) _ ?_
    dsimp only
    split_ifs with hvis himp
    · exact hst
    · intro p q hfind
      rw [treeInsert, treeFind_cons] at hfind
      split_ifs at hfind with hpe
      · simp only [Option.some.injEq] at hfind
        refine ⟨e.2, ?_⟩
        rw [← hfind, ← hpe]
        exact hmem e (List.mem_cons_self e l)
      · exact hst p q hfind
    · exact hst

/-- The invariant carried by prm.py `_dijkstra`'s predecessor map: every
recorded parent link is the reversal of a stored graph edge. -/
theorem relaxAll_prev (G : WGraph) (cur : Point) (cd : ℝ) (vis : List Point)
    (st : List (ℝ × Point) × List (Point × ℝ) × Tree)
    (hprev : ∀ p q, treeFind st.2.2 p = some (some q) → ∃ w, (p, w) ∈ graphGet G q) :
    ∀ p q, treeFind (relaxAll G cur cd vis st).2.2 p = some (some q) →
      ∃ w, (p, w) ∈ graphGet G q := by
  rw [relaxAll]
  exact relaxFold_prev G cur cd vis (graphGet G cur) (fun e he => he) st hprev

theorem dijkstraLoop_chainOk (g : Grid) (G : WGraph) (goal : Point)
    (hG : ∀ a b w, (b, w) ∈ graphGet G a → edgeOk g a b) :
    ∀ (fuel : ℕ) (pq : List (ℝ × Point)) (dist : List (Point × ℝ)) (prev : Tree)
      (visited : List Point),
      (∀ p q, treeFind prev p = some (some q) → ∃ w, (p, w) ∈ graphGet G q) →
      ∀ path, dijkstraLoop G goal fuel pq dist prev visited = some (some path) →
        chainOk g path := by
  intro fuel
  induction fuel with
  | zero => intro pq dist prev visited _ path h; cases h
  | succ n ih =>
    intro pq dist prev visited hprev path h
    rw [dijkstraLoop] at h
    rcases hm : pqMin pq with _ | m
    · rw [hm] at h; cases h
    · rw [hm] at h
      dsimp only at h
      split_ifs at h with hvis hgoal
      · exact ih _ _ _ _ hprev path h
      · simp only [Option.some.injEq] at h
        rcases Option.map_eq_some'.mp h with ⟨l, hw, hl⟩
        have hchain := walkParents_chain prev _ m.2 l hw
        have hflip : List.Chain' (flip (edgeOk g)) l := by
          refine List.Chain'.imp ?_ hchain
          intro a b hab
          rcases hprev a b hab with ⟨w, hwmem⟩
          exact hG b a w hwmem
        have : List.Chain' (edgeOk g) l.reverse := List.chain'_reverse.mpr hflip
        rw [← hl]
        rw [chainOk]
        exact (chain'_iff_zipPairs (edgeOk g) l.reverse).mp this
      · exact ih _ _ _ _ (relaxAll_prev G m.2 m.1 _ _ hprev) path h

theorem dijkstra_chainOk (g : Grid) (G : WGraph) (start goal : Point)
    (hG : ∀ a b w, (b, w) ∈ graphGet G a → edgeOk g a b)
    (path : List Point) (h : dijkstra G start goal = some (some path)) :
    chainOk g path := by
  rw [dijkstra] at h
  refine dijkstraLoop_chainOk g G goal hG _ _ _ _ _ ?_ path h
  intro p q hfind
  rw [treeFind_cons] at hfind
  split_ifs at hfind with hps
  · cases hfind
  · rw [treeFind] at hfind
    simp at hfind

theorem lazyValidate_ok (g : Grid) :
    ∀ (path : List Point) (validated invalid : List (Point × Point)),
      (∀ pr ∈ validated, edgeOk g pr.1 pr.2) →
      (∀ pr ∈ (lazyValidate g path validated invalid).2.1, edgeOk g pr.1 pr.2) ∧
      ((lazyValidate g path validated invalid).1 = true → chainOk g path) := by
  intro path
  induction path with
  | nil =>
    intro validated invalid hv
    exact ⟨hv, fun _ => by rw [chainOk]; intro pr hpr; cases hpr⟩
  | cons a t ih =>
    intro validated invalid hv
    rcases t with _ | ⟨b, rest⟩
    · refine ⟨hv, fun _ => ?_⟩
      rw [chainOk]
      intro pr hpr
      cases hpr
    · rw [lazyValidate]
      split_ifs with hmem hcol
      · obtain ⟨h1, h2⟩ := ih validated invalid hv
        refine ⟨h1, fun hok => ?_⟩
        rw [chainOk]
        intro pr hpr
        rw [show (a :: b :: rest).tail = b :: rest from rfl, List.zip_cons_cons] at hpr
        rcases List.mem_cons.mp hpr with rfl | hpr'
        · exact hv (a, b) hmem
        · exact h2 hok pr hpr'
      · exact ⟨hv, fun hok => by cases hok⟩
      · have hv' : ∀ pr ∈ validated ++ [(a, b), (b, a)], edgeOk g pr.1 pr.2 := by
          intro pr hpr
          rcases List.mem_append.mp hpr with h | h
          · exact hv pr h
          · rcases List.mem_cons.mp h with rfl | h
            · exact Or.inl (Bool.eq_false_iff.mpr hcol)
            · rcases List.mem_cons.mp h with rfl | h
              · exact Or.inr (Bool.eq_false_iff.mpr hcol)
              · cases h
        obtain ⟨h1, h2⟩ := ih (validated ++ [(a, b), (b, a)]) invalid hv'
        refine ⟨h1, fun hok => ?_⟩
        rw [chainOk]
        intro pr hpr
        rw [show (a :: b :: rest).tail = b :: rest from rfl, List.zip_cons_cons] at hpr
        rcases List.mem_cons.mp hpr with rfl | hpr'
        · exact Or.inl (Bool.eq_false_iff.mpr hcol)
        · exact h2 hok pr hpr'

theorem lazyDijkstraLoop_ok (g : Grid) (G : WGraph) (goal : Point) :
    ∀ (validated invalid : List (Point × Point)),
      (∀ pr ∈ validated, edgeOk g pr.1 pr.2) →
    ∀ (fuel : ℕ) (pq : List (ℝ × Point)) (dist : List (Point × ℝ)) (prev : Tree)
      (visited : List Point) (po : Option (List Point))
      (v' inv' : List (Point × Point)),
      lazyDijkstraLoop g G goal validated invalid fuel pq dist prev visited =
        some (po, v', inv') →
      (∀ pr ∈ v', edgeOk g pr.1 pr.2) ∧ ∀ path, po = some path → chainOk g path := by
  intro validated invalid hv fuel
  induction fuel generalizing validated invalid with
  | zero => intro pq dist prev visited po v' inv' h; cases h
  | succ n ih =>
    intro pq dist prev visited po v' inv' h
    rw [lazyDijkstraLoop] at h
    rcases hm : pqMin pq with _ | m
    · rw [hm] at h
      simp only [Option.some.injEq, Prod.mk.injEq] at h
      obtain ⟨hpo, hv', _⟩ := h
      refine ⟨by rw [← hv']; exact hv, ?_⟩
      intro path hc
      rw [← hpo] at hc
      cases hc
    · rw [hm] at h
      dsimp only at h
      split_ifs at h with hvis hgoal
      · exact ih validated invalid hv _ _ _ _ _ _ _ h
      · rcases hw : walkParents prev (prev.length + 1) m.2 with _ | pathRev
        · rw [hw] at h; cases h
        · rw [hw] at h
          dsimp only at h
          rcases hlv : lazyValidate g pathRev.reverse validated invalid with ⟨ok, vv, ii⟩
          rw [hlv] at h
          obtain ⟨hva, hok⟩ := lazyValidate_ok g pathRev.reverse validated invalid hv
          rw [hlv] at hva hok
          rcases ok with _ | _
          · simp only [Option.some.injEq, Prod.mk.injEq] at h
            obtain ⟨hpo, hv', _⟩ := h
            refine ⟨by rw [← hv']; exact hva, ?_⟩
            intro path hc
            rw [← hpo] at hc
            cases hc
          · simp only [Option.some.injEq, Prod.mk.injEq] at h
            obtain ⟨hpo, hv', _⟩ := h
            refine ⟨by rw [← hv']; exact hva, ?_⟩
            intro path hc
            rw [← hpo] at hc
            simp only [Option.some.injEq] at hc
            rw [← hc]
            exact hok rfl
      · exact ih validated invalid hv _ _ _ _ _ _ _ h

theorem lazyAttempts_ok (g : Grid) (G : WGraph) (start goal : Point) :
    ∀ (fuel : ℕ) (validated invalid : List (Point × Point)),
      (∀ pr ∈ validated, edgeOk g pr.1 pr.2) →
      ∀ path, lazyAttempts g G start goal fuel validated invalid = some (some path) →
        chainOk g path := by
  intro fuel
  induction fuel with
  | zero => intro validated invalid _ path h; cases h
  | succ n ih =>
    intro validated invalid hv path h
    rw [lazyAttempts] at h
    rcases hd : lazy_dijkstra g G start goal validated invalid with _ | ⟨po, v', inv'⟩
    · rw [hd] at h; cases h
    · rw [hd] at h
      rcases po with _ | p
      · dsimp only at h
        obtain ⟨hva, _⟩ := lazyDijkstraLoop_ok g G goal validated invalid hv _ _ _ _ _ _ _ _ hd
        exact ih v' inv' hva path h
      · dsimp only at h
        simp only [Option.some.injEq] at h
        obtain ⟨_, hpath⟩ := lazyDijkstraLoop_ok g G goal validated invalid hv _ _ _ _ _ _ _ _ hd
        rw [← h]
        exact hpath p rfl

/-- Concrete prm.py run on `c1grid`: with no extra samples, the roadmap is the
single (collision-checked) edge start–goal, and the returned path is its
densified interpolation. -/
theorem run_prm_c1_eval : run_prm c1grid (0, 0) (5, 2) 0 10 5 false (fun _ => (0, 0)) =
    some ⟨[(0, 0), (1, 0), (2, 1), (3, 1), (4, 2), (5, 2)], some 2, []⟩ := by
  rw [run_prm]
  simp +decide [sampleLoop, prmConnect, prmNeighbors, sortPairs, insertSorted, pairLeB,
    distLeQ, squaredDist, graphAdd, graphGet, pushFrame, dijkstra, dijkstraLoop,
    graphWeight, pqMin, relaxAll, dmapFind, treeInsert, treeFind, walkParents,
    List.find?, List.filter]

/-- C1: a returned (densified) PRM path whose consecutive pair (3,1)–(4,2)
fails the line-of-sight check: the roadmap edge (0,0)–(5,2) was checked and is
clear, but the interpolation of that edge cuts the corner of the obstacle at
(3,2), and the interpolated pair crosses it in both directions. -/
theorem c1_counterexample :
    run_prm c1grid (0, 0) (5, 2) 0 10 5 false (fun _ => (0, 0)) =
      some ⟨[(0, 0), (1, 0), (2, 1), (3, 1), (4, 2), (5, 2)], some 2, []⟩ ∧
    ¬ pairsPass c1grid [(0, 0), (1, 0), (2, 1), (3, 1), (4, 2), (5, 2)] := by
  refine ⟨run_prm_c1_eval, ?_⟩
  intro h
  have := h ((3, 1), (4, 2)) (by decide)
  rw [show line_collision c1grid (3, 1) (4, 2) = true from by decide] at this
  cases this

/-- C1 (amended): for PRM, PRM* and Lazy PRM the path found on the roadmap has
every consecutive pair collision-checked (at construction time for PRM/PRM*,
at query time for Lazy PRM, in at least one direction); but the path actually
returned is its densified interpolation, whose segments are not re-checked. -/
theorem c1_sparse_edges_checked :
    (∀ g start goal ns radius mn an stream r,
        run_prm g start goal ns radius mn an stream = some r → r.path ≠ [] →
        ∃ sparse, chainOk g sparse ∧
          r.path = if densify sparse = [] then sparse else densify sparse) ∧
    (∀ g start goal ns an stream r,
        run_prm_star g start goal ns an stream = some r → r.path ≠ [] →
        ∃ sparse, chainOk g sparse ∧
          r.path = if densify sparse = [] then sparse else densify sparse) ∧
    (∀ g start goal ns radius mn mr an stream r,
        run_lazy_prm g start goal ns radius mn mr an stream = some r → r.path ≠ [] →
        ∃ sparse, chainOk g sparse ∧
          r.path = if densify sparse = [] then sparse else densify sparse) := by
  refine ⟨?_, ?_, ?_⟩
  · intro g start goal ns radius mn an stream r h hne
    rw [run_prm] at h
    rcases hd : dijkstra
      (prmConnect g an (sampleLoop g ns stream (ns * 3) [start, goal] 0).1 radius mn).1
      start goal with _ | (_ | path)
    · rw [hd] at h; cases h
    · rw [hd] at h
      simp only [Option.some.injEq] at h
      rw [← h] at hne
      exact absurd rfl hne
    · rw [hd] at h
      simp only [Option.some.injEq] at h
      refine ⟨path, ?_, by rw [← h]⟩
      exact dijkstra_chainOk g _ start goal
        (fun a b w hmem => prmConnect_edgeOk g an _ radius mn a b w hmem) path hd
  · intro g start goal ns an stream r h hne
    rw [run_prm_star] at h
    rcases hd : dijkstra
      (prmStarConnect g an (sampleLoop g ns stream (ns * 3) [start, goal] 0).1
        (prmStarRadius (gridSize g)
          (sampleLoop g ns stream (ns * 3) [start, goal] 0).1.length)).1
      start goal with _ | (_ | path)
    · rw [hd] at h; cases h
    · rw [hd] at h
      simp only [Option.some.injEq] at h
      rw [← h] at hne
      exact absurd rfl hne
    · rw [hd] at h
      simp only [Option.some.injEq] at h
      refine ⟨path, ?_, by rw [← h]⟩
      exact dijkstra_chainOk g _ start goal
        (fun a b w hmem => prmStarConnect_edgeOk g an _ _ a b w hmem) path hd
  · intro g start goal ns radius mn mr an stream r h hne
    rw [run_lazy_prm] at h
    rcases hd : lazyAttempts g
      (lazyConnect an (sampleLoop g ns stream (ns * 3) [start, goal] 0).1 radius mn).1
      start goal mr [] [] with _ | (_ | path)
    · rw [hd] at h; cases h
    · rw [hd] at h
      simp only [Option.some.injEq] at h
      rw [← h] at hne
      exact absurd rfl hne
    · rw [hd] at h
      simp only [Option.some.injEq] at h
      refine ⟨path, ?_, by rw [← h]⟩
      exact lazyAttempts_ok g _ start goal mr [] [] (fun pr hpr => by cases hpr) path hd

/-- Popping the start immediately succeeds when it is the goal, whatever the
roadmap (used to exhibit successful PRM* / Lazy PRM runs). -/
theorem dijkstraLoop_self (goal : Point) : ∀ (G : WGraph) (N : ℕ),
    dijkstraLoop G goal (N + 2) [(0, goal)] [(goal, 0)] [(goal, none)] [] =
      some (some [goal]) := by
  intro G N
  show dijkstraLoop G goal (N + 1 + 1) [(0, goal)] [(goal, 0)] [(goal, none)] [] = _
  rw [dijkstraLoop]
  simp [pqMin, walkParents, treeFind, List.find?, treeFind_cons]

theorem lazyDijkstraLoop_self (g : Grid) (goal : Point) : ∀ (G : WGraph) (N : ℕ),
    lazyDijkstraLoop g G goal [] [] (N + 2) [(0, goal)] [(goal, 0)] [(goal, none)] [] =
      some (some [goal], [], []) := by
  intro G N
  show lazyDijkstraLoop g G goal [] [] (N + 1 + 1) [(0, goal)] [(goal, 0)] [(goal, none)]
    [] = _
  rw [lazyDijkstraLoop]
  simp [pqMin, walkParents, treeFind, List.find?, treeFind_cons, lazyValidate]

theorem run_prm_star_self_eval :
    run_prm_star (freeGrid 2) (0, 0) (0, 0) 0 false (fun _ => (0, 0)) =
      some ⟨[(0, 0)], some 2,
        (prmStarConnect (freeGrid 2) false [(0, 0), (0, 0)]
          (prmStarRadius (gridSize (freeGrid 2)) 2)).2.2⟩ := by
  rw [run_prm_star]
  simp only [sampleLoop, List.length_cons, List.length_nil]
  rw [dijkstra, dijkstraLoop_self]
  norm_num [densify, interpolate]

theorem run_lazy_prm_self_eval :
    run_lazy_prm (freeGrid 2) (0, 0) (0, 0) 0 10 5 1 false (fun _ => (0, 0)) =
      some ⟨[(0, 0)], some 2, (lazyConnect false [(0, 0), (0, 0)] 10 5).2.2⟩ := by
  rw [run_lazy_prm]
  simp only [sampleLoop, List.length_cons, List.length_nil]
  rw [lazyAttempts, lazy_dijkstra, lazyDijkstraLoop_self]
  norm_num [densify, interpolate]

theorem c1_sparse_edges_checked_witness :
    (run_prm c1grid (0, 0) (5, 2) 0 10 5 false (fun _ => (0, 0)) =
        some ⟨[(0, 0), (1, 0), (2, 1), (3, 1), (4, 2), (5, 2)], some 2, []⟩ ∧
      (⟨[(0, 0), (1, 0), (2, 1), (3, 1), (4, 2), (5, 2)], some 2, []⟩ : PlanResult).path ≠ [] ∧
      ∃ sparse, chainOk c1grid sparse ∧
        (⟨[(0, 0), (1, 0), (2, 1), (3, 1), (4, 2), (5, 2)], some 2, []⟩ : PlanResult).path =
          if densify sparse = [] then sparse else densify sparse) ∧
    ((∃ r, run_prm_star (freeGrid 2) (0, 0) (0, 0) 0 false (fun _ => (0, 0)) = some r ∧
        r.path ≠ [] ∧ ∃ sparse, chainOk (freeGrid 2) sparse ∧
          r.path = if densify sparse = [] then sparse else densify sparse)) ∧
    (∃ r, run_lazy_prm (freeGrid 2) (0, 0) (0, 0) 0 10 5 1 false (fun _ => (0, 0)) = some r ∧
        r.path ≠ [] ∧ ∃ sparse, chainOk (freeGrid 2) sparse ∧
          r.path = if densify sparse = [] then sparse else densify sparse) := by
  refine ⟨⟨run_prm_c1_eval, by decide, ?_⟩, ⟨_, run_prm_star_self_eval, by decide, ?_⟩,
    ⟨_, run_lazy_prm_self_eval, by decide, ?_⟩⟩
  · exact c1_sparse_edges_checked.1 c1grid (0, 0) (5, 2) 0 10 5 false (fun _ => (0, 0))
      _ run_prm_c1_eval (by decide)
  · exact c1_sparse_edges_checked.2.1 (freeGrid 2) (0, 0) (0, 0) 0 false (fun _ => (0, 0))
      _ run_prm_star_self_eval (by decide)
  · exact c1_sparse_edges_checked.2.2 (freeGrid 2) (0, 0) (0, 0) 0 10 5 1 false
      (fun _ => (0, 0)) _ run_lazy_prm_self_eval (by decide)

theorem c9_sampling_budget_witness :
    ((sampleLoop c9grid 2 c9stream (2 * 3) [(0, 0), (2, 2)] 0).1.length = 2 + 2 ∨
      (sampleLoop c9grid 2 c9stream (2 * 3) [(0, 0), (2, 2)] 0).2 = 2 * 3) ∧
    (sampleLoop c9grid 2 c9stream (2 * 3) [(0, 0), (2, 2)] 0).2 ≤ 2 * 3 ∧
    ((0, 1) ∈ (sampleLoop c9grid 2 c9stream (2 * 3) [(0, 0), (2, 2)] 0).1 ∧
      ((0, 1) = ((0, 0) : Point) ∨ (0, 1) = ((2, 2) : Point) ∨ cellAt c9grid 0 1 ≠ 1)) ∧
    (run_prm c1grid (0, 0) (5, 2) 0 10 5 false (fun _ => (0, 0)) =
        some ⟨[(0, 0), (1, 0), (2, 1), (3, 1), (4, 2), (5, 2)], some 2, []⟩ ∧
      (⟨[(0, 0), (1, 0), (2, 1), (3, 1), (4, 2), (5, 2)], some 2, []⟩ : PlanResult).count =
        some (sampleLoop c1grid 0 (fun _ => (0, 0)) (0 * 3) [(0, 0), (5, 2)] 0).1.length) :=
  ⟨c9_sampling_budget.1 c9grid 2 c9stream (0, 0) (2, 2),
    c9_sampling_budget.2.1 c9grid 2 c9stream (0, 0) (2, 2),
    ⟨by decide, c9_sampling_budget.2.2.1 c9grid 2 c9stream (0, 0) (2, 2) (0, 1) (by decide)⟩,
    ⟨run_prm_c1_eval,
      c9_sampling_budget.2.2.2 c1grid (0, 0) (5, 2) 0 10 5 false (fun _ => (0, 0)) _
        run_prm_c1_eval⟩⟩

/-- C5: Lazy PRM's failed validation marks the failing edge invalid in both
directions; relaxation never creates a parent link along an invalidated edge
(so the edge is excluded from every subsequent search); a failed attempt
passes its accumulated validated/invalid sets to the next retry; and when
the retries are exhausted the run returns an empty path together with the
sample count. -/
theorem c5_lazy_invalidation :
    (∀ g path validated invalid v' inv',
        lazyValidate g path validated invalid = (false, v', inv') →
        ∃ a b, line_collision g a b = true ∧ inv' = invalid ++ [(a, b), (b, a)]) ∧
    (∀ (G : WGraph) (inv : List (Point × Point)) (cur : Point) (cd : ℝ)
        (vis : List Point) (st : List (ℝ × Point) × List (Point × ℝ) × Tree)
        (p q : Point), (q, p) ∈ inv →
        treeFind (lazyRelaxAll G inv cur cd vis st).2.2 p = some (some q) →
        treeFind st.2.2 p = some (some q)) ∧
    (∀ g G start goal fuel v i v2 i2,
        lazy_dijkstra g G start goal v i = some (none, v2, i2) →
        lazyAttempts g G start goal (fuel + 1) v i =
          lazyAttempts g G start goal fuel v2 i2) ∧
    (∀ g start goal ns radius mn mr an (stream : ℕ → Point),
        lazyAttempts g
          (lazyConnect an (sampleLoop g ns stream (ns * 3) [start, goal] 0).1 radius mn).1
          start goal mr [] [] = some none →
        run_lazy_prm g start goal ns radius mn mr an stream =
          some ⟨[], some (sampleLoop g ns stream (ns * 3) [start, goal] 0).1.length,
            (lazyConnect an (sampleLoop g ns stream (ns * 3) [start, goal] 0).1
              radius mn).2.2⟩) := by
  refine ⟨?_, ?_, ?_, ?_⟩
  · intro g path
    induction path with
    | nil => intro validated invalid v' inv' h; cases h
    | cons a t ih =>
      intro validated invalid v' inv' h
      rcases t with _ | ⟨b, rest⟩
      · cases h
      · rw [lazyValidate] at h
        split_ifs at h with hmem hcol
        · exact ih validated invalid v' inv' h
        · simp only [Prod.mk.injEq] at h
          exact ⟨a, b, hcol, h.2.2.symm⟩
        · exact ih _ invalid v' inv' h
  · intro G inv cur cd vis st p q hinv
    classical
    rw [lazyRelaxAll]
    have main : ∀ (l : List (Point × ℝ))
        (st2 : List (ℝ × Point) × List (Point × ℝ) × Tree),
        treeFind (l.foldl
          (fun st2 e =>
            if e.1 ∈ vis then st2
            else if (cur, e.1) ∈ inv then st2
            else
              let nd := cd + e.2
              let improves :=
                match dmapFind st2.2.1 e.1 with
                | none => True
                | some dOld => nd < dOld
              if improves then
                (st2.1 ++ [(nd, e.1)], (e.1, nd) :: st2.2.1,
                  treeInsert st2.2.2 e.1 (some cur))
              else st2)
          st2).2.2 p = some (some q) → treeFind st2.2.2 p = some (some q) := by
      intro l
      induction l with
      | nil => intro st2 h; exact h
      | cons e l ihl =>
        intro st2 h
        rw [List.foldl_cons] at h
        have := ihl _ h
        revert this
        dsimp only
        split_ifs with hv hi himp
        · exact id
        · exact id
        · intro hfind
          rw [treeInsert, treeFind_cons] at hfind
          split_ifs at hfind with hpe
          · simp only [Option.some.injEq] at hfind
            rw [← hfind] at hinv
            rw [hpe] at hi
            exact absurd hinv hi
          · exact hfind
        · exact id
    exact main _ st
  · intro g G start goal fuel v i v2 i2 h
    rw [lazyAttempts, h]
  · intro g start goal ns radius mn mr an stream h
    rw [run_lazy_prm, h]

theorem c5_lazy_invalidation_witness :
    (lazyValidate c5grid [(0, 0), (1, 0)] [] [] =
        (false, [], [((0, 0), (1, 0)), ((1, 0), (0, 0))]) ∧
      ∃ a b, line_collision c5grid a b = true ∧
        ([((0, 0), (1, 0)), ((1, 0), (0, 0))] : List (Point × Point)) =
          [] ++ [(a, b), (b, a)]) ∧
    ((((0 : ℤ), (1 : ℤ)), ((0 : ℤ), (0 : ℤ))) ∈
        ([(((0 : ℤ), (1 : ℤ)), ((0 : ℤ), (0 : ℤ)))] : List (Point × Point)) ∧
      treeFind (lazyRelaxAll [] [((0, 1), (0, 0))] (0, 0) 0 []
          ([], [], [((0, 0), some (0, 1))])).2.2 (0, 0) = some (some (0, 1)) ∧
      treeFind ([((0, 0), some (0, 1))] : Tree) (0, 0) = some (some (0, 1))) ∧
    (lazy_dijkstra (freeGrid 2) [] (0, 0) (1, 1) [] [] = some (none, [], []) ∧
      lazyAttempts (freeGrid 2) [] (0, 0) (1, 1) (0 + 1) [] [] =
        lazyAttempts (freeGrid 2) [] (0, 0) (1, 1) 0 [] []) ∧
    (lazyAttempts (freeGrid 2)
        (lazyConnect false
          (sampleLoop (freeGrid 2) 0 (fun _ => (0, 0)) (0 * 3) [(0, 0), (0, 1)] 0).1
          10 5).1 (0, 0) (0, 1) 0 [] [] = some none ∧
      run_lazy_prm (freeGrid 2) (0, 0) (0, 1) 0 10 5 0 false (fun _ => (0, 0)) =
        some ⟨[],
          some (sampleLoop (freeGrid 2) 0 (fun _ => (0, 0)) (0 * 3)
            [(0, 0), (0, 1)] 0).1.length,
          (lazyConnect false
            (sampleLoop (freeGrid 2) 0 (fun _ => (0, 0)) (0 * 3) [(0, 0), (0, 1)] 0).1
            10 5).2.2⟩) := by
  have hval : lazyValidate c5grid [(0, 0), (1, 0)] [] [] =
      (false, [], [((0, 0), (1, 0)), ((1, 0), (0, 0))]) := by decide
  have hdij : lazy_dijkstra (freeGrid 2) [] (0, 0) (1, 1) [] [] = some (none, [], []) := by
    simp +decide [lazy_dijkstra, lazyDijkstraLoop, graphWeight, pqMin, lazyRelaxAll,
      graphGet, dmapFind, treeFind, walkParents, List.find?]
  refine ⟨⟨hval, c5_lazy_invalidation.1 c5grid [(0, 0), (1, 0)] [] [] _ _ hval⟩,
    ⟨by decide, ?_⟩, ⟨hdij, ?_⟩, ⟨rfl, ?_⟩⟩
  · refine ⟨rfl, c5_lazy_invalidation.2.1 [] [((0, 1), (0, 0))] (0, 0) 0 []
      ([], [], [((0, 0), some (0, 1))]) (0, 0) (0, 1) (by decide) rfl⟩
  · exact c5_lazy_invalidation.2.2.1 (freeGrid 2) [] (0, 0) (1, 1) 0 [] [] [] [] hdij
  · exact c5_lazy_invalidation.2.2.2 (freeGrid 2) (0, 0) (0, 1) 0 10 5 0 false
      (fun _ => (0, 0)) rfl

/-! ### C2: collision checking of inserted edges -/

theorem LinksClear_insert (g : Grid) (t : Tree) (p q : Point) (h : LinksClear g t)
    (hc : line_is_clear g q p = true) : LinksClear g (treeInsert t p (some q)) := by
  intro x y hxy
  rw [treeInsert, treeFind_cons] at hxy
  split_ifs at hxy with hpx
  · simp only [Option.some.injEq] at hxy
    rw [← hxy, ← hpx]
    exact hc
  · exact h x y hxy

open scoped Classical in
theorem starChooseParent_clear (g : Grid) (costs : List (Point × ℝ)) (step : Point) :
    ∀ (l : List Point) (pc : Point × ℝ), line_is_clear g pc.1 step = true →
      line_is_clear g
        (l.foldl
          (fun pc n =>
            if !(line_is_clear g n step) then pc
            else
              let c := costGet costs n + distR n step
              if c < pc.2 then (n, c) else pc)
          pc).1 step = true := by
  intro l
  induction l with
  | nil => intro pc h; exact h
  | cons n l ih =>
    intro pc h
    rw [List.foldl_cons]
    refine ih _ ?_
    dsimp only
    split_ifs with hcl hlt
    · exact h
    · simpa using hcl
    · exact h

theorem starChooseParent_clear_apply (g : Grid) (costs : List (Point × ℝ))
    (near : List Point) (nearest step : Point)
    (h : line_is_clear g nearest step = true) :
    line_is_clear g (starChooseParent g costs near nearest step).1 step = true := by
  rw [starChooseParent]
  exact starChooseParent_clear g costs step near
    (nearest, costGet costs nearest + distR nearest step) h

theorem starRewireOne_links (g : Grid) (step parent : Point)
    (st : Tree × List (Point × ℝ) × List (Point × Point)) (n : Point)
    (h : LinksClear g st.1) : LinksClear g (starRewireOne g step parent st n).1 := by
  rw [starRewireOne]
  split_ifs with hp hcl
  · exact h
  · exact h
  · dsimp only
    split_ifs with hlt
    · exact LinksClear_insert g st.1 n step h (by simpa using hcl)
    · exact h

theorem starRewireFold_links (g : Grid) (step parent : Point) :
    ∀ (l : List Point) (st : Tree × List (Point × ℝ) × List (Point × Point)),
      LinksClear g st.1 → LinksClear g (l.foldl (starRewireOne g step parent) st).1 := by
  intro l
  induction l with
  | nil => intro st h; exact h
  | cons n l ih =>
    intro st h
    rw [List.foldl_cons]
    exact ih _ (starRewireOne_links g step parent st n h)

/-- C2 (amended): rrt_star.py checks `line_is_clear` before every insertion
(the steered edge, the chosen-parent edge and every rewired edge), so each of
its steps preserves collision-freedom of all parent links; but
informed_rrt_start.py's parent scan seeds `min_parent = nearest` *without* a
collision check and only replaces it by checked candidates, so when every
nearby candidate fails the check the steered point is inserted with an
unchecked (possibly colliding) edge to `nearest`, as `c2_counterexample`
exhibits. -/
theorem c2_star_step_links_clear (g : Grid) (goal : Point) (ss : ℤ) (tol : ℚ)
    (rr : ℝ) (an : Bool) (s : StarState) (samp : Samp)
    (h : LinksClear g s.tree) :
    LinksClear g (rrtStarStep g goal ss tol rr an s samp).1.tree := by
  rw [rrtStarStep.eq_def]
  dsimp only
  cases hs : steer (argminNodes (sampPoint goal samp) s.nodes) (sampPoint goal samp) ss with
  | none => exact h
  | some step =>
    dsimp only
    split_ifs with hb hc hcl hsucc
    · exact h
    · exact h
    · exact h
    · dsimp only
      refine LinksClear_insert g _ goal step ?_ ?_
      · refine starRewireFold_links g step _ _ _ ?_
        refine LinksClear_insert g s.tree step _ h ?_
        exact starChooseParent_clear_apply g s.costs _ _ step (by simpa using hcl)
      · simp only [Bool.and_eq_true] at hsucc
        exact hsucc.2
    · dsimp only
      refine starRewireFold_links g step _ _ _ ?_
      refine LinksClear_insert g s.tree step _ h ?_
      exact starChooseParent_clear_apply g s.costs _ _ step (by simpa using hcl)

theorem c2_star_step_links_clear_witness :
    LinksClear c2grid ([((0, 0), none)] : Tree) ∧
    LinksClear c2grid
      (rrtStarStep c2grid (2, 2) 1 1 5 false
        ⟨[((0, 0), none)], [((0, 0), 0)], [(0, 0)], [], []⟩ (.rand (2, 2))).1.tree := by
  have h0 : LinksClear c2grid ([((0, 0), none)] : Tree) := by
    intro p q hpq
    rw [treeFind_cons] at hpq
    split_ifs at hpq with hp
    · cases hpq
    · rw [treeFind] at hpq
      simp at hpq
  exact ⟨h0, c2_star_step_links_clear c2grid (2, 2) 1 1 5 false
    ⟨[((0, 0), none)], [((0, 0), 0)], [(0, 0)], [], []⟩ (.rand (2, 2)) h0⟩

/-- C2: an Informed RRT* iteration that inserts a colliding edge: from the
two-node situation start (0,0), sample (2,2), the steered point (1,1) has the
only nearby candidate (0,0) rejected by the collision check (the segment
(0,0)–(1,1) crosses the obstacle at (0,1)), so the scan's unchecked seed
`min_parent = nearest` is kept and the edge (0,0)→(1,1) is inserted anyway. -/
theorem c2_counterexample :
    (informedStep c2grid (0, 0) (2, 2) 1 1 5 0 false
        ⟨[((0, 0), none)], [((0, 0), ((0 : ℝ) : WithTop ℝ))], [(0, 0)], [], [], ⊤, false⟩
        c2draw).tree = [((1, 1), some (0, 0)), ((0, 0), none)] ∧
    line_collision c2grid (0, 0) (1, 1) = true := by
  have hfil : distR (0, 0) (1, 1) ≤ (5 : ℝ) := by
    rw [distR, show ((squaredDist ((0 : ℤ), (0 : ℤ)) ((1 : ℤ), (1 : ℤ)) : ℕ) : ℝ) = 2
      from by norm_num [squaredDist]]
    rw [show (5 : ℝ) = Real.sqrt 25 from by
      rw [show (25 : ℝ) = 5 ^ 2 from by norm_num,
        Real.sqrt_sq (by norm_num : (0 : ℝ) ≤ 5)]]
    exact Real.sqrt_le_sqrt (by norm_num)
  have hst : steer (argminNodes (2, 2) [((0 : ℤ), (0 : ℤ))]) (2, 2) 1 = some (1, 1) := by
    decide
  constructor
  · rw [informedStep.eq_def]
    simp +decide [-Prod.mk_zero_zero, -Prod.mk_one_one, c2draw, sampPoint, hst, hfil,
      wcostGet, infChooseParent, infRewireOne, treeInsert, List.filter, List.find?,
      WithTop.top_add]
  · decide

theorem sqrtd (a b : Point) (n : ℕ) (h : squaredDist a b = n) :
    distR a b = Real.sqrt n := by
  rw [distR, h]

set_option maxHeartbeats 3000000 in
/-- C8: after four rrt_star.py iterations on a free 7×7 grid (chain
(0,0)→(2,0)→(2,2)→(2,4) with costs 2, 4, 6, then the insertion of (1,1)
rewires (2,2) to the cheaper parent (1,1) with cost 2√2), the descendant
(2,4) still stores cost 6 while its parent's new cost-to-come plus the edge
length is 2√2 + 2 ≠ 6: the invariant fails for descendants of a rewired
node. -/
theorem c8_counterexample :
    treeFind (rrtStarLoop (freeGrid 7) (6, 6) 2 1 2 false c8stream 4 1
        ⟨[((0, 0), none)], [((0, 0), 0)], [(0, 0)], [], []⟩).1.tree (2, 4) =
      some (some (2, 2)) ∧
    costGet (rrtStarLoop (freeGrid 7) (6, 6) 2 1 2 false c8stream 4 1
        ⟨[((0, 0), none)], [((0, 0), 0)], [(0, 0)], [], []⟩).1.costs (2, 4) ≠
      costGet (rrtStarLoop (freeGrid 7) (6, 6) 2 1 2 false c8stream 4 1
        ⟨[((0, 0), none)], [((0, 0), 0)], [(0, 0)], [], []⟩).1.costs (2, 2) +
        distR (2, 2) (2, 4) := by
  have h1s : 1 ≤ Real.sqrt 2 := by
    rw [show (1 : ℝ) = Real.sqrt 1 from (Real.sqrt_one).symm]
    exact Real.sqrt_le_sqrt (by norm_num)
  have h2s : Real.sqrt 2 ≤ 3 / 2 := by
    rw [show (3 / 2 : ℝ) = Real.sqrt ((3 / 2) ^ 2) from
      (Real.sqrt_sq (by norm_num : (0 : ℝ) ≤ 3 / 2)).symm]
    exact Real.sqrt_le_sqrt (by norm_num)
  have h4 : Real.sqrt 4 = 2 := by
    rw [show (4 : ℝ) = 2 ^ 2 from by norm_num, Real.sqrt_sq (by norm_num : (0 : ℝ) ≤ 2)]
  have hd_a : distR (0, 0) (2, 0) = 2 := by rw [sqrtd _ _ 4 (by decide)]; norm_num [h4]
  have hd_b : distR (2, 0) (2, 2) = 2 := by rw [sqrtd _ _ 4 (by decide)]; norm_num [h4]
  have hd_c : distR (2, 2) (2, 4) = 2 := by rw [sqrtd _ _ 4 (by decide)]; norm_num [h4]
  have hsq_f1 : distR (0, 0) (1, 1) = Real.sqrt 2 := by
    rw [sqrtd _ _ 2 (by decide)]; norm_num
  have hsq_f2 : distR (2, 0) (1, 1) = Real.sqrt 2 := by
    rw [sqrtd _ _ 2 (by decide)]; norm_num
  have hsq_f3 : distR (2, 2) (1, 1) = Real.sqrt 2 := by
    rw [sqrtd _ _ 2 (by decide)]; norm_num
  have hsq_r2 : distR (1, 1) (2, 0) = Real.sqrt 2 := by
    rw [sqrtd _ _ 2 (by decide)]; norm_num
  have hsq_r3 : distR (1, 1) (2, 2) = Real.sqrt 2 := by
    rw [sqrtd _ _ 2 (by decide)]; norm_num
  have hyr : Real.sqrt 2 ≤ 2 := by linarith
  have hgt4 : ∀ m : ℕ, 4 < m → ¬(Real.sqrt (m : ℝ) ≤ 2) := by
    intro m hm
    rw [not_le, show (2 : ℝ) = Real.sqrt 4 from by rw [h4]]
    refine Real.sqrt_lt_sqrt (by norm_num) ?_
    exact_mod_cast hm
  have hn1 : ¬(distR (0, 0) (2, 2) ≤ 2) := by
    rw [sqrtd _ _ 8 (by decide)]; exact hgt4 8 (by norm_num)
  have hn2 : ¬(distR (0, 0) (2, 4) ≤ 2) := by
    rw [sqrtd _ _ 20 (by decide)]; exact hgt4 20 (by norm_num)
  have hn3 : ¬(distR (2, 0) (2, 4) ≤ 2) := by
    rw [sqrtd _ _ 16 (by decide)]; exact hgt4 16 (by norm_num)
  have hn4 : ¬(distR (2, 4) (1, 1) ≤ 2) := by
    rw [sqrtd _ _ 10 (by decide)]; exact hgt4 10 (by norm_num)
  have hg1 : ¬(2 + Real.sqrt 2 < Real.sqrt 2) := by linarith
  have hg2 : ¬(4 + Real.sqrt 2 < Real.sqrt 2) := by linarith
  have hinv : (1000000 : ℝ)⁻¹ = 1 / 1000000 := by norm_num
  have hcA : ¬((((Real.sqrt 2 + Real.sqrt 2 + (1000000 : ℝ)⁻¹ : ℝ)) : WithTop ℝ) <
      (2 : WithTop ℝ)) := by
    rw [show (2 : WithTop ℝ) = ((2 : ℝ) : WithTop ℝ) from rfl, WithTop.coe_lt_coe, hinv]
    intro hc
    linarith
  have hcB : (((Real.sqrt 2 + Real.sqrt 2 + (1000000 : ℝ)⁻¹ : ℝ)) : WithTop ℝ) <
      (4 : WithTop ℝ) := by
    rw [show (4 : WithTop ℝ) = ((4 : ℝ) : WithTop ℝ) from rfl, WithTop.coe_lt_coe, hinv]
    linarith
  have hst1 : steer ((0 : ℤ), (0 : ℤ)) (4, 0) 2 = some (2, 0) := by decide
  have hst2 : steer ((2 : ℤ), (0 : ℤ)) (2, 4) 2 = some (2, 2) := by decide
  have hst3 : steer ((2 : ℤ), (2 : ℤ)) (2, 6) 2 = some (2, 4) := by decide
  have hst4 : steer ((0 : ℤ), (0 : ℤ)) (1, 1) 2 = some (1, 1) := by decide
  have hstep1 :
      rrtStarStep (freeGrid 7) (6, 6) 2 1 2 false
        ⟨[((0, 0), none)], [((0, 0), 0)], [(0, 0)], [], []⟩ (.rand (4, 0)) =
      (⟨[((2, 0), some (0, 0)), ((0, 0), none)], [((2, 0), 2), ((0, 0), 0)],
        [(0, 0), (2, 0)], [((0, 0), (2, 0))], []⟩, none) := by
    rw [rrtStarStep.eq_def]
    simp +decide [-Prod.mk_zero_zero, -Prod.mk_one_one, sampPoint, hst1, hd_a, argminNodes,
      starChooseParent, starRewireOne, costGet, costGetTop, dmapFind, treeInsert,
      treeFind, List.find?, List.filter]
  have hstep2 :
      rrtStarStep (freeGrid 7) (6, 6) 2 1 2 false
        ⟨[((2, 0), some (0, 0)), ((0, 0), none)], [((2, 0), 2), ((0, 0), 0)],
          [(0, 0), (2, 0)], [((0, 0), (2, 0))], []⟩ (.rand (2, 4)) =
      (⟨[((2, 2), some (2, 0)), ((2, 0), some (0, 0)), ((0, 0), none)],
        [((2, 2), 4), ((2, 0), 2), ((0, 0), 0)],
        [(0, 0), (2, 0), (2, 2)], [((0, 0), (2, 0)), ((2, 0), (2, 2))], []⟩, none) := by
    rw [rrtStarStep.eq_def]
    simp +decide [-Prod.mk_zero_zero, -Prod.mk_one_one, sampPoint, hst2, hd_b, hn1,
      argminNodes, starChooseParent, starRewireOne, costGet, costGetTop, dmapFind,
      treeInsert, treeFind, List.find?, List.filter]
    norm_num
  have hstep3 :
      rrtStarStep (freeGrid 7) (6, 6) 2 1 2 false
        ⟨[((2, 2), some (2, 0)), ((2, 0), some (0, 0)), ((0, 0), none)],
          [((2, 2), 4), ((2, 0), 2), ((0, 0), 0)],
          [(0, 0), (2, 0), (2, 2)], [((0, 0), (2, 0)), ((2, 0), (2, 2))], []⟩
        (.rand (2, 6)) =
      (⟨[((2, 4), some (2, 2)), ((2, 2), some (2, 0)), ((2, 0), some (0, 0)),
          ((0, 0), none)],
        [((2, 4), 6), ((2, 2), 4), ((2, 0), 2), ((0, 0), 0)],
        [(0, 0), (2, 0), (2, 2), (2, 4)],
        [((0, 0), (2, 0)), ((2, 0), (2, 2)), ((2, 2), (2, 4))], []⟩, none) := by
    rw [rrtStarStep.eq_def]
    simp +decide [-Prod.mk_zero_zero, -Prod.mk_one_one, sampPoint, hst3, hd_c, hn2, hn3,
      argminNodes, starChooseParent, starRewireOne, costGet, costGetTop, dmapFind,
      treeInsert, treeFind, List.find?, List.filter]
    norm_num
  have hstep4 :
      rrtStarStep (freeGrid 7) (6, 6) 2 1 2 false
        ⟨[((2, 4), some (2, 2)), ((2, 2), some (2, 0)), ((2, 0), some (0, 0)),
            ((0, 0), none)],
          [((2, 4), 6), ((2, 2), 4), ((2, 0), 2), ((0, 0), 0)],
          [(0, 0), (2, 0), (2, 2), (2, 4)],
          [((0, 0), (2, 0)), ((2, 0), (2, 2)), ((2, 2), (2, 4))], []⟩
        (.rand (1, 1)) =
      (⟨[((2, 2), some (1, 1)), ((1, 1), some (0, 0)), ((2, 4), some (2, 2)),
          ((2, 2), some (2, 0)), ((2, 0), some (0, 0)), ((0, 0), none)],
        [((2, 2), Real.sqrt 2 + Real.sqrt 2), ((1, 1), Real.sqrt 2), ((2, 4), 6),
          ((2, 2), 4), ((2, 0), 2), ((0, 0), 0)],
        [(0, 0), (2, 0), (2, 2), (2, 4), (1, 1)],
        [((0, 0), (2, 0)), ((2, 2), (2, 4)), ((0, 0), (1, 1)), ((1, 1), (2, 2))],
        []⟩, none) := by
    rw [rrtStarStep.eq_def]
    simp +decide [-Prod.mk_zero_zero, -Prod.mk_one_one, sampPoint, hst4, hsq_f1, hsq_f2,
      hsq_f3, hsq_r2, hsq_r3, hn4, hyr, hg1, hg2, hcA, hcB, argminNodes,
      -WithTop.coe_add, starChooseParent, starRewireOne, costGet, costGetTop, dmapFind,
      treeInsert, treeFind, List.find?, List.filter]
  have hloop : rrtStarLoop (freeGrid 7) (6, 6) 2 1 2 false c8stream 4 1
      ⟨[((0, 0), none)], [((0, 0), 0)], [(0, 0)], [], []⟩ =
      (⟨[((2, 2), some (1, 1)), ((1, 1), some (0, 0)), ((2, 4), some (2, 2)),
          ((2, 2), some (2, 0)), ((2, 0), some (0, 0)), ((0, 0), none)],
        [((2, 2), Real.sqrt 2 + Real.sqrt 2), ((1, 1), Real.sqrt 2), ((2, 4), 6),
          ((2, 2), 4), ((2, 0), 2), ((0, 0), 0)],
        [(0, 0), (2, 0), (2, 2), (2, 4), (1, 1)],
        [((0, 0), (2, 0)), ((2, 2), (2, 4)), ((0, 0), (1, 1)), ((1, 1), (2, 2))],
        []⟩, none) := by
    have hl4 : rrtStarLoop (freeGrid 7) (6, 6) 2 1 2 false c8stream 4 1
        ⟨[((0, 0), none)], [((0, 0), 0)], [(0, 0)], [], []⟩ = rrtStarLoop (freeGrid 7) (6, 6) 2 1 2 false c8stream 3 2
        (⟨[((2, 0), some (0, 0)), ((0, 0), none)], [((2, 0), 2), ((0, 0), 0)],
        [(0, 0), (2, 0)], [((0, 0), (2, 0))], []⟩) := by
      show rrtStarLoop (freeGrid 7) (6, 6) 2 1 2 false c8stream (3 + 1) 1 ⟨[((0, 0), none)], [((0, 0), 0)], [(0, 0)], [], []⟩ = _
      rw [rrtStarLoop, show c8stream 1 = Samp.rand (4, 0) from rfl, hstep1]
    have hl3 : rrtStarLoop (freeGrid 7) (6, 6) 2 1 2 false c8stream 3 2
        (⟨[((2, 0), some (0, 0)), ((0, 0), none)], [((2, 0), 2), ((0, 0), 0)],
        [(0, 0), (2, 0)], [((0, 0), (2, 0))], []⟩) = rrtStarLoop (freeGrid 7) (6, 6) 2 1 2 false c8stream 2 3
        (⟨[((2, 2), some (2, 0)), ((2, 0), some (0, 0)), ((0, 0), none)],
        [((2, 2), 4), ((2, 0), 2), ((0, 0), 0)],
        [(0, 0), (2, 0), (2, 2)], [((0, 0), (2, 0)), ((2, 0), (2, 2))], []⟩) := by
      show rrtStarLoop (freeGrid 7) (6, 6) 2 1 2 false c8stream (2 + 1) 2 _ = _
      rw [rrtStarLoop, show c8stream 2 = Samp.rand (2, 4) from rfl, hstep2]
    have hl2 : rrtStarLoop (freeGrid 7) (6, 6) 2 1 2 false c8stream 2 3
        (⟨[((2, 2), some (2, 0)), ((2, 0), some (0, 0)), ((0, 0), none)],
        [((2, 2), 4), ((2, 0), 2), ((0, 0), 0)],
        [(0, 0), (2, 0), (2, 2)], [((0, 0), (2, 0)), ((2, 0), (2, 2))], []⟩) = rrtStarLoop (freeGrid 7) (6, 6) 2 1 2 false c8stream 1 4
        (⟨[((2, 4), some (2, 2)), ((2, 2), some (2, 0)), ((2, 0), some (0, 0)),
          ((0, 0), none)],
        [((2, 4), 6), ((2, 2), 4), ((2, 0), 2), ((0, 0), 0)],
        [(0, 0), (2, 0), (2, 2), (2, 4)],
        [((0, 0), (2, 0)), ((2, 0), (2, 2)), ((2, 2), (2, 4))], []⟩) := by
      show rrtStarLoop (freeGrid 7) (6, 6) 2 1 2 false c8stream (1 + 1) 3 _ = _
      rw [rrtStarLoop, show c8stream 3 = Samp.rand (2, 6) from rfl, hstep3]
    have hl1 : rrtStarLoop (freeGrid 7) (6, 6) 2 1 2 false c8stream 1 4
        (⟨[((2, 4), some (2, 2)), ((2, 2), some (2, 0)), ((2, 0), some (0, 0)),
          ((0, 0), none)],
        [((2, 4), 6), ((2, 2), 4), ((2, 0), 2), ((0, 0), 0)],
        [(0, 0), (2, 0), (2, 2), (2, 4)],
        [((0, 0), (2, 0)), ((2, 0), (2, 2)), ((2, 2), (2, 4))], []⟩) =
        (⟨[((2, 2), some (1, 1)), ((1, 1), some (0, 0)), ((2, 4), some (2, 2)),
          ((2, 2), some (2, 0)), ((2, 0), some (0, 0)), ((0, 0), none)],
        [((2, 2), Real.sqrt 2 + Real.sqrt 2), ((1, 1), Real.sqrt 2), ((2, 4), 6),
          ((2, 2), 4), ((2, 0), 2), ((0, 0), 0)],
        [(0, 0), (2, 0), (2, 2), (2, 4), (1, 1)],
        [((0, 0), (2, 0)), ((2, 2), (2, 4)), ((0, 0), (1, 1)), ((1, 1), (2, 2))],
        []⟩, none) := by
      show rrtStarLoop (freeGrid 7) (6, 6) 2 1 2 false c8stream (0 + 1) 4 _ = _
      rw [rrtStarLoop, show c8stream 4 = Samp.rand (1, 1) from rfl, hstep4]
      rfl
    exact hl4.trans (hl3.trans (hl2.trans hl1))
  rw [hloop]
  refine ⟨by decide, ?_⟩
  dsimp only
  rw [show costGet [((2, 2), Real.sqrt 2 + Real.sqrt 2), ((1, 1), Real.sqrt 2),
      ((2, 4), 6), ((2, 2), 4), ((2, 0), 2), ((0, 0), 0)] (2, 4) = 6 from by
    simp +decide [-Prod.mk_zero_zero, -Prod.mk_one_one, costGet, dmapFind, List.find?]]
  rw [show costGet [((2, 2), Real.sqrt 2 + Real.sqrt 2), ((1, 1), Real.sqrt 2),
      ((2, 4), 6), ((2, 2), 4), ((2, 0), 2), ((0, 0), 0)] (2, 2) =
      Real.sqrt 2 + Real.sqrt 2 from by
    simp +decide [-Prod.mk_zero_zero, -Prod.mk_one_one, costGet, dmapFind, List.find?]]
  rw [hd_c]
  intro hcon
  nlinarith [h2s, h1s]

/-- C8 (amended): a rewire of rrt_star.py updates exactly the rewired node:
afterwards that node's parent link is the new point and its stored cost
satisfies the local equation (parent's cost plus edge length); every OTHER
node's parent link and stored cost are untouched — in particular the stored
costs of the rewired node's descendants are not recomputed, so the global
cost-to-come invariant is not restored after a rewire (`c8_counterexample`). -/
theorem c8_rewire_updates_only_target (g : Grid) (step parent : Point)
    (st : Tree × List (Point × ℝ) × List (Point × Point)) (n : Point) :
    starRewireOne g step parent st n = st ∨
    (treeFind (starRewireOne g step parent st n).1 n = some (some step) ∧
      costGet (starRewireOne g step parent st n).2.1 n =
        costGet st.2.1 step + distR step n ∧
      ∀ p, p ≠ n →
        treeFind (starRewireOne g step parent st n).1 p = treeFind st.1 p ∧
        costGet (starRewireOne g step parent st n).2.1 p = costGet st.2.1 p) := by
  rw [starRewireOne]
  split_ifs with hp hcl
  · exact Or.inl rfl
  · exact Or.inl rfl
  · dsimp only
    split_ifs with hlt
    · refine Or.inr ⟨treeFind_insert_self _ _ _, costGet_cons_self _ _ _, ?_⟩
      intro p hpn
      exact ⟨treeFind_insert_ne _ _ _ _ hpn, costGet_cons_ne _ _ _ _ hpn⟩
    · exact Or.inl rfl

end PathPlanner
